import Mathlib

/-!
Verification of the `ventu` batch inference protocol (`ventu/protocol.py`).

The development shallowly embeds `BatchProtocol` and the serialization
formats it relies on:

* big-endian byte encodings and the 4-byte length-prefixed frame codec
  (`BatchProtocol._request` / `BatchProtocol._response`);
* a model of the msgpack wire format as produced by
  `msgpack.Packer(autoreset=True, use_bin_type=True)` and consumed by
  `msgpack.unpackb(data, raw=False)`;
* a model of Python's `json.dumps` / `json.loads` for the text payload mode;
* the per-batch processing pipeline `BatchProtocol.process` and the
  reconnect loop `BatchProtocol.run`.

Python strings are modelled as lists of Unicode code points, bytes objects
as lists of naturals below 256, and floats by their IEEE-754 binary64 bit
patterns (the serializers only ever copy or reformat those bits; no
floating-point arithmetic is modelled).
-/

namespace Ventu

/-! ## Big-endian byte strings -/

/-- Big-endian bytes of `n`, `w` bytes wide (`n` is taken modulo `256 ^ w`). -/
def beBytes : Nat → Nat → List Nat
  | 0, _ => []
  | w + 1, n => beBytes w (n / 256) ++ [n % 256]

/-- Big-endian value of a byte string. -/
def beVal (bs : List Nat) : Nat := bs.foldl (fun acc b => acc * 256 + b) 0

@[simp] theorem beBytes_length (w n : Nat) : (beBytes w n).length = w := by
  induction w generalizing n with
  | zero => rfl
  | succ w ih => simp [beBytes, ih]

theorem beVal_snoc (bs : List Nat) (b : Nat) :
    beVal (bs ++ [b]) = beVal bs * 256 + b := by
  simp [beVal, List.foldl_append]

theorem beVal_beBytes_mod (w n : Nat) : beVal (beBytes w n) = n % 256 ^ w := by
  induction w generalizing n with
  | zero => simp [beBytes, beVal, Nat.mod_one]
  | succ w ih =>
    rw [beBytes, beVal_snoc, ih, pow_succ', Nat.mod_mul]
    omega

theorem beVal_beBytes (w n : Nat) (h : n < 256 ^ w) : beVal (beBytes w n) = n := by
  rw [beVal_beBytes_mod]
  exact Nat.mod_eq_of_lt h

theorem beBytes_lt (w n : Nat) : ∀ b ∈ beBytes w n, b < 256 := by
  induction w generalizing n with
  | zero => simp [beBytes]
  | succ w ih =>
    intro b hb
    simp only [beBytes, List.mem_append, List.mem_singleton] at hb
    rcases hb with h | h
    · exact ih _ b h
    · subst h; exact Nat.mod_lt _ (by norm_num)

/-! ## UTF-8 codec

Model of CPython's strict UTF-8 encoder/decoder, used by `json.loads` on
`bytes` input and by msgpack's `raw=False` string decoding.  Code points are
naturals; well-formed strings avoid the surrogate range and stay below
`0x110000`. -/

/-- A well-formed Unicode code point: below `0x110000` and not a surrogate. -/
def cpWF (c : Nat) : Prop := c < 0x110000 ∧ ¬ (0xD800 ≤ c ∧ c < 0xE000)

instance (c : Nat) : Decidable (cpWF c) := by unfold cpWF; infer_instance

/-- Well-formed Python string: every code point is a Unicode scalar value. -/
def strWF (s : List Nat) : Prop := ∀ c ∈ s, cpWF c

instance (s : List Nat) : Decidable (strWF s) := by
  unfold strWF; exact List.decidableBAll _ s

/-- UTF-8 encoding of a single code point (well-formed input assumed). -/
def utf8Char (c : Nat) : List Nat :=
  if c < 0x80 then [c]
  else if c < 0x800 then [0xC0 + c / 0x40, 0x80 + c % 0x40]
  else if c < 0x10000 then
    [0xE0 + c / 0x1000, 0x80 + c / 0x40 % 0x40, 0x80 + c % 0x40]
  else
    [0xF0 + c / 0x40000, 0x80 + c / 0x1000 % 0x40, 0x80 + c / 0x40 % 0x40,
      0x80 + c % 0x40]

/-- UTF-8 encoding of a string (list of code points). -/
def utf8Encode : List Nat → List Nat
  | [] => []
  | c :: cs => utf8Char c ++ utf8Encode cs

/-- Decode a two-byte UTF-8 sequence headed by `b`. -/
def utf8Step2 (b : Nat) : List Nat → Option (Nat × List Nat)
  | b2 :: rest =>
    if 0x80 ≤ b2 ∧ b2 < 0xC0 then some ((b - 0xC0) * 0x40 + (b2 - 0x80), rest)
    else none
  | [] => none

/-- Decode a three-byte UTF-8 sequence headed by `b`. -/
def utf8Step3 (b : Nat) : List Nat → Option (Nat × List Nat)
  | b2 :: b3 :: rest =>
    if (0x80 ≤ b2 ∧ b2 < 0xC0) ∧ (0x80 ≤ b3 ∧ b3 < 0xC0)
        ∧ ¬ (b = 0xE0 ∧ b2 < 0xA0) ∧ ¬ (b = 0xED ∧ 0xA0 ≤ b2) then
      some ((b - 0xE0) * 0x1000 + (b2 - 0x80) * 0x40 + (b3 - 0x80), rest)
    else none
  | [_] => none
  | [] => none

/-- Decode a four-byte UTF-8 sequence headed by `b`. -/
def utf8Step4 (b : Nat) : List Nat → Option (Nat × List Nat)
  | b2 :: b3 :: b4 :: rest =>
    if (0x80 ≤ b2 ∧ b2 < 0xC0) ∧ (0x80 ≤ b3 ∧ b3 < 0xC0) ∧ (0x80 ≤ b4 ∧ b4 < 0xC0)
        ∧ ¬ (b = 0xF0 ∧ b2 < 0x90) ∧ ¬ (b = 0xF4 ∧ 0x90 ≤ b2) then
      some ((b - 0xF0) * 0x40000 + (b2 - 0x80) * 0x1000 + (b3 - 0x80) * 0x40
        + (b4 - 0x80), rest)
    else none
  | [_, _] => none
  | [_] => none
  | [] => none

/-- Decode one code point from the head of a byte string; strict checks for
continuation bytes, overlong forms, surrogates and the Unicode range, as in
CPython's UTF-8 decoder. -/
def utf8Step : List Nat → Option (Nat × List Nat)
  | [] => none
  | b :: bs =>
    if b < 0x80 then some (b, bs)
    else if b < 0xC2 then none
    else if b < 0xE0 then utf8Step2 b bs
    else if b < 0xF0 then utf8Step3 b bs
    else if b < 0xF5 then utf8Step4 b bs
    else none

/-- Fuel-driven full decoding loop; each code point consumes at least one
byte, so fuel equal to the byte length always suffices. -/
def utf8DecodeGo : Nat → List Nat → Option (List Nat)
  | _, [] => some []
  | 0, _ :: _ => none
  | f + 1, l =>
    match utf8Step l with
    | some (c, rest) => (utf8DecodeGo f rest).map (c :: ·)
    | none => none

/-- Strict UTF-8 decoding of a whole byte string; `none` models a Python
`UnicodeDecodeError`. -/
def utf8Decode (bs : List Nat) : Option (List Nat) := utf8DecodeGo bs.length bs

theorem utf8Step_char (c : Nat) (bs : List Nat) (h : cpWF c) :
    utf8Step (utf8Char c ++ bs) = some (c, bs) := by
  obtain ⟨hlt, hsur⟩ := h
  unfold utf8Char
  by_cases h1 : c < 0x80
  · rw [if_pos h1]
    simp only [List.singleton_append, utf8Step]
    rw [if_pos h1]
  · rw [if_neg h1]
    by_cases h2 : c < 0x800
    · rw [if_pos h2]
      simp only [List.cons_append, List.nil_append, utf8Step]
      rw [if_neg (by omega), if_neg (by omega), if_pos (by omega)]
      simp only [utf8Step2]
      rw [if_pos (by omega)]
      have hv : (0xC0 + c / 0x40 - 0xC0) * 0x40 + (0x80 + c % 0x40 - 0x80) = c := by
        omega
      rw [hv]
    · rw [if_neg h2]
      by_cases h3 : c < 0x10000
      · rw [if_pos h3]
        simp only [List.cons_append, List.nil_append, utf8Step]
        rw [if_neg (by omega), if_neg (by omega), if_neg (by omega),
          if_pos (by omega)]
        simp only [utf8Step3]
        rw [if_pos ?_]
        · have hv : (0xE0 + c / 0x1000 - 0xE0) * 0x1000
              + (0x80 + c / 0x40 % 0x40 - 0x80) * 0x40 + (0x80 + c % 0x40 - 0x80) = c := by
            omega
          rw [hv]
        · refine ⟨⟨by omega, by omega⟩, ⟨by omega, by omega⟩, ?_, ?_⟩
          · rintro ⟨he, hb2⟩
            have : c / 0x1000 = 0 := by omega
            omega
          · rintro ⟨he, hb2⟩
            have : c / 0x1000 = 0xD := by omega
            have hclo : 0xD000 ≤ c := by omega
            have hchi : c < 0xE000 := by omega
            have : c < 0xD800 := by
              rcases Nat.lt_or_ge c 0xD800 with hc | hc
              · exact hc
              · exact absurd ⟨hc, hchi⟩ hsur
            omega
      · rw [if_neg h3]
        simp only [List.cons_append, List.nil_append, utf8Step]
        rw [if_neg (by omega), if_neg (by omega), if_neg (by omega),
          if_neg (by omega), if_pos (by omega)]
        simp only [utf8Step4]
        rw [if_pos ?_]
        · have hv : (0xF0 + c / 0x40000 - 0xF0) * 0x40000
              + (0x80 + c / 0x1000 % 0x40 - 0x80) * 0x1000
              + (0x80 + c / 0x40 % 0x40 - 0x80) * 0x40 + (0x80 + c % 0x40 - 0x80) = c := by
            omega
          rw [hv]
        · refine ⟨⟨by omega, by omega⟩, ⟨by omega, by omega⟩, ⟨by omega, by omega⟩,
            ?_, ?_⟩
          · rintro ⟨he, hb2⟩
            have : c / 0x40000 = 0 := by omega
            have : c < 0x40000 := by omega
            have : 0x10 ≤ c / 0x1000 := by omega
            omega
          · rintro ⟨he, hb2⟩
            have : c / 0x40000 = 4 := by omega
            have : c / 0x1000 < 0x110 := by omega
            have : 0x100 ≤ c / 0x1000 := by omega
            omega

theorem utf8Char_ne_nil (c : Nat) : utf8Char c ≠ [] := by
  unfold utf8Char
  repeat' split
  all_goals simp

theorem utf8DecodeGo_step (f : Nat) (l rest : List Nat) (c : Nat)
    (hs : utf8Step l = some (c, rest)) :
    utf8DecodeGo (f + 1) l = (utf8DecodeGo f rest).map (c :: ·) := by
  cases l with
  | nil => simp [utf8Step] at hs
  | cons x xs =>
    simp only [utf8DecodeGo]
    rw [hs]

theorem utf8DecodeGo_encode (s : List Nat) (f : Nat) (hf : s.length ≤ f)
    (h : strWF s) : utf8DecodeGo f (utf8Encode s) = some s := by
  induction s generalizing f with
  | nil => cases f <;> rfl
  | cons c cs ih =>
    have hc : cpWF c := h c (List.mem_cons_self c cs)
    have hcs : strWF cs := fun x hx => h x (List.mem_cons_of_mem c hx)
    obtain ⟨f', rfl⟩ : ∃ f', f = f' + 1 := by
      cases f with
      | zero => exact absurd hf (by simp)
      | succ f' => exact ⟨f', rfl⟩
    have hne : utf8Encode (c :: cs) = utf8Char c ++ utf8Encode cs := rfl
    have hchar := utf8Step_char c (utf8Encode cs) hc
    rw [hne, utf8DecodeGo_step f' _ _ c hchar,
      ih f' (by simpa using Nat.le_of_succ_le_succ hf) hcs]
    rfl

theorem utf8Encode_length_ge (s : List Nat) : s.length ≤ (utf8Encode s).length := by
  induction s with
  | nil => simp [utf8Encode]
  | cons c cs ih =>
    have : 1 ≤ (utf8Char c).length := by
      have := utf8Char_ne_nil c
      cases hc : utf8Char c with
      | nil => exact absurd hc this
      | cons x xs => simp
    simp only [utf8Encode, List.length_append, List.length_cons]
    omega

theorem utf8Decode_encode (s : List Nat) (h : strWF s) :
    utf8Decode (utf8Encode s) = some s :=
  utf8DecodeGo_encode s _ (utf8Encode_length_ge s) h

/-! ## Python values

`MsgValue` models the Python values exchanged through the serializers:
`None`, `bool`, `int`, `float` (by IEEE-754 binary64 bit pattern), `str`
(list of code points), `bytes` (list of byte values), `list` and
string-keyed `dict` (insertion-ordered).  `MsgList` and `MsgPairs` are the
list/dict spines, kept as separate mutual inductives so that all functions
over values are structurally recursive and computable. -/

mutual

inductive MsgValue where
  | nil
  | bool (b : Bool)
  | int (n : Int)
  | float (bits : Nat)
  | str (s : List Nat)
  | bin (bytes : List Nat)
  | arr (xs : MsgList)
  | map (kvs : MsgPairs)
  deriving DecidableEq

inductive MsgList where
  | nil
  | cons (v : MsgValue) (tl : MsgList)
  deriving DecidableEq

inductive MsgPairs where
  | nil
  | cons (k : List Nat) (v : MsgValue) (tl : MsgPairs)
  deriving DecidableEq

end

/-- Number of elements of a list spine. -/
def MsgList.length : MsgList → Nat
  | .nil => 0
  | .cons _ tl => tl.length + 1

/-- Number of entries of a dict spine. -/
def MsgPairs.length : MsgPairs → Nat
  | .nil => 0
  | .cons _ _ tl => tl.length + 1

/-- View of a dict spine as an ordinary association list. -/
def MsgPairs.toList : MsgPairs → List (List Nat × MsgValue)
  | .nil => []
  | .cons k v tl => (k, v) :: tl.toList

/-- Build a dict spine from an association list. -/
def MsgPairs.ofList : List (List Nat × MsgValue) → MsgPairs
  | [] => .nil
  | (k, v) :: tl => .cons k v (MsgPairs.ofList tl)

/-! ## Python exception kinds

The exception classes that `BatchProtocol` distinguishes (`protocol.py`
lines 67-76 catch `ValidationError`, `json.JSONDecodeError`,
`msgpack.ExtraData`, `msgpack.FormatError` and `msgpack.StackError`;
`run` line 133 catches `BrokenPipeError`), together with the other kinds
the modelled libraries can raise. -/

inductive PyExc where
  | validationError
  | jsonDecodeError
  | extraData
  | formatError
  | stackError
  | valueError
  | unicodeDecodeError
  | unicodeEncodeError
  | typeError
  | overflowError
  | structError
  | assertionError
  | attributeError
  | brokenPipeError
  | connectionResetError
  | osError
  deriving DecidableEq


instance {e a : Type} [DecidableEq e] [DecidableEq a] : DecidableEq (Except e a) :=
  fun x y =>
    match x, y with
    | .ok v, .ok w =>
      if h : v = w then .isTrue (by rw [h]) else .isFalse (by simp [h])
    | .error v, .error w =>
      if h : v = w then .isTrue (by rw [h]) else .isFalse (by simp [h])
    | .ok _, .error _ => .isFalse (by simp)
    | .error _, .ok _ => .isFalse (by simp)

/-! ## msgpack encoder

Model of `msgpack.Packer(autoreset=True, use_bin_type=True).pack` for the
value domain above.  `packVal` produces the wire bytes of a packable value;
`packErr` reproduces the exception the packer raises on unpackable input
(`OverflowError` for out-of-range ints, `UnicodeEncodeError` for lone
surrogates, `ValueError` for containers over the 32-bit size limits; byte
values above 255 cannot arise from Python `bytes` and are flagged
`ValueError` as a model-level guard). -/

/-- msgpack header for a string of `L` UTF-8 bytes. -/
def strHeader (L : Nat) : List Nat :=
  if L < 0x20 then [0xA0 + L]
  else if L < 0x100 then [0xD9, L]
  else if L < 0x10000 then 0xDA :: beBytes 2 L
  else 0xDB :: beBytes 4 L

/-- msgpack header for a bytes object of `L` bytes (`use_bin_type=True`). -/
def binHeader (L : Nat) : List Nat :=
  if L < 0x100 then [0xC4, L]
  else if L < 0x10000 then 0xC5 :: beBytes 2 L
  else 0xC6 :: beBytes 4 L

/-- msgpack header for an array of `L` elements. -/
def arrHeader (L : Nat) : List Nat :=
  if L < 0x10 then [0x90 + L]
  else if L < 0x10000 then 0xDC :: beBytes 2 L
  else 0xDD :: beBytes 4 L

/-- msgpack header for a map of `L` entries. -/
def mapHeader (L : Nat) : List Nat :=
  if L < 0x10 then [0x80 + L]
  else if L < 0x10000 then 0xDE :: beBytes 2 L
  else 0xDF :: beBytes 4 L

/-- msgpack encoding of an integer in `[-2^63, 2^64)`. -/
def packInt (n : Int) : List Nat :=
  if 0 ≤ n then
    if n.toNat < 0x80 then [n.toNat]
    else if n.toNat < 0x100 then [0xCC, n.toNat]
    else if n.toNat < 0x10000 then 0xCD :: beBytes 2 n.toNat
    else if n.toNat < 0x100000000 then 0xCE :: beBytes 4 n.toNat
    else 0xCF :: beBytes 8 n.toNat
  else
    if -0x20 ≤ n then [(n + 0x100).toNat]
    else if -0x80 ≤ n then [0xD0, (n + 0x100).toNat]
    else if -0x8000 ≤ n then 0xD1 :: beBytes 2 (n + 0x10000).toNat
    else if -0x80000000 ≤ n then 0xD2 :: beBytes 4 (n + 0x100000000).toNat
    else 0xD3 :: beBytes 8 (n + 0x10000000000000000).toNat

mutual

/-- msgpack wire bytes of a value (meaningful when `packErr v = none`). -/
def packVal : MsgValue → List Nat
  | .nil => [0xC0]
  | .bool false => [0xC2]
  | .bool true => [0xC3]
  | .int n => packInt n
  | .float bits => 0xCB :: beBytes 8 bits
  | .str s => strHeader (utf8Encode s).length ++ utf8Encode s
  | .bin bytes => binHeader bytes.length ++ bytes
  | .arr xs => arrHeader xs.length ++ packList xs
  | .map kvs => mapHeader kvs.length ++ packPairs kvs

/-- Concatenated msgpack encodings of the elements of a list spine. -/
def packList : MsgList → List Nat
  | .nil => []
  | .cons v tl => packVal v ++ packList tl

/-- Concatenated msgpack encodings of the entries of a dict spine. -/
def packPairs : MsgPairs → List Nat
  | .nil => []
  | .cons k v tl =>
    strHeader (utf8Encode k).length ++ utf8Encode k ++ packVal v ++ packPairs tl

end

/-- Packer exception for a string payload (also used for map keys). -/
def strPackErr (s : List Nat) : Option PyExc :=
  if strWF s then
    if (utf8Encode s).length < 0x100000000 then none else some .valueError
  else some .unicodeEncodeError

mutual

/-- First exception raised by the msgpack packer on this value, if any. -/
def packErr : MsgValue → Option PyExc
  | .nil => none
  | .bool _ => none
  | .int n =>
    if -0x8000000000000000 ≤ n ∧ n < 0x10000000000000000 then none
    else some .overflowError
  | .float bits => if bits < 2 ^ 64 then none else some .valueError
  | .str s => strPackErr s
  | .bin bytes =>
    if bytes.all (· < 256) then
      if bytes.length < 0x100000000 then none else some .valueError
    else some .valueError
  | .arr xs =>
    if xs.length < 0x100000000 then packErrList xs else some .valueError
  | .map kvs =>
    if kvs.length < 0x100000000 then packErrPairs kvs else some .valueError

/-- First packer exception among the elements of a list spine. -/
def packErrList : MsgList → Option PyExc
  | .nil => none
  | .cons v tl =>
    match packErr v with
    | some e => some e
    | none => packErrList tl

/-- First packer exception among the entries of a dict spine. -/
def packErrPairs : MsgPairs → Option PyExc
  | .nil => none
  | .cons k v tl =>
    match strPackErr k with
    | some e => some e
    | none =>
      match packErr v with
      | some e => some e
      | none => packErrPairs tl

end

/-- Model of `msgpack.Packer(autoreset=True, use_bin_type=True).pack`. -/
def packb (v : MsgValue) : Except PyExc (List Nat) :=
  match packErr v with
  | some e => .error e
  | none => .ok (packVal v)

/-! ## msgpack decoder

Model of `msgpack.unpackb(data, raw=False)`.  A single fuel-indexed
function interprets decoding tasks so that every definition is structurally
recursive and computable: `.val` decodes one value, `.many n` a sequence of
`n` array elements, `.pairs n` a sequence of `n` map entries.  Error kinds
follow msgpack-python: truncated input is `ValueError` (raised by `unpackb`
for incomplete data), the reserved byte `0xC1` is `FormatError`, trailing
bytes are `ExtraData`, invalid UTF-8 inside a `str` is `UnicodeDecodeError`
and non-string map keys are `ValueError` (`strict_map_key`).  Ext types
(`0xC7`-`0xC9`, `0xD4`-`0xD8`) and `float32` (`0xCA`), which this protocol
never produces, are conservatively mapped to `ValueError`.  Fuel is charged
per decoding step; the top level supplies more fuel than any input can
consume, with exhaustion nominally mapped to `StackError`. -/

/-- Read `w` bytes as a big-endian number. -/
def readBE (w : Nat) (b : List Nat) : Option (Nat × List Nat) :=
  if w ≤ b.length then some (beVal (b.take w), b.drop w) else none

/-- Read `w` raw bytes. -/
def readBytes (w : Nat) (b : List Nat) : Option (List Nat × List Nat) :=
  if w ≤ b.length then some (b.take w, b.drop w) else none

/-- Decoding task: one value, `n` array elements, or `n` map entries. -/
inductive UnpTask where
  | val (b : List Nat)
  | many (n : Nat) (b : List Nat)
  | pairs (n : Nat) (b : List Nat)

/-- Read `w` raw bytes and decode them as UTF-8 (msgpack `raw=False`). -/
def readStr (w : Nat) (b : List Nat) : Except PyExc (MsgValue × List Nat) :=
  match readBytes w b with
  | none => .error .valueError
  | some (bytes, rest) =>
    match utf8Decode bytes with
    | none => .error .unicodeDecodeError
    | some s => .ok (.str s, rest)

/-- Read `w` raw bytes as a bytes object. -/
def readBin (w : Nat) (b : List Nat) : Except PyExc (MsgValue × List Nat) :=
  match readBytes w b with
  | none => .error .valueError
  | some (bytes, rest) => .ok (.bin bytes, rest)

/-- Decode a length field of `w` bytes and then a string of that length. -/
def readStrSized (w : Nat) (b : List Nat) : Except PyExc (MsgValue × List Nat) :=
  match readBE w b with
  | none => .error .valueError
  | some (L, rest) => readStr L rest

/-- Decode a length field of `w` bytes and then a bytes object. -/
def readBinSized (w : Nat) (b : List Nat) : Except PyExc (MsgValue × List Nat) :=
  match readBE w b with
  | none => .error .valueError
  | some (L, rest) => readBin L rest

/-- Decode a `w`-byte unsigned big-endian integer value. -/
def readUint (w : Nat) (b : List Nat) : Except PyExc (MsgValue × List Nat) :=
  match readBE w b with
  | none => .error .valueError
  | some (m, rest) => .ok (.int m, rest)

/-- Decode a `w`-byte two's-complement big-endian integer value. -/
def readSint (w : Nat) (b : List Nat) : Except PyExc (MsgValue × List Nat) :=
  match readBE w b with
  | none => .error .valueError
  | some (m, rest) =>
    if m < 2 ^ (8 * w - 1) then .ok (.int m, rest)
    else .ok (.int ((m : Int) - 2 ^ (8 * w)), rest)

/-- Decode a float64 payload. -/
def readFloat (b : List Nat) : Except PyExc (MsgValue × List Nat) :=
  match readBE 8 b with
  | none => .error .valueError
  | some (bits, rest) => .ok (.float bits, rest)

/-- One header byte dispatch for tasks that recurse; returns the follow-up
task for containers, or the completed value for flat data. -/
inductive HeadStep where
  | done (v : MsgValue) (rest : List Nat)
  | goMany (n : Nat) (rest : List Nat)
  | goPairs (n : Nat) (rest : List Nat)
  | fail (e : PyExc)

/-- Dispatch on one msgpack header byte (model of the unpacker's switch). -/
def headStep (b : Nat) (bs : List Nat) : HeadStep :=
  if b < 0x80 then .done (.int b) bs
  else if b < 0x90 then .goPairs (b - 0x80) bs
  else if b < 0xA0 then .goMany (b - 0x90) bs
  else if b < 0xC0 then
    match readStr (b - 0xA0) bs with
    | .ok (v, rest) => .done v rest
    | .error e => .fail e
  else if b = 0xC0 then .done .nil bs
  else if b = 0xC1 then .fail .formatError
  else if b = 0xC2 then .done (.bool false) bs
  else if b = 0xC3 then .done (.bool true) bs
  else if b = 0xC4 then
    match readBinSized 1 bs with
    | .ok (v, rest) => .done v rest
    | .error e => .fail e
  else if b = 0xC5 then
    match readBinSized 2 bs with
    | .ok (v, rest) => .done v rest
    | .error e => .fail e
  else if b = 0xC6 then
    match readBinSized 4 bs with
    | .ok (v, rest) => .done v rest
    | .error e => .fail e
  else if b < 0xCB then .fail .valueError
  else if b = 0xCB then
    match readFloat bs with
    | .ok (v, rest) => .done v rest
    | .error e => .fail e
  else if b = 0xCC then
    match readUint 1 bs with
    | .ok (v, rest) => .done v rest
    | .error e => .fail e
  else if b = 0xCD then
    match readUint 2 bs with
    | .ok (v, rest) => .done v rest
    | .error e => .fail e
  else if b = 0xCE then
    match readUint 4 bs with
    | .ok (v, rest) => .done v rest
    | .error e => .fail e
  else if b = 0xCF then
    match readUint 8 bs with
    | .ok (v, rest) => .done v rest
    | .error e => .fail e
  else if b = 0xD0 then
    match readSint 1 bs with
    | .ok (v, rest) => .done v rest
    | .error e => .fail e
  else if b = 0xD1 then
    match readSint 2 bs with
    | .ok (v, rest) => .done v rest
    | .error e => .fail e
  else if b = 0xD2 then
    match readSint 4 bs with
    | .ok (v, rest) => .done v rest
    | .error e => .fail e
  else if b = 0xD3 then
    match readSint 8 bs with
    | .ok (v, rest) => .done v rest
    | .error e => .fail e
  else if b < 0xD9 then .fail .valueError
  else if b = 0xD9 then
    match readStrSized 1 bs with
    | .ok (v, rest) => .done v rest
    | .error e => .fail e
  else if b = 0xDA then
    match readStrSized 2 bs with
    | .ok (v, rest) => .done v rest
    | .error e => .fail e
  else if b = 0xDB then
    match readStrSized 4 bs with
    | .ok (v, rest) => .done v rest
    | .error e => .fail e
  else if b = 0xDC then
    match readBE 2 bs with
    | some (n, rest) => .goMany n rest
    | none => .fail .valueError
  else if b = 0xDD then
    match readBE 4 bs with
    | some (n, rest) => .goMany n rest
    | none => .fail .valueError
  else if b = 0xDE then
    match readBE 2 bs with
    | some (n, rest) => .goPairs n rest
    | none => .fail .valueError
  else if b = 0xDF then
    match readBE 4 bs with
    | some (n, rest) => .goPairs n rest
    | none => .fail .valueError
  else .done (.int ((b : Int) - 0x100)) bs

/-- Fuel-indexed msgpack decoding interpreter.  Container results are
carried back inside `MsgValue.arr` / `MsgValue.map`. -/
def unpGo : Nat → UnpTask → Except PyExc (MsgValue × List Nat)
  | 0, _ => .error .stackError
  | _ + 1, .val [] => .error .valueError
  | f + 1, .val (b :: bs) =>
    match headStep b bs with
    | .done v rest => .ok (v, rest)
    | .fail e => .error e
    | .goMany n rest => unpGo f (.many n rest)
    | .goPairs n rest => unpGo f (.pairs n rest)
  | _ + 1, .many 0 b => .ok (.arr .nil, b)
  | f + 1, .many (n + 1) b =>
    match unpGo f (.val b) with
    | .error e => .error e
    | .ok (v, r) =>
      match unpGo f (.many n r) with
      | .ok (.arr xs, r2) => .ok (.arr (.cons v xs), r2)
      | .ok _ => .error .valueError
      | .error e => .error e
  | _ + 1, .pairs 0 b => .ok (.map .nil, b)
  | f + 1, .pairs (n + 1) b =>
    match unpGo f (.val b) with
    | .error e => .error e
    | .ok (.str k, r) =>
      match unpGo f (.val r) with
      | .error e => .error e
      | .ok (v, r2) =>
        match unpGo f (.pairs n r2) with
        | .ok (.map ps, r3) => .ok (.map (.cons k v ps), r3)
        | .ok _ => .error .valueError
        | .error e => .error e
    | .ok _ => .error .valueError

/-- Model of `msgpack.unpackb(data, raw=False)`: decode one value and
require the input to be fully consumed (`ExtraData` otherwise). -/
def unpackb (b : List Nat) : Except PyExc MsgValue :=
  match unpGo (2 * b.length + 2) (.val b) with
  | .error e => .error e
  | .ok (v, []) => .ok v
  | .ok (_, _ :: _) => .error .extraData

/-! ## msgpack round trip -/

theorem readBE_beBytes (w n : Nat) (rest : List Nat) (h : n < 256 ^ w) :
    readBE w (beBytes w n ++ rest) = some (n, rest) := by
  have hl : (beBytes w n).length = w := beBytes_length w n
  unfold readBE
  rw [if_pos (by simp [hl])]
  rw [List.take_left' hl, List.drop_left' hl, beVal_beBytes w n h]

theorem readBytes_exact (w : Nat) (bs rest : List Nat) (h : bs.length = w) :
    readBytes w (bs ++ rest) = some (bs, rest) := by
  unfold readBytes
  rw [if_pos (by simp [h])]
  rw [List.take_left' h, List.drop_left' h]

theorem headStep_fixint (b : Nat) (bs : List Nat) (h : b < 0x80) :
    headStep b bs = .done (.int b) bs := by
  unfold headStep
  rw [if_pos h]

theorem headStep_fixmap (b : Nat) (bs : List Nat) (h1 : 0x80 ≤ b) (h2 : b < 0x90) :
    headStep b bs = .goPairs (b - 0x80) bs := by
  unfold headStep
  rw [if_neg (by omega), if_pos h2]

theorem headStep_fixarr (b : Nat) (bs : List Nat) (h1 : 0x90 ≤ b) (h2 : b < 0xA0) :
    headStep b bs = .goMany (b - 0x90) bs := by
  unfold headStep
  rw [if_neg (by omega), if_neg (by omega), if_pos h2]

theorem headStep_fixstr (b : Nat) (bs : List Nat) (h1 : 0xA0 ≤ b) (h2 : b < 0xC0) :
    headStep b bs =
      match readStr (b - 0xA0) bs with
      | .ok (v, rest) => .done v rest
      | .error e => .fail e := by
  unfold headStep
  rw [if_neg (by omega), if_neg (by omega), if_neg (by omega), if_pos h2]

theorem headStep_negfixint (b : Nat) (bs : List Nat) (h1 : 0xE0 ≤ b) (h2 : b < 0x100) :
    headStep b bs = .done (.int ((b : Int) - 0x100)) bs := by
  unfold headStep
  repeat rw [if_neg (by omega)]

theorem unpGo_val_cons (f b : Nat) (bs : List Nat) :
    unpGo (f + 1) (.val (b :: bs)) =
      match headStep b bs with
      | .done v rest => .ok (v, rest)
      | .fail e => .error e
      | .goMany n rest => unpGo f (.many n rest)
      | .goPairs n rest => unpGo f (.pairs n rest) := rfl

theorem beVal_singleton (b : Nat) : beVal [b] = b := by
  simp [beVal]

theorem readBE_one (b : Nat) (rest : List Nat) :
    readBE 1 (b :: rest) = some (b, rest) := by
  unfold readBE
  rw [if_pos (by simp)]
  simp [beVal]

theorem headStep_lit_cc (bs : List Nat) :
    headStep 0xCC bs =
      match readUint 1 bs with
      | .ok (v, rest) => .done v rest
      | .error e => .fail e := rfl

theorem readUint_one (b : Nat) (rest : List Nat) :
    readUint 1 (b :: rest) = .ok (.int b, rest) := by
  unfold readUint
  rw [readBE_one]

theorem readUint_beBytes (w n : Nat) (rest : List Nat) (h : n < 256 ^ w) :
    readUint w (beBytes w n ++ rest) = .ok (.int n, rest) := by
  unfold readUint
  rw [readBE_beBytes w n rest h]

theorem readSint_one (b : Nat) (rest : List Nat) :
    readSint 1 (b :: rest) =
      if b < 2 ^ 7 then .ok (.int b, rest)
      else .ok (.int ((b : Int) - 2 ^ 8), rest) := by
  unfold readSint
  rw [readBE_one]

theorem readSint_beBytes (w m : Nat) (rest : List Nat) (h : m < 256 ^ w) :
    readSint w (beBytes w m ++ rest) =
      if m < 2 ^ (8 * w - 1) then .ok (.int m, rest)
      else .ok (.int ((m : Int) - 2 ^ (8 * w)), rest) := by
  unfold readSint
  rw [readBE_beBytes w m rest h]

theorem headStep_lit_c0 (bs : List Nat) : headStep 0xC0 bs = .done .nil bs := rfl

theorem headStep_lit_c2 (bs : List Nat) :
    headStep 0xC2 bs = .done (.bool false) bs := rfl

theorem headStep_lit_c3 (bs : List Nat) :
    headStep 0xC3 bs = .done (.bool true) bs := rfl

theorem headStep_lit_c4 (bs : List Nat) :
    headStep 0xC4 bs =
      match readBinSized 1 bs with
      | .ok (v, rest) => .done v rest
      | .error e => .fail e := rfl

theorem headStep_lit_c5 (bs : List Nat) :
    headStep 0xC5 bs =
      match readBinSized 2 bs with
      | .ok (v, rest) => .done v rest
      | .error e => .fail e := rfl

theorem headStep_lit_c6 (bs : List Nat) :
    headStep 0xC6 bs =
      match readBinSized 4 bs with
      | .ok (v, rest) => .done v rest
      | .error e => .fail e := rfl

theorem headStep_lit_cb (bs : List Nat) :
    headStep 0xCB bs =
      match readFloat bs with
      | .ok (v, rest) => .done v rest
      | .error e => .fail e := rfl

theorem headStep_lit_cd (bs : List Nat) :
    headStep 0xCD bs =
      match readUint 2 bs with
      | .ok (v, rest) => .done v rest
      | .error e => .fail e := rfl

theorem headStep_lit_ce (bs : List Nat) :
    headStep 0xCE bs =
      match readUint 4 bs with
      | .ok (v, rest) => .done v rest
      | .error e => .fail e := rfl

theorem headStep_lit_cf (bs : List Nat) :
    headStep 0xCF bs =
      match readUint 8 bs with
      | .ok (v, rest) => .done v rest
      | .error e => .fail e := rfl

theorem headStep_lit_d0 (bs : List Nat) :
    headStep 0xD0 bs =
      match readSint 1 bs with
      | .ok (v, rest) => .done v rest
      | .error e => .fail e := rfl

theorem headStep_lit_d1 (bs : List Nat) :
    headStep 0xD1 bs =
      match readSint 2 bs with
      | .ok (v, rest) => .done v rest
      | .error e => .fail e := rfl

theorem headStep_lit_d2 (bs : List Nat) :
    headStep 0xD2 bs =
      match readSint 4 bs with
      | .ok (v, rest) => .done v rest
      | .error e => .fail e := rfl

theorem headStep_lit_d3 (bs : List Nat) :
    headStep 0xD3 bs =
      match readSint 8 bs with
      | .ok (v, rest) => .done v rest
      | .error e => .fail e := rfl

theorem headStep_lit_d9 (bs : List Nat) :
    headStep 0xD9 bs =
      match readStrSized 1 bs with
      | .ok (v, rest) => .done v rest
      | .error e => .fail e := rfl

theorem headStep_lit_da (bs : List Nat) :
    headStep 0xDA bs =
      match readStrSized 2 bs with
      | .ok (v, rest) => .done v rest
      | .error e => .fail e := rfl

theorem headStep_lit_db (bs : List Nat) :
    headStep 0xDB bs =
      match readStrSized 4 bs with
      | .ok (v, rest) => .done v rest
      | .error e => .fail e := rfl

theorem headStep_lit_dc (bs : List Nat) :
    headStep 0xDC bs =
      match readBE 2 bs with
      | some (n, rest) => .goMany n rest
      | none => .fail .valueError := rfl

theorem headStep_lit_dd (bs : List Nat) :
    headStep 0xDD bs =
      match readBE 4 bs with
      | some (n, rest) => .goMany n rest
      | none => .fail .valueError := rfl

theorem headStep_lit_de (bs : List Nat) :
    headStep 0xDE bs =
      match readBE 2 bs with
      | some (n, rest) => .goPairs n rest
      | none => .fail .valueError := rfl

theorem headStep_lit_df (bs : List Nat) :
    headStep 0xDF bs =
      match readBE 4 bs with
      | some (n, rest) => .goPairs n rest
      | none => .fail .valueError := rfl

theorem unpGo_packInt (f : Nat) (n : Int) (rest : List Nat)
    (hlo : -0x8000000000000000 ≤ n) (hhi : n < 0x10000000000000000) :
    unpGo (f + 1) (.val (packInt n ++ rest)) = .ok (.int n, rest) := by
  unfold packInt
  by_cases hp : 0 ≤ n
  · rw [if_pos hp]
    have hnm : ((n.toNat : Int)) = n := Int.toNat_of_nonneg hp
    by_cases c1 : n.toNat < 0x80
    · rw [if_pos c1]
      show unpGo (f + 1) (.val (n.toNat :: rest)) = _
      rw [unpGo_val_cons, headStep_fixint _ _ c1, hnm]
    · rw [if_neg c1]
      by_cases c2 : n.toNat < 0x100
      · rw [if_pos c2]
        show unpGo (f + 1) (.val (0xCC :: n.toNat :: rest)) = _
        rw [unpGo_val_cons, headStep_lit_cc, readUint_one, hnm]
      · rw [if_neg c2]
        by_cases c3 : n.toNat < 0x10000
        · rw [if_pos c3]
          show unpGo (f + 1) (.val (0xCD :: (beBytes 2 n.toNat ++ rest))) = _
          rw [unpGo_val_cons, headStep_lit_cd,
            readUint_beBytes 2 _ _ (by simpa using c3), hnm]
        · rw [if_neg c3]
          by_cases c4 : n.toNat < 0x100000000
          · rw [if_pos c4]
            show unpGo (f + 1) (.val (0xCE :: (beBytes 4 n.toNat ++ rest))) = _
            rw [unpGo_val_cons, headStep_lit_ce,
              readUint_beBytes 4 _ _ (by simpa using c4), hnm]
          · rw [if_neg c4]
            show unpGo (f + 1) (.val (0xCF :: (beBytes 8 n.toNat ++ rest))) = _
            have c5 : n.toNat < 256 ^ 8 := by
              have : (256 : Nat) ^ 8 = 0x10000000000000000 := by norm_num
              omega
            rw [unpGo_val_cons, headStep_lit_cf, readUint_beBytes 8 _ _ c5, hnm]
  · rw [if_neg hp]
    by_cases c1 : -0x20 ≤ n
    · rw [if_pos c1]
      show unpGo (f + 1) (.val ((n + 0x100).toNat :: rest)) = _
      rw [unpGo_val_cons, headStep_negfixint _ _ (by omega) (by omega)]
      have hv : (((n + 0x100).toNat : Int) - 0x100) = n := by omega
      rw [hv]
    · rw [if_neg c1]
      by_cases c2 : -0x80 ≤ n
      · rw [if_pos c2]
        show unpGo (f + 1) (.val (0xD0 :: (n + 0x100).toNat :: rest)) = _
        rw [unpGo_val_cons, headStep_lit_d0, readSint_one]
        rw [if_neg (by omega)]
        have hv : (((n + 0x100).toNat : Int) - 2 ^ 8) = n := by omega
        rw [hv]
      · rw [if_neg c2]
        by_cases c3 : -0x8000 ≤ n
        · rw [if_pos c3]
          show unpGo (f + 1) (.val (0xD1 :: (beBytes 2 (n + 0x10000).toNat ++ rest))) = _
          have hm : (n + 0x10000).toNat < 256 ^ 2 := by
            have : (256 : Nat) ^ 2 = 0x10000 := by norm_num
            omega
          rw [unpGo_val_cons, headStep_lit_d1, readSint_beBytes 2 _ _ hm]
          rw [if_neg (by
            have : (2 : Nat) ^ (8 * 2 - 1) = 0x8000 := by norm_num
            omega)]
          have hv : (((n + 0x10000).toNat : Int) - 2 ^ (8 * 2)) = n := by
            have : (2 : Int) ^ (8 * 2) = 0x10000 := by norm_num
            omega
          rw [hv]
        · rw [if_neg c3]
          by_cases c4 : -0x80000000 ≤ n
          · rw [if_pos c4]
            show unpGo (f + 1)
              (.val (0xD2 :: (beBytes 4 (n + 0x100000000).toNat ++ rest))) = _
            have hm : (n + 0x100000000).toNat < 256 ^ 4 := by
              have : (256 : Nat) ^ 4 = 0x100000000 := by norm_num
              omega
            rw [unpGo_val_cons, headStep_lit_d2, readSint_beBytes 4 _ _ hm]
            rw [if_neg (by
              have : (2 : Nat) ^ (8 * 4 - 1) = 0x80000000 := by norm_num
              omega)]
            have hv : (((n + 0x100000000).toNat : Int) - 2 ^ (8 * 4)) = n := by
              have : (2 : Int) ^ (8 * 4) = 0x100000000 := by norm_num
              omega
            rw [hv]
          · rw [if_neg c4]
            show unpGo (f + 1)
              (.val (0xD3 :: (beBytes 8 (n + 0x10000000000000000).toNat ++ rest))) = _
            have hm : (n + 0x10000000000000000).toNat < 256 ^ 8 := by
              have : (256 : Nat) ^ 8 = 0x10000000000000000 := by norm_num
              omega
            rw [unpGo_val_cons, headStep_lit_d3, readSint_beBytes 8 _ _ hm]
            rw [if_neg (by
              have : (2 : Nat) ^ (8 * 8 - 1) = 0x8000000000000000 := by norm_num
              omega)]
            have hv : (((n + 0x10000000000000000).toNat : Int) - 2 ^ (8 * 8)) = n := by
              have : (2 : Int) ^ (8 * 8) = 0x10000000000000000 := by norm_num
              omega
            rw [hv]

theorem readFloat_beBytes (bits : Nat) (rest : List Nat) (h : bits < 256 ^ 8) :
    readFloat (beBytes 8 bits ++ rest) = .ok (.float bits, rest) := by
  unfold readFloat
  rw [readBE_beBytes 8 bits rest h]

theorem readStr_exact (s : List Nat) (rest : List Nat) (hwf : strWF s) :
    readStr (utf8Encode s).length (utf8Encode s ++ rest) = .ok (.str s, rest) := by
  unfold readStr
  rw [readBytes_exact _ _ _ rfl]
  show (match utf8Decode (utf8Encode s) with
    | none => Except.error PyExc.unicodeDecodeError
    | some t => Except.ok (MsgValue.str t, rest)) = _
  rw [utf8Decode_encode s hwf]

theorem readBin_exact (bytes rest : List Nat) :
    readBin bytes.length (bytes ++ rest) = .ok (.bin bytes, rest) := by
  unfold readBin
  rw [readBytes_exact _ _ _ rfl]

theorem readStrSized_one (s rest : List Nat) (hwf : strWF s) :
    readStrSized 1 ((utf8Encode s).length :: (utf8Encode s ++ rest)) =
      .ok (.str s, rest) := by
  unfold readStrSized
  rw [readBE_one]
  show readStr (utf8Encode s).length (utf8Encode s ++ rest) = _
  exact readStr_exact s rest hwf

theorem readStrSized_be (w : Nat) (s rest : List Nat) (hwf : strWF s)
    (h : (utf8Encode s).length < 256 ^ w) :
    readStrSized w (beBytes w (utf8Encode s).length ++ (utf8Encode s ++ rest)) =
      .ok (.str s, rest) := by
  unfold readStrSized
  rw [readBE_beBytes w _ _ h]
  show readStr (utf8Encode s).length (utf8Encode s ++ rest) = _
  exact readStr_exact s rest hwf

theorem readBinSized_one (bytes rest : List Nat) :
    readBinSized 1 (bytes.length :: (bytes ++ rest)) = .ok (.bin bytes, rest) := by
  unfold readBinSized
  rw [readBE_one]
  show readBin bytes.length (bytes ++ rest) = _
  exact readBin_exact bytes rest

theorem readBinSized_be (w : Nat) (bytes rest : List Nat)
    (h : bytes.length < 256 ^ w) :
    readBinSized w (beBytes w bytes.length ++ (bytes ++ rest)) =
      .ok (.bin bytes, rest) := by
  unfold readBinSized
  rw [readBE_beBytes w _ _ h]
  show readBin bytes.length (bytes ++ rest) = _
  exact readBin_exact bytes rest

theorem unpGo_val_nil_atom (f : Nat) (rest : List Nat) :
    unpGo (f + 1) (.val (packVal .nil ++ rest)) = .ok (.nil, rest) := by
  show unpGo (f + 1) (.val (0xC0 :: rest)) = _
  rw [unpGo_val_cons, headStep_lit_c0]

theorem unpGo_val_bool (f : Nat) (b : Bool) (rest : List Nat) :
    unpGo (f + 1) (.val (packVal (.bool b) ++ rest)) = .ok (.bool b, rest) := by
  cases b
  · show unpGo (f + 1) (.val (0xC2 :: rest)) = _
    rw [unpGo_val_cons, headStep_lit_c2]
  · show unpGo (f + 1) (.val (0xC3 :: rest)) = _
    rw [unpGo_val_cons, headStep_lit_c3]

theorem unpGo_val_float (f bits : Nat) (rest : List Nat) (h : bits < 2 ^ 64) :
    unpGo (f + 1) (.val (packVal (.float bits) ++ rest)) = .ok (.float bits, rest) := by
  show unpGo (f + 1) (.val (0xCB :: (beBytes 8 bits ++ rest))) = _
  have h8 : bits < 256 ^ 8 := by
    have : (256 : Nat) ^ 8 = 2 ^ 64 := by norm_num
    omega
  rw [unpGo_val_cons, headStep_lit_cb, readFloat_beBytes bits rest h8]

theorem unpGo_val_str (f : Nat) (s rest : List Nat) (hwf : strWF s)
    (hlen : (utf8Encode s).length < 0x100000000) :
    unpGo (f + 1) (.val (packVal (.str s) ++ rest)) = .ok (.str s, rest) := by
  show unpGo (f + 1) (.val ((strHeader (utf8Encode s).length ++ utf8Encode s) ++ rest)) = _
  rw [List.append_assoc]
  unfold strHeader
  by_cases c1 : (utf8Encode s).length < 0x20
  · rw [if_pos c1]
    show unpGo (f + 1) (.val ((0xA0 + (utf8Encode s).length) :: (utf8Encode s ++ rest))) = _
    rw [unpGo_val_cons, headStep_fixstr _ _ (by omega) (by omega)]
    have hsub : 0xA0 + (utf8Encode s).length - 0xA0 = (utf8Encode s).length := by omega
    rw [hsub, readStr_exact s rest hwf]
  · rw [if_neg c1]
    by_cases c2 : (utf8Encode s).length < 0x100
    · rw [if_pos c2]
      show unpGo (f + 1)
        (.val (0xD9 :: (utf8Encode s).length :: (utf8Encode s ++ rest))) = _
      rw [unpGo_val_cons, headStep_lit_d9, readStrSized_one s rest hwf]
    · rw [if_neg c2]
      by_cases c3 : (utf8Encode s).length < 0x10000
      · rw [if_pos c3]
        show unpGo (f + 1)
          (.val (0xDA :: (beBytes 2 (utf8Encode s).length ++ (utf8Encode s ++ rest)))) = _
        rw [unpGo_val_cons, headStep_lit_da,
          readStrSized_be 2 s rest hwf (by simpa using c3)]
      · rw [if_neg c3]
        show unpGo (f + 1)
          (.val (0xDB :: (beBytes 4 (utf8Encode s).length ++ (utf8Encode s ++ rest)))) = _
        rw [unpGo_val_cons, headStep_lit_db,
          readStrSized_be 4 s rest hwf (by simpa using hlen)]

theorem unpGo_val_bin (f : Nat) (bytes rest : List Nat)
    (hlen : bytes.length < 0x100000000) :
    unpGo (f + 1) (.val (packVal (.bin bytes) ++ rest)) = .ok (.bin bytes, rest) := by
  show unpGo (f + 1) (.val ((binHeader bytes.length ++ bytes) ++ rest)) = _
  rw [List.append_assoc]
  unfold binHeader
  by_cases c1 : bytes.length < 0x100
  · rw [if_pos c1]
    show unpGo (f + 1) (.val (0xC4 :: bytes.length :: (bytes ++ rest))) = _
    rw [unpGo_val_cons, headStep_lit_c4, readBinSized_one bytes rest]
  · rw [if_neg c1]
    by_cases c2 : bytes.length < 0x10000
    · rw [if_pos c2]
      show unpGo (f + 1) (.val (0xC5 :: (beBytes 2 bytes.length ++ (bytes ++ rest)))) = _
      rw [unpGo_val_cons, headStep_lit_c5,
        readBinSized_be 2 bytes rest (by simpa using c2)]
    · rw [if_neg c2]
      show unpGo (f + 1) (.val (0xC6 :: (beBytes 4 bytes.length ++ (bytes ++ rest)))) = _
      rw [unpGo_val_cons, headStep_lit_c6,
        readBinSized_be 4 bytes rest (by simpa using hlen)]

theorem unpGo_arrHeader (f L : Nat) (bs : List Nat) (hlen : L < 0x100000000) :
    unpGo (f + 1) (.val (arrHeader L ++ bs)) = unpGo f (.many L bs) := by
  unfold arrHeader
  by_cases c1 : L < 0x10
  · rw [if_pos c1]
    show unpGo (f + 1) (.val ((0x90 + L) :: bs)) = _
    rw [unpGo_val_cons, headStep_fixarr _ _ (by omega) (by omega)]
    have hsub : 0x90 + L - 0x90 = L := by omega
    rw [hsub]
  · rw [if_neg c1]
    by_cases c2 : L < 0x10000
    · rw [if_pos c2]
      show unpGo (f + 1) (.val (0xDC :: (beBytes 2 L ++ bs))) = _
      rw [unpGo_val_cons, headStep_lit_dc, readBE_beBytes 2 _ _ (by simpa using c2)]
    · rw [if_neg c2]
      show unpGo (f + 1) (.val (0xDD :: (beBytes 4 L ++ bs))) = _
      rw [unpGo_val_cons, headStep_lit_dd, readBE_beBytes 4 _ _ (by simpa using hlen)]

theorem unpGo_mapHeader (f L : Nat) (bs : List Nat) (hlen : L < 0x100000000) :
    unpGo (f + 1) (.val (mapHeader L ++ bs)) = unpGo f (.pairs L bs) := by
  unfold mapHeader
  by_cases c1 : L < 0x10
  · rw [if_pos c1]
    show unpGo (f + 1) (.val ((0x80 + L) :: bs)) = _
    rw [unpGo_val_cons, headStep_fixmap _ _ (by omega) (by omega)]
    have hsub : 0x80 + L - 0x80 = L := by omega
    rw [hsub]
  · rw [if_neg c1]
    by_cases c2 : L < 0x10000
    · rw [if_pos c2]
      show unpGo (f + 1) (.val (0xDE :: (beBytes 2 L ++ bs))) = _
      rw [unpGo_val_cons, headStep_lit_de, readBE_beBytes 2 _ _ (by simpa using c2)]
    · rw [if_neg c2]
      show unpGo (f + 1) (.val (0xDF :: (beBytes 4 L ++ bs))) = _
      rw [unpGo_val_cons, headStep_lit_df, readBE_beBytes 4 _ _ (by simpa using hlen)]

mutual

/-- Fuel needed by `unpGo` to decode this value's encoding. -/
def needV : MsgValue → Nat
  | .arr xs => needL xs + 1
  | .map kvs => needP kvs + 1
  | _ => 1

/-- Fuel needed by `unpGo` to decode this encoded element sequence. -/
def needL : MsgList → Nat
  | .nil => 1
  | .cons v tl => Nat.max (needV v) (needL tl) + 1

/-- Fuel needed by `unpGo` to decode this encoded entry sequence. -/
def needP : MsgPairs → Nat
  | .nil => 1
  | .cons _ v tl => Nat.max (needV v) (needP tl) + 1

end

theorem needV_pos (v : MsgValue) : 1 ≤ needV v := by
  cases v <;> simp [needV]

theorem packErr_int_none {n : Int} (h : packErr (.int n) = none) :
    -0x8000000000000000 ≤ n ∧ n < 0x10000000000000000 := by
  simp only [packErr] at h
  by_cases hc : -0x8000000000000000 ≤ n ∧ n < 0x10000000000000000
  · exact hc
  · rw [if_neg hc] at h
    exact absurd h (by simp)

theorem packErr_float_none {bits : Nat} (h : packErr (.float bits) = none) :
    bits < 2 ^ 64 := by
  simp only [packErr] at h
  by_cases hc : bits < 2 ^ 64
  · exact hc
  · rw [if_neg hc] at h
    exact absurd h (by simp)

theorem strPackErr_none {s : List Nat} (h : strPackErr s = none) :
    strWF s ∧ (utf8Encode s).length < 0x100000000 := by
  simp only [strPackErr] at h
  by_cases h1 : strWF s
  · rw [if_pos h1] at h
    by_cases h2 : (utf8Encode s).length < 0x100000000
    · exact ⟨h1, h2⟩
    · rw [if_neg h2] at h
      exact absurd h (by simp)
  · rw [if_neg h1] at h
    exact absurd h (by simp)

theorem packErr_str_none {s : List Nat} (h : packErr (.str s) = none) :
    strWF s ∧ (utf8Encode s).length < 0x100000000 := by
  simp only [packErr] at h
  exact strPackErr_none h

theorem packErr_bin_none {bytes : List Nat} (h : packErr (.bin bytes) = none) :
    bytes.length < 0x100000000 := by
  simp only [packErr] at h
  by_cases h1 : bytes.all (· < 256)
  · rw [if_pos h1] at h
    by_cases h2 : bytes.length < 0x100000000
    · exact h2
    · rw [if_neg h2] at h
      exact absurd h (by simp)
  · rw [if_neg h1] at h
    exact absurd h (by simp)

theorem packErr_arr_none {xs : MsgList} (h : packErr (.arr xs) = none) :
    xs.length < 0x100000000 ∧ packErrList xs = none := by
  simp only [packErr] at h
  by_cases h1 : xs.length < 0x100000000
  · rw [if_pos h1] at h
    exact ⟨h1, h⟩
  · rw [if_neg h1] at h
    exact absurd h (by simp)

theorem packErr_map_none {kvs : MsgPairs} (h : packErr (.map kvs) = none) :
    kvs.length < 0x100000000 ∧ packErrPairs kvs = none := by
  simp only [packErr] at h
  by_cases h1 : kvs.length < 0x100000000
  · rw [if_pos h1] at h
    exact ⟨h1, h⟩
  · rw [if_neg h1] at h
    exact absurd h (by simp)

theorem packErrList_cons_none {v : MsgValue} {tl : MsgList}
    (h : packErrList (.cons v tl) = none) :
    packErr v = none ∧ packErrList tl = none := by
  simp only [packErrList] at h
  cases hv : packErr v with
  | some e => rw [hv] at h; exact absurd h (by simp)
  | none => rw [hv] at h; exact ⟨rfl, h⟩

theorem packErrPairs_cons_none {k : List Nat} {v : MsgValue} {tl : MsgPairs}
    (h : packErrPairs (.cons k v tl) = none) :
    strPackErr k = none ∧ packErr v = none ∧ packErrPairs tl = none := by
  simp only [packErrPairs] at h
  cases hk : strPackErr k with
  | some e => rw [hk] at h; exact absurd h (by simp)
  | none =>
    rw [hk] at h
    cases hv : packErr v with
    | some e => rw [hv] at h; exact absurd h (by simp)
    | none => rw [hv] at h; exact ⟨rfl, rfl, h⟩

theorem unpGo_many_zero (f : Nat) (b : List Nat) :
    unpGo (f + 1) (.many 0 b) = .ok (.arr .nil, b) := rfl

theorem unpGo_many_succ (f n : Nat) (b : List Nat) :
    unpGo (f + 1) (.many (n + 1) b) =
      match unpGo f (.val b) with
      | .error e => .error e
      | .ok (v, r) =>
        match unpGo f (.many n r) with
        | .ok (.arr xs, r2) => .ok (.arr (.cons v xs), r2)
        | .ok _ => .error .valueError
        | .error e => .error e := rfl

theorem unpGo_pairs_zero (f : Nat) (b : List Nat) :
    unpGo (f + 1) (.pairs 0 b) = .ok (.map .nil, b) := rfl

theorem unpGo_pairs_succ (f n : Nat) (b : List Nat) :
    unpGo (f + 1) (.pairs (n + 1) b) =
      match unpGo f (.val b) with
      | .error e => .error e
      | .ok (.str k, r) =>
        match unpGo f (.val r) with
        | .error e => .error e
        | .ok (v, r2) =>
          match unpGo f (.pairs n r2) with
          | .ok (.map ps, r3) => .ok (.map (.cons k v ps), r3)
          | .ok _ => .error .valueError
          | .error e => .error e
      | .ok _ => .error .valueError := rfl

mutual

theorem unpGo_packVal (v : MsgValue) :
    ∀ (f : Nat) (rest : List Nat), needV v ≤ f → packErr v = none →
      unpGo f (.val (packVal v ++ rest)) = .ok (v, rest) := by
  intro f rest hf herr
  obtain ⟨f', rfl⟩ : ∃ f', f = f' + 1 := by
    cases f with
    | zero => exact absurd (Nat.le_trans (needV_pos v) hf) (by simp)
    | succ f' => exact ⟨f', rfl⟩
  cases v with
  | nil => exact unpGo_val_nil_atom f' rest
  | bool b => exact unpGo_val_bool f' b rest
  | int n =>
    obtain ⟨h1, h2⟩ := packErr_int_none herr
    exact unpGo_packInt f' n rest h1 h2
  | float bits => exact unpGo_val_float f' bits rest (packErr_float_none herr)
  | str s =>
    obtain ⟨h1, h2⟩ := packErr_str_none herr
    exact unpGo_val_str f' s rest h1 h2
  | bin bytes => exact unpGo_val_bin f' bytes rest (packErr_bin_none herr)
  | arr xs =>
    obtain ⟨hlen, hrec⟩ := packErr_arr_none herr
    have hfx : needL xs ≤ f' := by
      have : needV (.arr xs) = needL xs + 1 := rfl
      omega
    show unpGo (f' + 1) (.val ((arrHeader xs.length ++ packList xs) ++ rest)) = _
    rw [List.append_assoc, unpGo_arrHeader f' xs.length _ hlen]
    exact unpGo_packList xs f' rest hfx hrec
  | map kvs =>
    obtain ⟨hlen, hrec⟩ := packErr_map_none herr
    have hfx : needP kvs ≤ f' := by
      have : needV (.map kvs) = needP kvs + 1 := rfl
      omega
    show unpGo (f' + 1) (.val ((mapHeader kvs.length ++ packPairs kvs) ++ rest)) = _
    rw [List.append_assoc, unpGo_mapHeader f' kvs.length _ hlen]
    exact unpGo_packPairs kvs f' rest hfx hrec

theorem unpGo_packList (xs : MsgList) :
    ∀ (f : Nat) (rest : List Nat), needL xs ≤ f → packErrList xs = none →
      unpGo f (.many xs.length (packList xs ++ rest)) = .ok (.arr xs, rest) := by
  intro f rest hf herr
  obtain ⟨f', rfl⟩ : ∃ f', f = f' + 1 := by
    cases f with
    | zero =>
      have : 1 ≤ needL xs := by cases xs <;> simp [needL]
      exact absurd (Nat.le_trans this hf) (by simp)
    | succ f' => exact ⟨f', rfl⟩
  cases xs with
  | nil => exact unpGo_many_zero f' rest
  | cons v tl =>
    obtain ⟨hv, htl⟩ := packErrList_cons_none herr
    have hmax : Nat.max (needV v) (needL tl) ≤ f' := by
      have heq : needL (.cons v tl) = Nat.max (needV v) (needL tl) + 1 := rfl
      omega
    have hfv : needV v ≤ f' := le_trans (Nat.le_max_left _ _) hmax
    have hftl : needL tl ≤ f' := le_trans (Nat.le_max_right _ _) hmax
    show unpGo (f' + 1) (.many (tl.length + 1) ((packVal v ++ packList tl) ++ rest)) = _
    rw [unpGo_many_succ, List.append_assoc,
      unpGo_packVal v f' (packList tl ++ rest) hfv hv]
    show (match unpGo f' (.many tl.length (packList tl ++ rest)) with
      | .ok (.arr xs, r2) => Except.ok (MsgValue.arr (.cons v xs), r2)
      | .ok _ => Except.error PyExc.valueError
      | .error e => Except.error e) = _
    rw [unpGo_packList tl f' rest hftl htl]

theorem unpGo_packPairs (ps : MsgPairs) :
    ∀ (f : Nat) (rest : List Nat), needP ps ≤ f → packErrPairs ps = none →
      unpGo f (.pairs ps.length (packPairs ps ++ rest)) = .ok (.map ps, rest) := by
  intro f rest hf herr
  obtain ⟨f', rfl⟩ : ∃ f', f = f' + 1 := by
    cases f with
    | zero =>
      have : 1 ≤ needP ps := by cases ps <;> simp [needP]
      exact absurd (Nat.le_trans this hf) (by simp)
    | succ f' => exact ⟨f', rfl⟩
  cases ps with
  | nil => exact unpGo_pairs_zero f' rest
  | cons k v tl =>
    obtain ⟨hk, hv, htl⟩ := packErrPairs_cons_none herr
    obtain ⟨hkwf, hklen⟩ := strPackErr_none hk
    have hmax : Nat.max (needV v) (needP tl) ≤ f' := by
      have heq : needP (.cons k v tl) = Nat.max (needV v) (needP tl) + 1 := rfl
      omega
    have hfv : needV v ≤ f' := le_trans (Nat.le_max_left _ _) hmax
    have hftl : needP tl ≤ f' := le_trans (Nat.le_max_right _ _) hmax
    obtain ⟨f'', rfl⟩ : ∃ f'', f' = f'' + 1 := by
      cases f' with
      | zero => exact absurd (Nat.le_trans (needV_pos v) hfv) (by simp)
      | succ f'' => exact ⟨f'', rfl⟩
    show unpGo (f'' + 1 + 1)
      (.pairs (tl.length + 1)
        ((strHeader (utf8Encode k).length ++ utf8Encode k ++ packVal v ++ packPairs tl)
          ++ rest)) = _
    rw [unpGo_pairs_succ]
    have hkey : unpGo (f'' + 1)
        (.val ((strHeader (utf8Encode k).length ++ utf8Encode k ++ packVal v
          ++ packPairs tl) ++ rest)) =
        .ok (.str k, packVal v ++ (packPairs tl ++ rest)) := by
      have := unpGo_val_str f'' k (packVal v ++ (packPairs tl ++ rest)) hkwf hklen
      simp only [packVal] at this ⊢
      simp only [List.append_assoc] at this ⊢
      exact this
    rw [hkey]
    show (match unpGo (f'' + 1) (.val (packVal v ++ (packPairs tl ++ rest))) with
      | .error e => Except.error e
      | .ok (v2, r2) =>
        match unpGo (f'' + 1) (.pairs tl.length r2) with
        | .ok (.map ps, r3) => Except.ok (MsgValue.map (.cons k v2 ps), r3)
        | .ok _ => Except.error PyExc.valueError
        | .error e => Except.error e) = _
    rw [unpGo_packVal v (f'' + 1) (packPairs tl ++ rest) hfv hv]
    show (match unpGo (f'' + 1) (.pairs tl.length (packPairs tl ++ rest)) with
      | .ok (.map ps, r3) => Except.ok (MsgValue.map (.cons k v ps), r3)
      | .ok _ => Except.error PyExc.valueError
      | .error e => Except.error e) = _
    rw [unpGo_packPairs tl (f'' + 1) rest hftl htl]

end

theorem packInt_length_pos (n : Int) : 1 ≤ (packInt n).length := by
  unfold packInt
  repeat' split
  all_goals simp

theorem strHeader_length_pos (L : Nat) : 1 ≤ (strHeader L).length := by
  unfold strHeader
  repeat' split
  all_goals simp

theorem binHeader_length_pos (L : Nat) : 1 ≤ (binHeader L).length := by
  unfold binHeader
  repeat' split
  all_goals simp

theorem arrHeader_length_pos (L : Nat) : 1 ≤ (arrHeader L).length := by
  unfold arrHeader
  repeat' split
  all_goals simp

theorem mapHeader_length_pos (L : Nat) : 1 ≤ (mapHeader L).length := by
  unfold mapHeader
  repeat' split
  all_goals simp

theorem packVal_length_pos (v : MsgValue) : 1 ≤ (packVal v).length := by
  cases v with
  | nil => simp [packVal]
  | bool b => cases b <;> simp [packVal]
  | int n => exact packInt_length_pos n
  | float bits => simp [packVal]
  | str s =>
    have := strHeader_length_pos (utf8Encode s).length
    simp only [packVal, List.length_append]
    omega
  | bin bytes =>
    have := binHeader_length_pos bytes.length
    simp only [packVal, List.length_append]
    omega
  | arr xs =>
    have := arrHeader_length_pos xs.length
    simp only [packVal, List.length_append]
    omega
  | map kvs =>
    have := mapHeader_length_pos kvs.length
    simp only [packVal, List.length_append]
    omega

mutual

theorem needV_le (v : MsgValue) : needV v ≤ 2 * (packVal v).length := by
  cases v with
  | nil => simp [needV, packVal]
  | bool b => cases b <;> simp [needV, packVal]
  | int n =>
    have h0 : packVal (.int n) = packInt n := rfl
    rw [h0]
    have h1 := packInt_length_pos n
    have h2 : needV (.int n) = 1 := rfl
    omega
  | float bits => simp [needV, packVal]
  | str s =>
    have h1 := packVal_length_pos (.str s)
    have h2 : needV (.str s) = 1 := rfl
    omega
  | bin bytes =>
    have h1 := packVal_length_pos (.bin bytes)
    have h2 : needV (.bin bytes) = 1 := rfl
    omega
  | arr xs =>
    have h1 := needL_le xs
    have h2 := arrHeader_length_pos xs.length
    have h3 : needV (.arr xs) = needL xs + 1 := rfl
    have h4 : (packVal (.arr xs)).length
        = (arrHeader xs.length).length + (packList xs).length := by
      simp [packVal]
    omega
  | map kvs =>
    have h1 := needP_le kvs
    have h2 := mapHeader_length_pos kvs.length
    have h3 : needV (.map kvs) = needP kvs + 1 := rfl
    have h4 : (packVal (.map kvs)).length
        = (mapHeader kvs.length).length + (packPairs kvs).length := by
      simp [packVal]
    omega

theorem needL_le (xs : MsgList) : needL xs ≤ 2 * (packList xs).length + 1 := by
  cases xs with
  | nil => simp [needL, packList]
  | cons v tl =>
    have h1 := needV_le v
    have h2 := needL_le tl
    have h3 := packVal_length_pos v
    have h4 : needL (.cons v tl) = Nat.max (needV v) (needL tl) + 1 := rfl
    have h5 : (packList (.cons v tl)).length
        = (packVal v).length + (packList tl).length := by
      simp [packList]
    have h6 : Nat.max (needV v) (needL tl)
        ≤ 2 * ((packVal v).length + (packList tl).length) := by
      apply Nat.max_le.mpr
      constructor <;> omega
    omega

theorem needP_le (ps : MsgPairs) : needP ps ≤ 2 * (packPairs ps).length + 1 := by
  cases ps with
  | nil => simp [needP, packPairs]
  | cons k v tl =>
    have h1 := needV_le v
    have h2 := needP_le tl
    have h3 := packVal_length_pos v
    have h4 := strHeader_length_pos (utf8Encode k).length
    have h5 : needP (.cons k v tl) = Nat.max (needV v) (needP tl) + 1 := rfl
    have h6 : (packPairs (.cons k v tl)).length
        = (strHeader (utf8Encode k).length).length + (utf8Encode k).length
          + (packVal v).length + (packPairs tl).length := by
      simp [packPairs]
      omega
    have h7 : Nat.max (needV v) (needP tl)
        ≤ 2 * ((packVal v).length + (packPairs tl).length) := by
      apply Nat.max_le.mpr
      constructor <;> omega
    omega

end

/-- Structural msgpack round trip: unpacking the packer's output returns the
original value, for every value that the packer accepts. -/
theorem unpackb_packb (v : MsgValue) (bs : List Nat) (h : packb v = .ok bs) :
    unpackb bs = .ok v := by
  unfold packb at h
  cases he : packErr v with
  | some e => rw [he] at h; exact absurd h (by simp)
  | none =>
    rw [he] at h
    have hbs : bs = packVal v := by
      have : Except.ok (ε := PyExc) (packVal v) = .ok bs := h
      simpa using this.symm
    subst hbs
    unfold unpackb
    have hfuel : needV v ≤ 2 * (packVal v).length + 2 := by
      have := needV_le v
      omega
    have hrt := unpGo_packVal v (2 * (packVal v).length + 2) [] hfuel he
    rw [List.append_nil] at hrt
    rw [hrt]

/-! ## Decimal digits and JSON number support -/

/-- Little-endian decimal digits, fuel-driven so the kernel can evaluate it
(`Nat.digits` is defined by well-founded recursion and cannot reduce). -/
def digitsRev : Nat → Nat → List Nat
  | 0, _ => []
  | f + 1, n => if n = 0 then [] else n % 10 :: digitsRev f (n / 10)

theorem digitsRev_eq_digits (f : Nat) : ∀ n : Nat, n ≤ f →
    digitsRev f n = Nat.digits 10 n := by
  induction f with
  | zero =>
    intro n hn
    have : n = 0 := by omega
    subst this
    rw [Nat.digits_zero]
    rfl
  | succ f ih =>
    intro n hn
    by_cases h : n = 0
    · subst h
      show digitsRev (f + 1) 0 = _
      unfold digitsRev
      rw [if_pos rfl, Nat.digits_zero]
    · have hdiv : n / 10 ≤ f := by omega
      show digitsRev (f + 1) n = _
      unfold digitsRev
      rw [if_neg h, ih (n / 10) hdiv,
        show Nat.digits 10 n = n % 10 :: Nat.digits 10 (n / 10) from
          Nat.digits_def' (by norm_num : 1 < 10) (by omega)]

/-- Decimal digit code points of `n` (most significant first). -/
def digits10 (n : Nat) : List Nat :=
  if n = 0 then [48] else ((digitsRev n n).reverse.map (· + 48))

/-- Numeric value of a list of decimal digit code points. -/
def parseNat (ds : List Nat) : Nat :=
  Nat.ofDigits 10 ((ds.map (fun c => c - 48)).reverse)

theorem parseNat_digits10 (n : Nat) : parseNat (digits10 n) = n := by
  unfold digits10 parseNat
  by_cases h : n = 0
  · subst h
    rfl
  · rw [if_neg h, digitsRev_eq_digits n n le_rfl, List.map_map]
    have hmap : ((fun c => c - 48) ∘ (· + 48)) = (id : Nat → Nat) := by
      funext d
      simp
    rw [hmap, List.map_id, List.reverse_reverse]
    exact_mod_cast Nat.ofDigits_digits 10 n

/-- Every code point in `digits10 n` is an ASCII digit. -/
theorem digits10_are_digits (n : Nat) : ∀ c ∈ digits10 n, 48 ≤ c ∧ c ≤ 57 := by
  unfold digits10
  by_cases h : n = 0
  · rw [if_pos h]
    intro c hc
    simp at hc
    omega
  · rw [if_neg h, digitsRev_eq_digits n n le_rfl]
    intro c hc
    simp only [List.mem_map, List.mem_reverse] at hc
    obtain ⟨d, hd, rfl⟩ := hc
    have := Nat.digits_lt_base (by norm_num) hd
    omega

theorem digits10_ne_nil (n : Nat) : digits10 n ≠ [] := by
  unfold digits10
  by_cases h : n = 0
  · rw [if_pos h]; simp
  · rw [if_neg h, digitsRev_eq_digits n n le_rfl]
    simp only [ne_eq, List.map_eq_nil_iff, List.reverse_eq_nil_iff]
    exact Nat.digits_ne_nil_iff_ne_zero.mpr h

/-! ## IEEE-754 binary64 bit patterns

Floats are modelled by their 64-bit patterns.  `fCanonM`/`fCanonE` give the
canonical dyadic decomposition `value = (-1)^sign * m * 2^e` of a finite
pattern; `fBits` rebuilds the pattern. -/

/-- Sign bit of a binary64 pattern. -/
def fSign (bits : Nat) : Nat := bits / 2 ^ 63 % 2

/-- Exponent field of a binary64 pattern. -/
def fExp (bits : Nat) : Nat := bits / 2 ^ 52 % 2 ^ 11

/-- Mantissa field of a binary64 pattern. -/
def fMant (bits : Nat) : Nat := bits % 2 ^ 52

/-- The pattern denotes a NaN. -/
def fIsNan (bits : Nat) : Prop := fExp bits = 2047 ∧ fMant bits ≠ 0

instance (bits : Nat) : Decidable (fIsNan bits) := by unfold fIsNan; infer_instance

/-- The pattern denotes an infinity. -/
def fIsInf (bits : Nat) : Prop := fExp bits = 2047 ∧ fMant bits = 0

instance (bits : Nat) : Decidable (fIsInf bits) := by unfold fIsInf; infer_instance

/-- Canonical mantissa of a finite pattern. -/
def fCanonM (bits : Nat) : Nat :=
  if fExp bits = 0 then fMant bits else 2 ^ 52 + fMant bits

/-- Canonical exponent of a finite pattern. -/
def fCanonE (bits : Nat) : Int :=
  if fExp bits = 0 then -1074 else (fExp bits : Int) - 1075

/-- Rebuild a binary64 pattern from sign and canonical mantissa/exponent. -/
def fBits (sign m : Nat) (e : Int) : Nat :=
  if m = 0 then sign * 2 ^ 63
  else if m < 2 ^ 52 then sign * 2 ^ 63 + m
  else sign * 2 ^ 63 + (e + 1075).toNat * 2 ^ 52 + (m - 2 ^ 52)

theorem fBits_fCanon (bits : Nat) (hlt : bits < 2 ^ 64) :
    fBits (fSign bits) (fCanonM bits) (fCanonE bits) = bits := by
  unfold fBits fCanonM fCanonE fSign fExp fMant at *
  by_cases hE : bits / 2 ^ 52 % 2 ^ 11 = 0
  · rw [if_pos hE]
    by_cases hM : bits % 2 ^ 52 = 0
    · rw [if_pos hM]
      omega
    · rw [if_neg hM, if_pos (Nat.mod_lt _ (by norm_num))]
      omega
  · rw [if_neg hE]
    have h1 : ¬ (2 ^ 52 + bits % 2 ^ 52 = 0) := by omega
    rw [if_neg h1, if_neg (by omega), if_neg hE]
    have h2 : ((bits / 2 ^ 52 % 2 ^ 11 : Nat) : Int) - 1075 + 1075
        = ((bits / 2 ^ 52 % 2 ^ 11 : Nat) : Int) := by ring
    rw [h2]
    have h3 : ((bits / 2 ^ 52 % 2 ^ 11 : Nat) : Int).toNat
        = bits / 2 ^ 52 % 2 ^ 11 := Int.toNat_natCast _
    rw [h3]
    omega

/-- Bit pattern of an infinity with the given sign. -/
def infBits (sign : Nat) : Nat := sign * 2 ^ 63 + 2047 * 2 ^ 52

/-- Bit pattern of the canonical quiet NaN produced by Python `float("nan")`. -/
def nanBits : Nat := 0x7FF8000000000000

/-- Correctly-rounded conversion of the non-representable decimal
`(-1)^sign * M * 10^e10` to a binary64 pattern.  This branch is only ever
reached for decimals that are not exactly representable, which the exact
printers in this file never produce; it models CPython's `strtod` rounding
and is not itself the subject of any proof. -/
def log2fuel : Nat → Nat → Nat
  | 0, _ => 0
  | f + 1, n => if n ≤ 1 then 0 else log2fuel f (n / 2) + 1

/-- Kernel-evaluable floor base-2 logarithm. -/
def natLog2 (n : Nat) : Nat := log2fuel n n

def decRound (sign M : Nat) (e10 : Int) : Nat :=
  let num := if 0 ≤ e10 then M * 10 ^ e10.toNat else M
  let den := if 0 ≤ e10 then 1 else 10 ^ (-e10).toNat
  let P := num * 2 ^ 2200 / den
  if P = 0 then sign * 2 ^ 63
  else
    let bl := natLog2 P
    let e : Int := (bl : Int) - 52 - 2200
    let k : Nat := if e < -1074 then bl - 52 + ((-1074 : Int) - e).toNat else bl - 52
    let eout : Int := if e < -1074 then -1074 else e
    let q := P / 2 ^ k
    let r := P % 2 ^ k
    let m := if 2 ^ k < 2 * r ∨ (2 * r = 2 ^ k ∧ q % 2 = 1) then q + 1 else q
    if 971 < eout then infBits sign
    else if m = 2 ^ 53 then
      if 971 < eout + 1 then infBits sign else fBits sign (2 ^ 52) (eout + 1)
    else fBits sign m eout

/-- Correctly-rounded conversion of the dyadic `(-1)^sign * m0 * 2^e0`. -/
def decRoundDyadic (sign m0 : Nat) (e0 : Int) : Nat :=
  if 0 ≤ e0 then decRound sign (m0 * 2 ^ e0.toNat) 0
  else decRound sign (m0 * 5 ^ (-e0).toNat) e0

/-- Normalisation, doubling phase: raise the mantissa into `[2^52, 2^53)`
while the exponent stays above the subnormal floor. -/
def normDouble (sign : Nat) : Nat → Nat → Int → Nat
  | 0, m0, e0 => decRoundDyadic sign m0 e0
  | f + 1, m0, e0 =>
    if m0 < 2 ^ 52 ∧ -1074 < e0 then normDouble sign f (m0 * 2) (e0 - 1)
    else if 971 < e0 then infBits sign
    else fBits sign m0 e0

/-- Normalisation, halving phase: lower an oversized mantissa (or raise a
below-floor exponent) by exact halving; falls back to rounding when the
mantissa turns odd. -/
def normHalve (sign : Nat) : Nat → Nat → Int → Nat
  | 0, m0, e0 => decRoundDyadic sign m0 e0
  | f + 1, m0, e0 =>
    if 2 ^ 53 ≤ m0 ∨ e0 < -1074 then
      if m0 % 2 = 0 then normHalve sign f (m0 / 2) (e0 + 1)
      else decRoundDyadic sign m0 e0
    else normDouble sign 60 m0 e0

/-- Convert an exact dyadic `(-1)^sign * m0 * 2^e0` to a binary64 pattern. -/
def normBits (sign m0 : Nat) (e0 : Int) : Nat := normHalve sign (m0 + 1100) m0 e0

/-- Convert a parsed JSON number `(-1)^sign * M * 10^e10` to the binary64
pattern Python's float conversion yields. -/
def jsonNumToBits (sign M : Nat) (e10 : Int) : Nat :=
  if M = 0 then sign * 2 ^ 63
  else if e10 < 0 then
    if 5 ^ (-e10).toNat ∣ M then normBits sign (M / 5 ^ (-e10).toNat) e10
    else decRound sign M e10
  else normBits sign (M * 10 ^ e10.toNat) 0

/-- JSON text of a float.  `Modelled from the spec:` CPython's `repr` is
documented to emit a decimal string that parses back to the identical float;
the exact mechanism (shortest repr) lives in the runtime, outside this
repository, so the model prints an equivalent exact-decimal form
`m*5^-e "e" e` (for `e < 0`) or `m*2^e "e0"` with the same round-trip
property.  `NaN`, `Infinity` and `-Infinity` are the literal tokens
`json.dumps` emits with its default `allow_nan=True`. -/
def floatTok (bits : Nat) : List Nat :=
  if fIsNan bits then [78, 97, 78]
  else if fIsInf bits then
    (if fSign bits = 1 then [45] else []) ++ [73, 110, 102, 105, 110, 105, 116, 121]
  else
    (if fSign bits = 1 then [45] else []) ++
      (if fCanonE bits < 0 then
        digits10 (fCanonM bits * 5 ^ (-(fCanonE bits)).toNat) ++ [101, 45]
          ++ digits10 (-(fCanonE bits)).toNat
      else digits10 (fCanonM bits * 2 ^ (fCanonE bits).toNat) ++ [101, 48])

theorem normDouble_canon (sign m : Nat) (e : Int) (fuel : Nat) (h1 : 1 ≤ fuel)
    (hm : m < 2 ^ 53) (he : -1074 ≤ e) (hc : 2 ^ 52 ≤ m ∨ e = -1074)
    (hee : e ≤ 971) : normDouble sign fuel m e = fBits sign m e := by
  obtain ⟨f, rfl⟩ : ∃ f, fuel = f + 1 := by
    cases fuel with
    | zero => omega
    | succ f => exact ⟨f, rfl⟩
  show normDouble sign (f + 1) m e = _
  unfold normDouble
  rw [if_neg (by rcases hc with hc | hc <;> [omega; omega]), if_neg (by omega)]

theorem normHalve_canon (sign m : Nat) (e : Int) (fuel : Nat) (h1 : 1 ≤ fuel)
    (hm : m < 2 ^ 53) (he : -1074 ≤ e) (hc : 2 ^ 52 ≤ m ∨ e = -1074)
    (hee : e ≤ 971) : normHalve sign fuel m e = fBits sign m e := by
  obtain ⟨f, rfl⟩ : ∃ f, fuel = f + 1 := by
    cases fuel with
    | zero => omega
    | succ f => exact ⟨f, rfl⟩
  show normHalve sign (f + 1) m e = _
  unfold normHalve
  rw [if_neg (by omega)]
  exact normDouble_canon sign m e 60 (by omega) hm he hc hee

theorem normHalve_pow (sign m : Nat) (e : Nat) :
    ∀ (fuel : Nat) (c : Int), e + 1 ≤ fuel → 2 ^ 52 ≤ m → m < 2 ^ 53 →
      -1074 ≤ c → c + e ≤ 971 →
      normHalve sign fuel (m * 2 ^ e) c = fBits sign m (c + e) := by
  induction e with
  | zero =>
    intro fuel c hf hm1 hm2 hc1 hc2
    have : m * 2 ^ 0 = m := by ring
    rw [this]
    have : c + (0 : Nat) = c := by push_cast; ring
    rw [this]
    exact normHalve_canon sign m c fuel (by omega) hm2 hc1 (Or.inl hm1) (by omega)
  | succ e ih =>
    intro fuel c hf hm1 hm2 hc1 hc2
    obtain ⟨f, rfl⟩ : ∃ f, fuel = f + 1 := by
      cases fuel with
      | zero => omega
      | succ f => exact ⟨f, rfl⟩
    show normHalve sign (f + 1) (m * 2 ^ (e + 1)) c = _
    unfold normHalve
    have hbig : 2 ^ 53 ≤ m * 2 ^ (e + 1) := by
      have h1 : 2 ^ 52 * 2 ^ (e + 1) ≤ m * 2 ^ (e + 1) :=
        Nat.mul_le_mul_right _ hm1
      have h2 : (2 : Nat) ^ 53 ≤ 2 ^ 52 * 2 ^ (e + 1) := by
        rw [← pow_add]
        exact Nat.pow_le_pow_right (by norm_num) (by omega)
      omega
    rw [if_pos (Or.inl hbig)]
    have heven : m * 2 ^ (e + 1) % 2 = 0 := by
      have : m * 2 ^ (e + 1) = m * 2 ^ e * 2 := by ring
      omega
    rw [if_pos heven]
    have hhalf : m * 2 ^ (e + 1) / 2 = m * 2 ^ e := by
      have : m * 2 ^ (e + 1) = m * 2 ^ e * 2 := by ring
      omega
    rw [hhalf]
    have := ih f (c + 1) (by omega) hm1 hm2 (by omega) (by push_cast at hc2 ⊢; omega)
    rw [this]
    have : c + 1 + (e : Int) = c + ((e : Nat) + 1 : Nat) := by push_cast; ring
    rw [this]

theorem fCanonM_lt (bits : Nat) : fCanonM bits < 2 ^ 53 := by
  unfold fCanonM fMant
  have : bits % 2 ^ 52 < 2 ^ 52 := Nat.mod_lt _ (by norm_num)
  split <;> omega

theorem fCanonE_ge (bits : Nat) : -1074 ≤ fCanonE bits := by
  unfold fCanonE
  split
  · omega
  · have : 1 ≤ fExp bits := by
      rename_i h
      omega
    omega

theorem fCanonE_le (bits : Nat) (h : fExp bits ≠ 2047) : fCanonE bits ≤ 971 := by
  unfold fCanonE
  have : fExp bits < 2 ^ 11 := by
    unfold fExp
    exact Nat.mod_lt _ (by norm_num)
  split
  · omega
  · omega

theorem fCanon_or (bits : Nat) : 2 ^ 52 ≤ fCanonM bits ∨ fCanonE bits = -1074 := by
  unfold fCanonM fCanonE
  by_cases h : fExp bits = 0
  · right
    rw [if_pos h]
  · left
    rw [if_neg h]
    omega

theorem fCanonM_eq_zero (bits : Nat) (hlt : bits < 2 ^ 64) (h : fCanonM bits = 0) :
    bits = fSign bits * 2 ^ 63 := by
  unfold fCanonM at h
  by_cases hE : fExp bits = 0
  · rw [if_pos hE] at h
    unfold fExp at hE
    unfold fMant at h
    unfold fSign
    omega
  · rw [if_neg hE] at h
    omega

theorem jsonNumToBits_floatTok_neg (bits : Nat) (hlt : bits < 2 ^ 64)
    (he : fCanonE bits < 0) :
    jsonNumToBits (fSign bits) (fCanonM bits * 5 ^ (-(fCanonE bits)).toNat)
      (fCanonE bits) = bits := by
  unfold jsonNumToBits
  by_cases hm0 : fCanonM bits = 0
  · rw [if_pos (by rw [hm0]; ring)]
    exact (fCanonM_eq_zero bits hlt hm0).symm
  · have hM : fCanonM bits * 5 ^ (-(fCanonE bits)).toNat ≠ 0 := by
      have : 0 < (5 : Nat) ^ (-(fCanonE bits)).toNat := Nat.pos_pow_of_pos _ (by norm_num)
      positivity
    rw [if_neg hM, if_pos he, if_pos (dvd_mul_left _ _)]
    have hdiv : fCanonM bits * 5 ^ (-(fCanonE bits)).toNat / 5 ^ (-(fCanonE bits)).toNat
        = fCanonM bits :=
      Nat.mul_div_cancel _ (Nat.pos_pow_of_pos _ (by norm_num))
    rw [hdiv]
    unfold normBits
    have hfin : fExp bits ≠ 2047 := by
      intro hcon
      unfold fCanonE at he
      rw [if_neg (by omega)] at he
      rw [hcon] at he
      omega
    rw [normHalve_canon _ _ _ _ (by omega) (fCanonM_lt bits) (fCanonE_ge bits)
      (fCanon_or bits) (fCanonE_le bits hfin)]
    exact fBits_fCanon bits hlt

theorem jsonNumToBits_floatTok_pos (bits : Nat) (hlt : bits < 2 ^ 64)
    (hfin : fExp bits ≠ 2047) (he : 0 ≤ fCanonE bits) :
    jsonNumToBits (fSign bits) (fCanonM bits * 2 ^ (fCanonE bits).toNat) 0 = bits := by
  have hm1 : 2 ^ 52 ≤ fCanonM bits := by
    rcases fCanon_or bits with h | h
    · exact h
    · rw [h] at he
      omega
  unfold jsonNumToBits
  have hM : fCanonM bits * 2 ^ (fCanonE bits).toNat ≠ 0 := by
    have : 0 < (2 : Nat) ^ (fCanonE bits).toNat := Nat.pos_pow_of_pos _ (by norm_num)
    positivity
  rw [if_neg hM, if_neg (by omega)]
  have h10 : (10 : Nat) ^ ((0 : Int)).toNat = 1 := by norm_num
  rw [h10, Nat.mul_one]
  unfold normBits
  have hfuel : (fCanonE bits).toNat + 1
      ≤ fCanonM bits * 2 ^ (fCanonE bits).toNat + 1100 := by
    have h1 : (fCanonE bits).toNat < 2 ^ (fCanonE bits).toNat :=
      Nat.lt_two_pow _
    have h2 : 2 ^ (fCanonE bits).toNat
        ≤ fCanonM bits * 2 ^ (fCanonE bits).toNat := by
      have : 1 ≤ fCanonM bits := by omega
      exact Nat.le_mul_of_pos_left _ (by omega)
    omega
  rw [normHalve_pow (fSign bits) (fCanonM bits) (fCanonE bits).toNat _ 0 hfuel
    hm1 (fCanonM_lt bits) (by omega)
    (by
      have := fCanonE_le bits hfin
      have hcast : ((fCanonE bits).toNat : Int) = fCanonE bits :=
        Int.toNat_of_nonneg he
      omega)]
  have hcast : (0 : Int) + ((fCanonE bits).toNat : Int) = fCanonE bits := by
    have := Int.toNat_of_nonneg he
    omega
  rw [hcast]
  exact fBits_fCanon bits hlt

/-! ## JSON text codec

Model of `json.dumps` (default settings: `ensure_ascii=True`, separators
`", "` / `": "`, `allow_nan=True`) and `json.loads` (strict decoding).
Like the serializer itself, these live in the Python standard library, not
in this repository; the model follows the documented format.  CPython's
recursion limit on deeply nested input is not modelled (the fuel given to
the parser always suffices). -/

/-- Lowercase hex digit code point. -/
def hexDig (d : Nat) : Nat := if d < 10 then 48 + d else 87 + d

/-- Four-digit lowercase hex of `n < 0x10000`. -/
def hex4 (n : Nat) : List Nat :=
  [hexDig (n / 4096 % 16), hexDig (n / 256 % 16), hexDig (n / 16 % 16),
    hexDig (n % 16)]

/-- Value of a hex digit code point (either case), if any. -/
def hexVal (c : Nat) : Option Nat :=
  if 48 ≤ c ∧ c ≤ 57 then some (c - 48)
  else if 97 ≤ c ∧ c ≤ 102 then some (c - 87)
  else if 65 ≤ c ∧ c ≤ 70 then some (c - 55)
  else none

/-- JSON escape of one character, as `json.dumps` with `ensure_ascii=True`
produces it: two-character escapes for the usual controls, `\uXXXX` for
other non-printable or non-ASCII characters, surrogate pairs for astral
ones. -/
def jsonEscChar (c : Nat) : List Nat :=
  if c = 34 then [92, 34]
  else if c = 92 then [92, 92]
  else if c = 8 then [92, 98]
  else if c = 9 then [92, 116]
  else if c = 10 then [92, 110]
  else if c = 12 then [92, 102]
  else if c = 13 then [92, 114]
  else if c < 0x20 then 92 :: 117 :: hex4 c
  else if c < 0x7F then [c]
  else if c < 0x10000 then 92 :: 117 :: hex4 c
  else
    92 :: 117 :: hex4 (0xD800 + (c - 0x10000) / 0x400)
      ++ (92 :: 117 :: hex4 (0xDC00 + (c - 0x10000) % 0x400))

/-- JSON escape of a whole string body. -/
def jsonEscStr : List Nat → List Nat
  | [] => []
  | c :: cs => jsonEscChar c ++ jsonEscStr cs

/-- Skip JSON whitespace. -/
def skipWs : List Nat → List Nat
  | [] => []
  | c :: cs => if c = 32 ∨ c = 9 ∨ c = 10 ∨ c = 13 then skipWs cs else c :: cs

/-- Split the longest ASCII-digit prefix off a character stream. -/
def takeDigits : List Nat → List Nat × List Nat
  | [] => ([], [])
  | c :: cs =>
    if 48 ≤ c ∧ c ≤ 57 then
      (c :: (takeDigits cs).1, (takeDigits cs).2)
    else ([], c :: cs)

mutual

/-- Model of `json.dumps`: `none` is the `TypeError` raised on `bytes`
input, every other modelled value serializes. -/
def jsonDumpsVal : MsgValue → Option (List Nat)
  | .nil => some [110, 117, 108, 108]
  | .bool true => some [116, 114, 117, 101]
  | .bool false => some [102, 97, 108, 115, 101]
  | .int n => some ((if n < 0 then [45] else []) ++ digits10 n.natAbs)
  | .float bits => some (floatTok bits)
  | .str s => some (34 :: (jsonEscStr s ++ [34]))
  | .bin _ => none
  | .arr xs =>
    match jsonDumpsElems xs with
    | none => none
    | some body => some (91 :: (body ++ [93]))
  | .map kvs =>
    match jsonDumpsMembers kvs with
    | none => none
    | some body => some (123 :: (body ++ [125]))

/-- Array body: empty, or a first element followed by `", "`-prefixed
rest. -/
def jsonDumpsElems : MsgList → Option (List Nat)
  | .nil => some []
  | .cons v tl =>
    match jsonDumpsVal v with
    | none => none
    | some a =>
      match jsonDumpsElemsRest tl with
      | none => none
      | some b => some (a ++ b)

/-- Trailing array elements, each rendered as `", " ++ element`. -/
def jsonDumpsElemsRest : MsgList → Option (List Nat)
  | .nil => some []
  | .cons v tl =>
    match jsonDumpsVal v with
    | none => none
    | some a =>
      match jsonDumpsElemsRest tl with
      | none => none
      | some b => some (44 :: 32 :: (a ++ b))

/-- Object body: empty, or a first member followed by `", "`-prefixed
rest. -/
def jsonDumpsMembers : MsgPairs → Option (List Nat)
  | .nil => some []
  | .cons k v tl =>
    match jsonDumpsVal v with
    | none => none
    | some a =>
      match jsonDumpsMembersRest tl with
      | none => none
      | some b => some (34 :: (jsonEscStr k ++ (34 :: 58 :: 32 :: (a ++ b))))

/-- Trailing object members, each rendered as `", " ++ "key": value`. -/
def jsonDumpsMembersRest : MsgPairs → Option (List Nat)
  | .nil => some []
  | .cons k v tl =>
    match jsonDumpsVal v with
    | none => none
    | some a =>
      match jsonDumpsMembersRest tl with
      | none => none
      | some b =>
        some (44 :: 32 :: 34 :: (jsonEscStr k ++ (34 :: 58 :: 32 :: (a ++ b))))

end

/-- Does the stream start with a `\\u` escape introducer? -/
def startsEscU : List Nat → Bool
  | 92 :: 117 :: _ => true
  | _ => false

theorem hexVal_hexDig (d : Nat) (h : d < 16) : hexVal (hexDig d) = some d := by
  interval_cases d <;> rfl

/-- Combined value of four hex digit code points. -/
def hexVal4 (c1 c2 c3 c4 : Nat) : Option Nat :=
  (hexVal c1).bind fun d1 => (hexVal c2).bind fun d2 =>
    (hexVal c3).bind fun d3 => (hexVal c4).map fun d4 =>
      d1 * 4096 + d2 * 256 + d3 * 16 + d4

theorem hexVal4_hex4 (u : Nat) (h : u < 0x10000) :
    hexVal4 (hexDig (u / 4096 % 16)) (hexDig (u / 256 % 16))
      (hexDig (u / 16 % 16)) (hexDig (u % 16)) = some u := by
  unfold hexVal4
  rw [hexVal_hexDig _ (by omega), hexVal_hexDig _ (by omega),
    hexVal_hexDig _ (by omega), hexVal_hexDig _ (by omega)]
  show some (u / 4096 % 16 * 4096 + u / 256 % 16 * 256 + u / 16 % 16 * 16 + u % 16)
    = some u
  congr 1
  omega

/-- Decode the second half of a surrogate-pair escape; `u` is the already
decoded high surrogate.  A following `\\u` escape must be valid hex; a
valid low surrogate combines, any other code point leaves `u` as a lone
surrogate with the stream unconsumed. -/
def parseEscPair (u : Nat) : List Nat → Option (Nat × List Nat)
  | 92 :: 117 :: c5 :: c6 :: c7 :: c8 :: rest2 =>
    match hexVal4 c5 c6 c7 c8 with
    | none => none
    | some u2 =>
      if 0xDC00 ≤ u2 ∧ u2 < 0xE000 then
        some (0x10000 + (u - 0xD800) * 0x400 + (u2 - 0xDC00), rest2)
      else some (u, 92 :: 117 :: c5 :: c6 :: c7 :: c8 :: rest2)
  | 92 :: 117 :: [] => none
  | 92 :: 117 :: [_] => none
  | 92 :: 117 :: [_, _] => none
  | 92 :: 117 :: [_, _, _] => none
  | l => some (u, l)

/-- Decode a `\\uXXXX` escape (after the `\\u`), with surrogate-pair
recombination. -/
def parseEscU : List Nat → Option (Nat × List Nat)
  | c1 :: c2 :: c3 :: c4 :: rest =>
    match hexVal4 c1 c2 c3 c4 with
    | none => none
    | some u =>
      if 0xD800 ≤ u ∧ u < 0xDC00 then parseEscPair u rest
      else some (u, rest)
  | _ => none

/-- Decode one string escape (after the backslash). -/
def parseEsc : List Nat → Option (Nat × List Nat)
  | [] => none
  | e :: r =>
    if e = 34 then some (34, r)
    else if e = 92 then some (92, r)
    else if e = 47 then some (47, r)
    else if e = 98 then some (8, r)
    else if e = 102 then some (12, r)
    else if e = 110 then some (10, r)
    else if e = 114 then some (13, r)
    else if e = 116 then some (9, r)
    else if e = 117 then parseEscU r
    else none

/-- Fuel-driven body of a JSON string parser (each step consumes at least
one source character, so fuel equal to the remaining length suffices);
strict about control characters, as CPython's `py_scanstring` is. -/
def parseStrBodyF : Nat → List Nat → Option (List Nat × List Nat)
  | 0, _ => none
  | _ + 1, [] => none
  | f + 1, c :: rest =>
    if c = 34 then some ([], rest)
    else if c = 92 then
      match parseEsc rest with
      | none => none
      | some (u, r2) => (parseStrBodyF f r2).map (fun p => (u :: p.1, p.2))
    else if c < 0x20 then none
    else (parseStrBodyF f rest).map (fun p => (c :: p.1, p.2))

/-- Parse the body of a JSON string after the opening quote. -/
def parseStrBody (s : List Nat) : Option (List Nat × List Nat) :=
  parseStrBodyF s.length s

/-- Match a literal sequence at the head of the stream. -/
def stripPrefix : List Nat → List Nat → Option (List Nat)
  | [], s => some s
  | _ :: _, [] => none
  | p :: ps, c :: cs => if c = p then stripPrefix ps cs else none

/-- Parse an optional fraction part: `(fracDigits, rest)`. -/
def parseFrac : List Nat → Option (List Nat × List Nat)
  | [] => some ([], [])
  | c :: r =>
    if c = 46 then
      match takeDigits r with
      | ([], _) => none
      | (fs, r3) => some (fs, r3)
    else some ([], c :: r)

/-- Parse exponent digits with the given sign. -/
def parseExpDigits (neg : Bool) (s : List Nat) : Option (Option Int × List Nat) :=
  match takeDigits s with
  | ([], _) => none
  | (es, r5) =>
    some (some (if neg then -(parseNat es : Int) else (parseNat es : Int)), r5)

/-- Parse an optional exponent part. -/
def parseExp : List Nat → Option (Option Int × List Nat)
  | [] => some (none, [])
  | c :: r =>
    if c = 101 ∨ c = 69 then
      match r with
      | [] => none
      | c2 :: r2 =>
        if c2 = 43 then parseExpDigits false r2
        else if c2 = 45 then parseExpDigits true r2
        else parseExpDigits false (c2 :: r2)
    else some (none, c :: r)

/-- Fraction-and-exponent phase of the number parser.  A bare integer
literal stays `int`; any fraction or exponent produces a `float` via
`jsonNumToBits`. -/
def parseNumTail (sign : Nat) (intDs r1 : List Nat) :
    Option (MsgValue × List Nat) :=
  match parseFrac r1 with
  | none => none
  | some (fs, r3) =>
    match parseExp r3 with
    | none => none
    | some (exOpt, r5) =>
      if fs = [] ∧ exOpt = none then
        some (.int (if sign = 1 then -(parseNat intDs : Int)
          else (parseNat intDs : Int)), r5)
      else
        some (.float (jsonNumToBits sign (parseNat (intDs ++ fs))
          (exOpt.getD 0 - fs.length)), r5)

/-- Digits-and-tail phase of the number parser: `NUMBER_RE` requires the
integer part to be `0` or to start with a nonzero digit. -/
def parseNumBody (sign : Nat) (r0 : List Nat) : Option (MsgValue × List Nat) :=
  match takeDigits r0 with
  | ([], _) => none
  | (d :: ds, r1) =>
    if d = 48 ∧ ds ≠ [] then parseNumTail sign [48] (ds ++ r1)
    else parseNumTail sign (d :: ds) r1

/-- Parse a JSON number at the stream head, following CPython's
`NUMBER_RE`: optional minus, `0` or digits without a leading zero, optional
fraction, optional exponent. -/
def parseNum (s : List Nat) : Option (MsgValue × List Nat) :=
  match s with
  | [] => none
  | c0 :: r => if c0 = 45 then parseNumBody 1 r else parseNumBody 0 (c0 :: r)

/-- JSON parsing task: one value, the continuation of an array after an
element, or the continuation of an object after a member. -/
inductive JTask where
  | val (s : List Nat)
  | arrRest (s : List Nat)
  | objRest (s : List Nat)

/-- Parse one object member (`"key": value`) given a parser for values. -/
def parseJ : Nat → JTask → Except PyExc (MsgValue × List Nat)
  | 0, _ => .error .jsonDecodeError
  | f + 1, .val s =>
    match skipWs s with
    | [] => .error .jsonDecodeError
    | c :: r =>
      if c = 110 then
        match stripPrefix [117, 108, 108] r with
        | some rest => .ok (.nil, rest)
        | none => .error .jsonDecodeError
      else if c = 116 then
        match stripPrefix [114, 117, 101] r with
        | some rest => .ok (.bool true, rest)
        | none => .error .jsonDecodeError
      else if c = 102 then
        match stripPrefix [97, 108, 115, 101] r with
        | some rest => .ok (.bool false, rest)
        | none => .error .jsonDecodeError
      else if c = 78 then
        match stripPrefix [97, 78] r with
        | some rest => .ok (.float nanBits, rest)
        | none => .error .jsonDecodeError
      else if c = 73 then
        match stripPrefix [110, 102, 105, 110, 105, 116, 121] r with
        | some rest => .ok (.float (infBits 0), rest)
        | none => .error .jsonDecodeError
      else if c = 45 then
        match stripPrefix [73, 110, 102, 105, 110, 105, 116, 121] r with
        | some rest => .ok (.float (infBits 1), rest)
        | none =>
          match parseNum (c :: r) with
          | none => .error .jsonDecodeError
          | some (v, rest) => .ok (v, rest)
      else if c = 34 then
        match parseStrBody r with
        | none => .error .jsonDecodeError
        | some (str, rest) => .ok (.str str, rest)
      else if c = 91 then
        match skipWs r with
        | [] => .error .jsonDecodeError
        | c2 :: r2 =>
          if c2 = 93 then .ok (.arr .nil, r2)
          else
            match parseJ f (.val r) with
            | .error e => .error e
            | .ok (v, r3) =>
              match parseJ f (.arrRest r3) with
              | .ok (.arr tl, r4) => .ok (.arr (.cons v tl), r4)
              | .ok _ => .error .jsonDecodeError
              | .error e => .error e
      else if c = 123 then
        match skipWs r with
        | [] => .error .jsonDecodeError
        | c2 :: r2 =>
          if c2 = 125 then .ok (.map .nil, r2)
          else if c2 = 34 then
            match parseStrBody r2 with
            | none => .error .jsonDecodeError
            | some (k, r3) =>
              match skipWs r3 with
              | [] => .error .jsonDecodeError
              | c3 :: r4 =>
                if c3 = 58 then
                  match parseJ f (.val r4) with
                  | .error e => .error e
                  | .ok (v, r5) =>
                    match parseJ f (.objRest r5) with
                    | .ok (.map tl, r6) => .ok (.map (.cons k v tl), r6)
                    | .ok _ => .error .jsonDecodeError
                    | .error e => .error e
                else .error .jsonDecodeError
          else .error .jsonDecodeError
      else
        match parseNum (c :: r) with
        | none => .error .jsonDecodeError
        | some (v, rest) => .ok (v, rest)
  | f + 1, .arrRest s =>
    match skipWs s with
    | [] => .error .jsonDecodeError
    | c :: r =>
      if c = 93 then .ok (.arr .nil, r)
      else if c = 44 then
        match parseJ f (.val r) with
        | .error e => .error e
        | .ok (v, r2) =>
          match parseJ f (.arrRest r2) with
          | .ok (.arr tl, r3) => .ok (.arr (.cons v tl), r3)
          | .ok _ => .error .jsonDecodeError
          | .error e => .error e
      else .error .jsonDecodeError
  | f + 1, .objRest s =>
    match skipWs s with
    | [] => .error .jsonDecodeError
    | c :: r =>
      if c = 125 then .ok (.map .nil, r)
      else if c = 44 then
        match skipWs r with
        | [] => .error .jsonDecodeError
        | c2 :: r2 =>
          if c2 = 34 then
            match parseStrBody r2 with
            | none => .error .jsonDecodeError
            | some (k, r3) =>
              match skipWs r3 with
              | [] => .error .jsonDecodeError
              | c3 :: r4 =>
                if c3 = 58 then
                  match parseJ f (.val r4) with
                  | .error e => .error e
                  | .ok (v, r5) =>
                    match parseJ f (.objRest r5) with
                    | .ok (.map tl, r6) => .ok (.map (.cons k v tl), r6)
                    | .ok _ => .error .jsonDecodeError
                    | .error e => .error e
                else .error .jsonDecodeError
          else .error .jsonDecodeError
      else .error .jsonDecodeError

/-- Model of `json.loads` on text input: parse one value and require only
whitespace to remain. -/
def jsonParse (s : List Nat) : Except PyExc MsgValue :=
  match parseJ (2 * s.length + 2) (.val s) with
  | .error e => .error e
  | .ok (v, r) =>
    match skipWs r with
    | [] => .ok v
    | _ => .error .jsonDecodeError

/-- Model of `json.loads` on bytes input: UTF-8 decode, then parse (a
`UnicodeDecodeError` escapes `loads` for undecodable bytes). -/
def jsonLoadsBytes (b : List Nat) : Except PyExc MsgValue :=
  match utf8Decode b with
  | none => .error .unicodeDecodeError
  | some s => jsonParse s

/-! ## JSON round trip: strings -/

theorem parseEscU_hex4 (u : Nat) (rest : List Nat) (hu : u < 0x10000)
    (hsur : ¬ (0xD800 ≤ u ∧ u < 0xE000)) :
    parseEscU (hex4 u ++ rest) = some (u, rest) := by
  show parseEscU (hexDig (u / 4096 % 16) :: hexDig (u / 256 % 16)
    :: hexDig (u / 16 % 16) :: hexDig (u % 16) :: rest) = _
  show (match hexVal4 (hexDig (u / 4096 % 16)) (hexDig (u / 256 % 16))
      (hexDig (u / 16 % 16)) (hexDig (u % 16)) with
    | none => none
    | some u =>
      if 0xD800 ≤ u ∧ u < 0xDC00 then parseEscPair u rest
      else some (u, rest)) = _
  rw [hexVal4_hex4 u hu]
  show (if 0xD800 ≤ u ∧ u < 0xDC00 then parseEscPair u rest else some (u, rest)) = _
  rw [if_neg (by omega)]

theorem parseEscPair_hex4 (u u2 : Nat) (rest : List Nat)
    (hu2 : 0xDC00 ≤ u2) (hu2b : u2 < 0xE000) :
    parseEscPair u (92 :: 117 :: hex4 u2 ++ rest) =
      some (0x10000 + (u - 0xD800) * 0x400 + (u2 - 0xDC00), rest) := by
  show parseEscPair u (92 :: 117 :: hexDig (u2 / 4096 % 16) :: hexDig (u2 / 256 % 16)
    :: hexDig (u2 / 16 % 16) :: hexDig (u2 % 16) :: rest) = _
  show (match hexVal4 (hexDig (u2 / 4096 % 16)) (hexDig (u2 / 256 % 16))
      (hexDig (u2 / 16 % 16)) (hexDig (u2 % 16)) with
    | none => none
    | some w =>
      if 0xDC00 ≤ w ∧ w < 0xE000 then
        some (0x10000 + (u - 0xD800) * 0x400 + (w - 0xDC00), rest)
      else some (u, 92 :: 117 :: hexDig (u2 / 4096 % 16) :: hexDig (u2 / 256 % 16)
        :: hexDig (u2 / 16 % 16) :: hexDig (u2 % 16) :: rest)) = _
  rw [hexVal4_hex4 u2 (by omega)]
  show (if 0xDC00 ≤ u2 ∧ u2 < 0xE000 then
      some (0x10000 + (u - 0xD800) * 0x400 + (u2 - 0xDC00), rest)
    else some (u, 92 :: 117 :: hexDig (u2 / 4096 % 16) :: hexDig (u2 / 256 % 16)
      :: hexDig (u2 / 16 % 16) :: hexDig (u2 % 16) :: rest)) = _
  rw [if_pos ⟨hu2, hu2b⟩]

theorem parseEscU_hi (u : Nat) (rest : List Nat) (h1 : 0xD800 ≤ u)
    (h2 : u < 0xDC00) :
    parseEscU (hex4 u ++ rest) = parseEscPair u rest := by
  show parseEscU (hexDig (u / 4096 % 16) :: hexDig (u / 256 % 16)
    :: hexDig (u / 16 % 16) :: hexDig (u % 16) :: rest) = _
  show (match hexVal4 (hexDig (u / 4096 % 16)) (hexDig (u / 256 % 16))
      (hexDig (u / 16 % 16)) (hexDig (u % 16)) with
    | none => none
    | some w =>
      if 0xD800 ≤ w ∧ w < 0xDC00 then parseEscPair w rest
      else some (w, rest)) = _
  rw [hexVal4_hex4 u (by omega)]
  show (if 0xD800 ≤ u ∧ u < 0xDC00 then parseEscPair u rest
    else some (u, rest)) = _
  rw [if_pos ⟨h1, h2⟩]

theorem parseEscU_astral (c : Nat) (rest : List Nat) (h1 : 0x10000 ≤ c)
    (h2 : c < 0x110000) :
    parseEscU (hex4 (0xD800 + (c - 0x10000) / 0x400)
      ++ (92 :: 117 :: hex4 (0xDC00 + (c - 0x10000) % 0x400) ++ rest)) =
      some (c, rest) := by
  rw [parseEscU_hi _ _ (by omega) (by omega),
    parseEscPair_hex4 _ _ rest (by omega) (by omega)]
  have hv : 0x10000 + (0xD800 + (c - 0x10000) / 0x400 - 0xD800) * 0x400
      + (0xDC00 + (c - 0x10000) % 0x400 - 0xDC00) = c := by omega
  rw [hv]

theorem parseStrBodyF_cons_esc (f : Nat) (rest r2 : List Nat) (u : Nat)
    (h : parseEsc rest = some (u, r2)) :
    parseStrBodyF (f + 1) (92 :: rest) =
      (parseStrBodyF f r2).map (fun p => (u :: p.1, p.2)) := by
  conv_lhs => unfold parseStrBodyF
  rw [if_neg (by omega), if_pos rfl, h]

theorem parseStrBodyF_cons_lit (f c : Nat) (rest : List Nat)
    (h34 : ¬ c = 34) (h92 : ¬ c = 92) (hctl : ¬ c < 0x20) :
    parseStrBodyF (f + 1) (c :: rest) =
      (parseStrBodyF f rest).map (fun p => (c :: p.1, p.2)) := by
  conv_lhs => unfold parseStrBodyF
  rw [if_neg h34, if_neg h92, if_neg hctl]

theorem parseEsc_u (c : Nat) (l rest : List Nat)
    (h : parseEscU l = some (c, rest)) :
    parseEsc (117 :: l) = some (c, rest) := by
  show parseEscU l = some (c, rest)
  exact h

theorem parseStrBodyF_char (c : Nat) (hc : cpWF c) (f : Nat) (rest : List Nat) :
    parseStrBodyF (f + 1) (jsonEscChar c ++ rest) =
      (parseStrBodyF f rest).map (fun p => (c :: p.1, p.2)) := by
  obtain ⟨hlt, hsur⟩ := hc
  unfold jsonEscChar
  by_cases h34 : c = 34
  · subst h34
    rw [if_pos rfl]
    exact parseStrBodyF_cons_esc f _ rest 34 rfl
  · rw [if_neg h34]
    by_cases h92 : c = 92
    · subst h92
      rw [if_pos rfl]
      exact parseStrBodyF_cons_esc f _ rest 92 rfl
    · rw [if_neg h92]
      by_cases h8 : c = 8
      · subst h8
        rw [if_pos rfl]
        exact parseStrBodyF_cons_esc f _ rest 8 rfl
      · rw [if_neg h8]
        by_cases h9 : c = 9
        · subst h9
          rw [if_pos rfl]
          exact parseStrBodyF_cons_esc f _ rest 9 rfl
        · rw [if_neg h9]
          by_cases h10 : c = 10
          · subst h10
            rw [if_pos rfl]
            exact parseStrBodyF_cons_esc f _ rest 10 rfl
          · rw [if_neg h10]
            by_cases h12 : c = 12
            · subst h12
              rw [if_pos rfl]
              exact parseStrBodyF_cons_esc f _ rest 12 rfl
            · rw [if_neg h12]
              by_cases h13 : c = 13
              · subst h13
                rw [if_pos rfl]
                exact parseStrBodyF_cons_esc f _ rest 13 rfl
              · rw [if_neg h13]
                by_cases hctl : c < 0x20
                · rw [if_pos hctl]
                  show parseStrBodyF (f + 1) (92 :: (117 :: (hex4 c ++ rest))) = _
                  exact parseStrBodyF_cons_esc f _ rest c
                    (parseEsc_u c _ _ (parseEscU_hex4 c rest (by omega) (by omega)))
                · rw [if_neg hctl]
                  by_cases hprint : c < 0x7F
                  · rw [if_pos hprint]
                    show parseStrBodyF (f + 1) (c :: rest) = _
                    exact parseStrBodyF_cons_lit f c rest h34 h92 hctl
                  · rw [if_neg hprint]
                    by_cases hbmp : c < 0x10000
                    · rw [if_pos hbmp]
                      show parseStrBodyF (f + 1) (92 :: (117 :: (hex4 c ++ rest))) = _
                      exact parseStrBodyF_cons_esc f _ rest c
                        (parseEsc_u c _ _ (parseEscU_hex4 c rest hbmp hsur))
                    · rw [if_neg hbmp]
                      show parseStrBodyF (f + 1)
                        (92 :: (117 :: (hex4 (0xD800 + (c - 0x10000) / 0x400)
                          ++ (92 :: 117 :: hex4 (0xDC00 + (c - 0x10000) % 0x400)
                            ++ rest)))) = _
                      exact parseStrBodyF_cons_esc f _ rest c
                        (parseEsc_u c _ _ (parseEscU_astral c rest (by omega) hlt))

theorem parseStrBodyF_escStr (s : List Nat) (hwf : strWF s) :
    ∀ (f : Nat) (rest : List Nat), s.length + 1 ≤ f →
      parseStrBodyF f (jsonEscStr s ++ (34 :: rest)) = some (s, rest) := by
  induction s with
  | nil =>
    intro f rest hf
    obtain ⟨f', rfl⟩ : ∃ f', f = f' + 1 := by
      cases f with
      | zero => omega
      | succ f' => exact ⟨f', rfl⟩
    show parseStrBodyF (f' + 1) (34 :: rest) = _
    unfold parseStrBodyF
    rw [if_pos rfl]
  | cons c cs ih =>
    intro f rest hf
    obtain ⟨f', rfl⟩ : ∃ f', f = f' + 1 := by
      cases f with
      | zero => omega
      | succ f' => exact ⟨f', rfl⟩
    have hc : cpWF c := hwf c (List.mem_cons_self c cs)
    have hcs : strWF cs := fun x hx => hwf x (List.mem_cons_of_mem c hx)
    have hassoc : jsonEscStr (c :: cs) ++ (34 :: rest)
        = jsonEscChar c ++ (jsonEscStr cs ++ (34 :: rest)) := by
      show (jsonEscChar c ++ jsonEscStr cs) ++ (34 :: rest) = _
      rw [List.append_assoc]
    rw [hassoc, parseStrBodyF_char c hc f' _,
      ih hcs f' rest (by simp at hf ⊢; omega)]
    rfl

theorem jsonEscStr_length_ge (s : List Nat) : s.length ≤ (jsonEscStr s).length := by
  induction s with
  | nil => simp [jsonEscStr]
  | cons c cs ih =>
    have h1 : 1 ≤ (jsonEscChar c).length := by
      unfold jsonEscChar
      repeat' split
      all_goals simp [hex4]
    show cs.length + 1 ≤ (jsonEscChar c ++ jsonEscStr cs).length
    rw [List.length_append]
    omega

theorem parseStrBody_escStr (s : List Nat) (hwf : strWF s) (rest : List Nat) :
    parseStrBody (jsonEscStr s ++ (34 :: rest)) = some (s, rest) := by
  unfold parseStrBody
  apply parseStrBodyF_escStr s hwf
  have := jsonEscStr_length_ge s
  simp only [List.length_append, List.length_cons]
  omega

/-! ## JSON round trip: numbers -/

/-- A continuation on which a JSON number literal may legally stop inside a
dumped document: end of input or a separator/closer character. -/
def numBdry : List Nat → Prop
  | [] => True
  | c :: _ => c = 44 ∨ c = 93 ∨ c = 125

/-- A continuation whose head cannot extend a digit run. -/
def headNotDigit : List Nat → Prop
  | [] => True
  | c :: _ => ¬ (48 ≤ c ∧ c ≤ 57)

theorem skipWs_nonws (c : Nat) (l : List Nat)
    (h : ¬ (c = 32 ∨ c = 9 ∨ c = 10 ∨ c = 13)) :
    skipWs (c :: l) = c :: l := by
  unfold skipWs
  rw [if_neg h]

theorem stripPrefix_refl_append (p s : List Nat) :
    stripPrefix p (p ++ s) = some s := by
  induction p with
  | nil => rfl
  | cons c cs ih =>
    show stripPrefix (c :: cs) (c :: (cs ++ s)) = some s
    unfold stripPrefix
    rw [if_pos rfl]
    exact ih

theorem stripPrefix_head_ne (p c : Nat) (ps cs : List Nat) (h : ¬ c = p) :
    stripPrefix (p :: ps) (c :: cs) = none := by
  unfold stripPrefix
  rw [if_neg h]

theorem numBdry_headNotDigit (l : List Nat) (h : numBdry l) :
    headNotDigit l := by
  cases l with
  | nil => trivial
  | cons c r =>
    have hc : c = 44 ∨ c = 93 ∨ c = 125 := h
    show ¬ (48 ≤ c ∧ c ≤ 57)
    omega

theorem takeDigits_stop (l : List Nat) (h : headNotDigit l) :
    takeDigits l = ([], l) := by
  cases l with
  | nil => rfl
  | cons c r =>
    unfold takeDigits
    rw [if_neg h]

theorem takeDigits_append (ds rest : List Nat)
    (h1 : ∀ c ∈ ds, 48 ≤ c ∧ c ≤ 57) (h2 : headNotDigit rest) :
    takeDigits (ds ++ rest) = (ds, rest) := by
  induction ds with
  | nil => exact takeDigits_stop rest h2
  | cons c cs ih =>
    show takeDigits (c :: (cs ++ rest)) = _
    unfold takeDigits
    rw [if_pos (h1 c (List.mem_cons_self c cs)),
      ih (fun x hx => h1 x (List.mem_cons_of_mem c hx))]

theorem parseFrac_bdry (l : List Nat) (h : numBdry l) :
    parseFrac l = some ([], l) := by
  cases l with
  | nil => rfl
  | cons c r =>
    have hc : c = 44 ∨ c = 93 ∨ c = 125 := h
    unfold parseFrac
    show (if c = 46 then
        match takeDigits r with
        | ([], _) => none
        | (fs, r3) => some (fs, r3)
      else some ([], c :: r)) = some ([], c :: r)
    rw [if_neg (by omega)]

theorem parseExp_bdry (l : List Nat) (h : numBdry l) :
    parseExp l = some (none, l) := by
  cases l with
  | nil => rfl
  | cons c r =>
    have hc : c = 44 ∨ c = 93 ∨ c = 125 := h
    clear h
    unfold parseExp
    show (if c = 101 ∨ c = 69 then
        match r with
        | [] => none
        | c2 :: r2 =>
          if c2 = 43 then parseExpDigits false r2
          else if c2 = 45 then parseExpDigits true r2
          else parseExpDigits false (c2 :: r2)
      else some (none, c :: r)) = some (none, c :: r)
    rw [if_neg (by omega)]

theorem digits10_head_48 (n : Nat) (ds : List Nat)
    (h : digits10 n = 48 :: ds) : ds = [] := by
  unfold digits10 at h
  by_cases h0 : n = 0
  · rw [if_pos h0] at h
    exact (List.cons.injEq 48 [] 48 ds).mp h |>.2.symm
  · rw [if_neg h0, digitsRev_eq_digits n n le_rfl] at h
    rcases hrev : (Nat.digits 10 n).reverse with _ | ⟨d0, tl⟩
    · rw [hrev] at h
      simp at h
    · rw [hrev] at h
      simp only [List.map_cons, List.cons.injEq] at h
      obtain ⟨hd0, _⟩ := h
      have hgl : (Nat.digits 10 n).getLast? = some d0 := by
        rw [← List.head?_reverse, hrev]
        rfl
      have hlast := Nat.getLast_digit_ne_zero 10 h0
      rw [List.getLast?_eq_getLast _ (Nat.digits_ne_nil_iff_ne_zero.mpr h0)] at hgl
      have hd0' : (Nat.digits 10 n).getLast
          (Nat.digits_ne_nil_iff_ne_zero.mpr h0) = d0 := by
        injection hgl
      rw [hd0'] at hlast
      omega

theorem parseNumTail_int (sign : Nat) (intDs rest : List Nat)
    (hb : numBdry rest) :
    parseNumTail sign intDs rest =
      some (.int (if sign = 1 then -(parseNat intDs : Int)
        else (parseNat intDs : Int)), rest) := by
  simp only [parseNumTail, parseFrac_bdry rest hb, parseExp_bdry rest hb]
  rw [if_pos (by simp)]

theorem parseNumBody_digits (sign M : Nat) (rest : List Nat)
    (hnd : headNotDigit rest) :
    parseNumBody sign (digits10 M ++ rest) = parseNumTail sign (digits10 M) rest := by
  obtain ⟨d, ds, hds⟩ : ∃ d ds, digits10 M = d :: ds := by
    rcases h : digits10 M with _ | ⟨d, ds⟩
    · exact absurd h (digits10_ne_nil M)
    · exact ⟨d, ds, rfl⟩
  rw [hds]
  unfold parseNumBody
  rw [takeDigits_append (d :: ds) rest (by rw [← hds]; exact digits10_are_digits M) hnd]
  show (if d = 48 ∧ ds ≠ [] then parseNumTail sign [48] (ds ++ rest)
    else parseNumTail sign (d :: ds) rest) = _
  have hcond : ¬ (d = 48 ∧ ds ≠ []) := by
    rintro ⟨h48, hne⟩
    subst h48
    exact hne (digits10_head_48 M ds hds)
  rw [if_neg hcond]

theorem parseNum_int (n : Int) (rest : List Nat) (hb : numBdry rest) :
    parseNum (((if n < 0 then [45] else []) ++ digits10 n.natAbs) ++ rest) =
      some (.int n, rest) := by
  have hnd := numBdry_headNotDigit rest hb
  by_cases hn : n < 0
  · rw [if_pos hn]
    show parseNum (45 :: (digits10 n.natAbs ++ rest)) = _
    show (if (45 : Nat) = 45 then parseNumBody 1 (digits10 n.natAbs ++ rest)
      else parseNumBody 0 (45 :: (digits10 n.natAbs ++ rest))) = _
    rw [if_pos rfl, parseNumBody_digits 1 n.natAbs rest hnd,
      parseNumTail_int 1 _ rest hb, if_pos rfl, parseNat_digits10]
    have hv : -(n.natAbs : Int) = n := by omega
    rw [hv]
  · rw [if_neg hn]
    obtain ⟨d, ds, hds⟩ : ∃ d ds, digits10 n.natAbs = d :: ds := by
      rcases h : digits10 n.natAbs with _ | ⟨d, ds⟩
      · exact absurd h (digits10_ne_nil n.natAbs)
      · exact ⟨d, ds, rfl⟩
    have hd : 48 ≤ d ∧ d ≤ 57 :=
      digits10_are_digits n.natAbs d (by rw [hds]; exact List.mem_cons_self d ds)
    show parseNum ((digits10 n.natAbs ++ rest) : List Nat) = _
    rw [show digits10 n.natAbs ++ rest = d :: (ds ++ rest) from by rw [hds]; rfl]
    show (if d = 45 then parseNumBody 1 (ds ++ rest)
      else parseNumBody 0 (d :: (ds ++ rest))) = _
    rw [if_neg (by omega),
      show d :: (ds ++ rest) = digits10 n.natAbs ++ rest from by rw [hds]; rfl,
      parseNumBody_digits 0 n.natAbs rest hnd, parseNumTail_int 0 _ rest hb,
      if_neg (by omega), parseNat_digits10]
    have hv : (n.natAbs : Int) = n := by omega
    rw [hv]

theorem parseFrac_head_ne (c : Nat) (r : List Nat) (h : ¬ c = 46) :
    parseFrac (c :: r) = some ([], c :: r) := by
  unfold parseFrac
  show (if c = 46 then
      match takeDigits r with
      | ([], _) => none
      | (fs, r3) => some (fs, r3)
    else some ([], c :: r)) = _
  rw [if_neg h]

theorem parseExpDigits_true (k : Nat) (rest : List Nat)
    (hnd : headNotDigit rest) :
    parseExpDigits true (digits10 k ++ rest) = some (some (-(k : Int)), rest) := by
  obtain ⟨d, ds, hds⟩ : ∃ d ds, digits10 k = d :: ds := by
    rcases h : digits10 k with _ | ⟨d, ds⟩
    · exact absurd h (digits10_ne_nil k)
    · exact ⟨d, ds, rfl⟩
  unfold parseExpDigits
  rw [takeDigits_append _ _ (digits10_are_digits k) hnd, hds]
  show some (some (-(parseNat (d :: ds) : Int)), rest) = _
  rw [← hds, parseNat_digits10]

theorem parseExp_e45 (k : Nat) (rest : List Nat) (hnd : headNotDigit rest) :
    parseExp (101 :: 45 :: (digits10 k ++ rest)) = some (some (-(k : Int)), rest) := by
  unfold parseExp
  show (if (101 : Nat) = 101 ∨ (101 : Nat) = 69 then
      if (45 : Nat) = 43 then parseExpDigits false (digits10 k ++ rest)
      else if (45 : Nat) = 45 then parseExpDigits true (digits10 k ++ rest)
      else parseExpDigits false (45 :: (digits10 k ++ rest))
    else some (none, 101 :: 45 :: (digits10 k ++ rest))) = _
  rw [if_pos (Or.inl rfl), if_neg (by omega), if_pos rfl,
    parseExpDigits_true k rest hnd]

theorem parseExp_e48 (rest : List Nat) (hb : numBdry rest) :
    parseExp (101 :: 48 :: rest) = some (some (0 : Int), rest) := by
  unfold parseExp
  show (if (101 : Nat) = 101 ∨ (101 : Nat) = 69 then
      if (48 : Nat) = 43 then parseExpDigits false rest
      else if (48 : Nat) = 45 then parseExpDigits true rest
      else parseExpDigits false (48 :: rest)
    else some (none, 101 :: 48 :: rest)) = _
  rw [if_pos (Or.inl rfl), if_neg (by omega), if_neg (by omega)]
  unfold parseExpDigits
  have ht : takeDigits (48 :: rest) = ([48], rest) := by
    have h := takeDigits_append [48] rest (by intro c hc; simp at hc; omega)
      (numBdry_headNotDigit rest hb)
    simpa using h
  rw [ht]
  show some (some ((parseNat [48] : Int)), rest) = _
  have hp : parseNat [48] = 0 := rfl
  rw [hp]
  norm_num

theorem parseNumBody_float_neg (sign M k : Nat) (rest : List Nat)
    (hb : numBdry rest) :
    parseNumBody sign (digits10 M ++ (101 :: 45 :: (digits10 k ++ rest))) =
      some (.float (jsonNumToBits sign M (-(k : Int))), rest) := by
  have hnd : headNotDigit (101 :: 45 :: (digits10 k ++ rest)) := by
    show ¬ (48 ≤ 101 ∧ 101 ≤ 57)
    omega
  rw [parseNumBody_digits sign M _ hnd]
  simp only [parseNumTail, parseFrac_head_ne 101 _ (by omega),
    parseExp_e45 k rest (numBdry_headNotDigit rest hb)]
  rw [if_neg (by simp)]
  rw [List.append_nil, parseNat_digits10]
  norm_num

theorem parseNumBody_float_e0 (sign M : Nat) (rest : List Nat)
    (hb : numBdry rest) :
    parseNumBody sign (digits10 M ++ (101 :: 48 :: rest)) =
      some (.float (jsonNumToBits sign M 0), rest) := by
  have hnd : headNotDigit (101 :: 48 :: rest) := by
    show ¬ (48 ≤ 101 ∧ 101 ≤ 57)
    omega
  rw [parseNumBody_digits sign M _ hnd]
  simp only [parseNumTail, parseFrac_head_ne 101 _ (by omega),
    parseExp_e48 rest hb]
  rw [if_neg (by simp)]
  rw [List.append_nil, parseNat_digits10]
  norm_num

theorem bits_decomp (bits : Nat) (h : bits < 2 ^ 64) :
    bits = fSign bits * 2 ^ 63 + fExp bits * 2 ^ 52 + fMant bits := by
  unfold fSign fExp fMant
  omega

theorem infBits_fSign (bits : Nat) (hlt : bits < 2 ^ 64) (h : fIsInf bits) :
    infBits (fSign bits) = bits := by
  obtain ⟨hexp, hmant⟩ := h
  have hd := bits_decomp bits hlt
  unfold infBits
  omega

theorem fSign_lt (bits : Nat) : fSign bits < 2 := by
  unfold fSign
  omega

theorem parseNum_floatTok (bits : Nat) (hlt : bits < 2 ^ 64)
    (hfin : fExp bits ≠ 2047) (rest : List Nat) (hb : numBdry rest) :
    parseNum (floatTok bits ++ rest) = some (.float bits, rest) := by
  unfold floatTok
  rw [if_neg (fun hn => hfin hn.1), if_neg (fun hn => hfin hn.1)]
  by_cases he : fCanonE bits < 0
  · rw [if_pos he]
    have hbase := jsonNumToBits_floatTok_neg bits hlt he
    have hkcast : -((((-(fCanonE bits)).toNat) : Nat) : Int) = fCanonE bits := by
      omega
    by_cases hs : fSign bits = 1
    · rw [if_pos hs]
      rw [hs] at hbase
      have hl : (([45] ++ (digits10 (fCanonM bits * 5 ^ (-(fCanonE bits)).toNat)
          ++ [101, 45] ++ digits10 (-(fCanonE bits)).toNat)) : List Nat) ++ rest
          = 45 :: (digits10 (fCanonM bits * 5 ^ (-(fCanonE bits)).toNat)
            ++ (101 :: 45 :: (digits10 (-(fCanonE bits)).toNat ++ rest))) := by
        simp
      rw [hl]
      show (if (45 : Nat) = 45 then
          parseNumBody 1 (digits10 (fCanonM bits * 5 ^ (-(fCanonE bits)).toNat)
            ++ (101 :: 45 :: (digits10 (-(fCanonE bits)).toNat ++ rest)))
        else parseNumBody 0 (45 :: (digits10 (fCanonM bits * 5 ^ (-(fCanonE bits)).toNat)
          ++ (101 :: 45 :: (digits10 (-(fCanonE bits)).toNat ++ rest))))) = _
      rw [if_pos rfl, parseNumBody_float_neg 1 _ _ rest hb, hkcast, hbase]
    · rw [if_neg hs]
      have hs0 : fSign bits = 0 := by
        have := fSign_lt bits
        omega
      rw [hs0] at hbase
      have hl : ((([] : List Nat) ++ (digits10 (fCanonM bits * 5 ^ (-(fCanonE bits)).toNat)
          ++ [101, 45] ++ digits10 (-(fCanonE bits)).toNat)) : List Nat) ++ rest
          = digits10 (fCanonM bits * 5 ^ (-(fCanonE bits)).toNat)
            ++ (101 :: 45 :: (digits10 (-(fCanonE bits)).toNat ++ rest)) := by
        simp
      rw [hl]
      obtain ⟨d, ds, hds⟩ : ∃ d ds,
          digits10 (fCanonM bits * 5 ^ (-(fCanonE bits)).toNat) = d :: ds := by
        rcases hh : digits10 (fCanonM bits * 5 ^ (-(fCanonE bits)).toNat) with _ | ⟨d, ds⟩
        · exact absurd hh (digits10_ne_nil _)
        · exact ⟨d, ds, rfl⟩
      have hd : 48 ≤ d ∧ d ≤ 57 :=
        digits10_are_digits _ d (by rw [hds]; exact List.mem_cons_self d ds)
      rw [hds]
      show (if d = 45 then
          parseNumBody 1 (ds ++ (101 :: 45 :: (digits10 (-(fCanonE bits)).toNat ++ rest)))
        else parseNumBody 0
          (d :: (ds ++ (101 :: 45 :: (digits10 (-(fCanonE bits)).toNat ++ rest))))) = _
      rw [if_neg (by omega),
        show d :: (ds ++ (101 :: 45 :: (digits10 (-(fCanonE bits)).toNat ++ rest)))
          = digits10 (fCanonM bits * 5 ^ (-(fCanonE bits)).toNat)
            ++ (101 :: 45 :: (digits10 (-(fCanonE bits)).toNat ++ rest)) from by
          rw [hds]; rfl,
        parseNumBody_float_neg 0 _ _ rest hb, hkcast, hbase]
  · rw [if_neg he]
    have he' : 0 ≤ fCanonE bits := by omega
    have hbase := jsonNumToBits_floatTok_pos bits hlt hfin he'
    by_cases hs : fSign bits = 1
    · rw [if_pos hs]
      rw [hs] at hbase
      have hl : (([45] ++ (digits10 (fCanonM bits * 2 ^ (fCanonE bits).toNat)
          ++ [101, 48])) : List Nat) ++ rest
          = 45 :: (digits10 (fCanonM bits * 2 ^ (fCanonE bits).toNat)
            ++ (101 :: 48 :: rest)) := by
        simp
      rw [hl]
      show (if (45 : Nat) = 45 then
          parseNumBody 1 (digits10 (fCanonM bits * 2 ^ (fCanonE bits).toNat)
            ++ (101 :: 48 :: rest))
        else parseNumBody 0 (45 :: (digits10 (fCanonM bits * 2 ^ (fCanonE bits).toNat)
          ++ (101 :: 48 :: rest)))) = _
      rw [if_pos rfl, parseNumBody_float_e0 1 _ rest hb, hbase]
    · rw [if_neg hs]
      have hs0 : fSign bits = 0 := by
        have := fSign_lt bits
        omega
      rw [hs0] at hbase
      have hl : ((([] : List Nat) ++ (digits10 (fCanonM bits * 2 ^ (fCanonE bits).toNat)
          ++ [101, 48])) : List Nat) ++ rest
          = digits10 (fCanonM bits * 2 ^ (fCanonE bits).toNat)
            ++ (101 :: 48 :: rest) := by
        simp
      rw [hl]
      obtain ⟨d, ds, hds⟩ : ∃ d ds,
          digits10 (fCanonM bits * 2 ^ (fCanonE bits).toNat) = d :: ds := by
        rcases hh : digits10 (fCanonM bits * 2 ^ (fCanonE bits).toNat) with _ | ⟨d, ds⟩
        · exact absurd hh (digits10_ne_nil _)
        · exact ⟨d, ds, rfl⟩
      have hd : 48 ≤ d ∧ d ≤ 57 :=
        digits10_are_digits _ d (by rw [hds]; exact List.mem_cons_self d ds)
      rw [hds]
      show (if d = 45 then
          parseNumBody 1 (ds ++ (101 :: 48 :: rest))
        else parseNumBody 0 (d :: (ds ++ (101 :: 48 :: rest)))) = _
      rw [if_neg (by omega),
        show d :: (ds ++ (101 :: 48 :: rest))
          = digits10 (fCanonM bits * 2 ^ (fCanonE bits).toNat)
            ++ (101 :: 48 :: rest) from by rw [hds]; rfl,
        parseNumBody_float_e0 0 _ rest hb, hbase]

/-! ## JSON round trip: whole documents -/

instance (c : Nat) : Decidable (cpWF c) := by
  unfold cpWF
  infer_instance

instance (s : List Nat) : Decidable (strWF s) := by
  unfold strWF
  infer_instance

instance (bits : Nat) : Decidable (fIsNan bits) := by
  unfold fIsNan
  infer_instance

instance (bits : Nat) : Decidable (fIsInf bits) := by
  unfold fIsInf
  infer_instance

mutual

/-- Text-mode serializability: no raw byte-strings, floats are 64-bit
non-NaN patterns, strings are well-formed code-point sequences. -/
def jtWFV : MsgValue → Bool
  | .nil => true
  | .bool _ => true
  | .int _ => true
  | .float bits => decide (bits < 2 ^ 64) && ! decide (fIsNan bits)
  | .str s => decide (strWF s)
  | .bin _ => false
  | .arr xs => jtWFL xs
  | .map kvs => jtWFP kvs

def jtWFL : MsgList → Bool
  | .nil => true
  | .cons v tl => jtWFV v && jtWFL tl

def jtWFP : MsgPairs → Bool
  | .nil => true
  | .cons k v tl => decide (strWF k) && (jtWFV v && jtWFP tl)

end

mutual

/-- Fuel sufficient for `parseJ` on the dump of a value. -/
def needJV : MsgValue → Nat
  | .arr xs => needJL xs
  | .map kvs => needJP kvs
  | _ => 1

/-- Fuel sufficient for `parseJ` on the dumped tail of an array. -/
def needJL : MsgList → Nat
  | .nil => 1
  | .cons v tl => Nat.max (needJV v) (needJL tl) + 1

/-- Fuel sufficient for `parseJ` on the dumped tail of an object. -/
def needJP : MsgPairs → Nat
  | .nil => 1
  | .cons _ v tl => Nat.max (needJV v) (needJP tl) + 1

end

theorem needJV_pos (v : MsgValue) : 1 ≤ needJV v := by
  cases v with
  | arr xs => cases xs <;> simp [needJV, needJL]
  | map kvs => cases kvs <;> simp [needJV, needJP]
  | nil => exact le_refl 1
  | bool b => exact le_refl 1
  | int n => exact le_refl 1
  | float bits => exact le_refl 1
  | str s => exact le_refl 1
  | bin b => exact le_refl 1

/-- Head shape of a dumped value: nonempty, not whitespace, not a closer
or separator. -/
def dumpsHeadOK : List Nat → Prop
  | [] => False
  | c :: _ => ¬ (c = 32 ∨ c = 9 ∨ c = 10 ∨ c = 13) ∧ c ≠ 93 ∧ c ≠ 125 ∧ c ≠ 44

theorem digits10_headOK (M : Nat) (t : List Nat) :
    dumpsHeadOK (digits10 M ++ t) := by
  obtain ⟨d, ds, hds⟩ : ∃ d ds, digits10 M = d :: ds := by
    rcases h : digits10 M with _ | ⟨d, ds⟩
    · exact absurd h (digits10_ne_nil M)
    · exact ⟨d, ds, rfl⟩
  have hd : 48 ≤ d ∧ d ≤ 57 :=
    digits10_are_digits M d (by rw [hds]; exact List.mem_cons_self d ds)
  rw [hds]
  show dumpsHeadOK (d :: (ds ++ t))
  exact ⟨by omega, by omega, by omega, by omega⟩

theorem jsonDumpsVal_headOK (v : MsgValue) (s : List Nat)
    (h : jsonDumpsVal v = some s) : dumpsHeadOK s := by
  cases v with
  | nil =>
    injection h with h
    subst h
    exact ⟨by omega, by omega, by omega, by omega⟩
  | bool b =>
    cases b <;> injection h with h <;> subst h <;>
      exact ⟨by omega, by omega, by omega, by omega⟩
  | int n =>
    injection h with h
    subst h
    by_cases hn : n < 0
    · rw [if_pos hn]
      show dumpsHeadOK (45 :: (digits10 n.natAbs))
      exact ⟨by omega, by omega, by omega, by omega⟩
    · rw [if_neg hn]
      have h0 := digits10_headOK n.natAbs []
      rw [List.append_nil] at h0
      exact h0
  | float bits =>
    injection h with h
    subst h
    unfold floatTok
    by_cases hnan : fIsNan bits
    · rw [if_pos hnan]
      exact ⟨by omega, by omega, by omega, by omega⟩
    · rw [if_neg hnan]
      by_cases hinf : fIsInf bits
      · rw [if_pos hinf]
        by_cases hs : fSign bits = 1
        · rw [if_pos hs]
          exact ⟨by omega, by omega, by omega, by omega⟩
        · rw [if_neg hs]
          exact ⟨by omega, by omega, by omega, by omega⟩
      · rw [if_neg hinf]
        by_cases hs : fSign bits = 1
        · rw [if_pos hs]
          by_cases he : fCanonE bits < 0
          · rw [if_pos he]
            exact ⟨by omega, by omega, by omega, by omega⟩
          · rw [if_neg he]
            exact ⟨by omega, by omega, by omega, by omega⟩
        · rw [if_neg hs]
          by_cases he : fCanonE bits < 0
          · rw [if_pos he]
            show dumpsHeadOK ([] ++ (digits10 (fCanonM bits * 5 ^ (-(fCanonE bits)).toNat)
              ++ [101, 45] ++ digits10 (-(fCanonE bits)).toNat))
            rw [List.nil_append, List.append_assoc]
            exact digits10_headOK _ _
          · rw [if_neg he]
            show dumpsHeadOK ([] ++ (digits10 (fCanonM bits * 2 ^ (fCanonE bits).toNat)
              ++ [101, 48]))
            rw [List.nil_append]
            exact digits10_headOK _ _
  | str t =>
    injection h with h
    subst h
    exact ⟨by omega, by omega, by omega, by omega⟩
  | bin b => exact absurd h (by simp [jsonDumpsVal])
  | arr xs =>
    unfold jsonDumpsVal at h
    rcases hm : jsonDumpsElems xs with _ | body <;> rw [hm] at h
    · exact absurd h (by simp)
    · injection h with h
      subst h
      exact ⟨by omega, by omega, by omega, by omega⟩
  | map kvs =>
    unfold jsonDumpsVal at h
    rcases hm : jsonDumpsMembers kvs with _ | body <;> rw [hm] at h
    · exact absurd h (by simp)
    · injection h with h
      subst h
      exact ⟨by omega, by omega, by omega, by omega⟩

theorem jsonDumpsElemsRest_shape (tl : MsgList) (b : List Nat)
    (h : jsonDumpsElemsRest tl = some b) :
    b = [] ∨ ∃ b2, b = 44 :: b2 := by
  cases tl with
  | nil =>
    injection h with h
    exact Or.inl h.symm
  | cons v tl =>
    unfold jsonDumpsElemsRest at h
    rcases hv : jsonDumpsVal v with _ | a <;> rw [hv] at h
    · exact absurd h (by simp)
    · rcases hr : jsonDumpsElemsRest tl with _ | b2 <;> rw [hr] at h
      · exact absurd h (by simp)
      · injection h with h
        exact Or.inr ⟨32 :: (a ++ b2), h.symm⟩

theorem jsonDumpsMembersRest_shape (ps : MsgPairs) (b : List Nat)
    (h : jsonDumpsMembersRest ps = some b) :
    b = [] ∨ ∃ b2, b = 44 :: b2 := by
  cases ps with
  | nil =>
    injection h with h
    exact Or.inl h.symm
  | cons k v tl =>
    unfold jsonDumpsMembersRest at h
    rcases hv : jsonDumpsVal v with _ | a <;> rw [hv] at h
    · exact absurd h (by simp)
    · rcases hr : jsonDumpsMembersRest tl with _ | b2 <;> rw [hr] at h
      · exact absurd h (by simp)
      · injection h with h
        exact Or.inr ⟨32 :: 34 :: (jsonEscStr k ++ (34 :: 58 :: 32 :: (a ++ b2))),
          h.symm⟩

theorem numBdry_of_shape (b rest : List Nat) (c : Nat)
    (hshape : b = [] ∨ ∃ b2, b = 44 :: b2) (hc : c = 93 ∨ c = 125) :
    numBdry (b ++ (c :: rest)) := by
  rcases hshape with rfl | ⟨b2, rfl⟩
  · show c = 44 ∨ c = 93 ∨ c = 125
    omega
  · show (44 : Nat) = 44 ∨ (44 : Nat) = 93 ∨ (44 : Nat) = 125
    exact Or.inl rfl

theorem skipWs_32 (m : List Nat) : skipWs (32 :: m) = skipWs m := rfl

theorem parseJ_val_ws (f : Nat) (m : List Nat) :
    parseJ (f + 1) (.val (32 :: m)) = parseJ (f + 1) (.val m) := by
  conv_lhs => unfold parseJ
  conv_rhs => unfold parseJ
  rw [skipWs_32]

theorem parseJ_val_default (f c : Nat) (r : List Nat)
    (hws : ¬ (c = 32 ∨ c = 9 ∨ c = 10 ∨ c = 13))
    (h110 : ¬ c = 110) (h116 : ¬ c = 116) (h102 : ¬ c = 102)
    (h78 : ¬ c = 78) (h73 : ¬ c = 73) (h45 : ¬ c = 45)
    (h34 : ¬ c = 34) (h91 : ¬ c = 91) (h123 : ¬ c = 123) :
    parseJ (f + 1) (.val (c :: r)) =
      match parseNum (c :: r) with
      | none => .error .jsonDecodeError
      | some (v, rest) => .ok (v, rest) := by
  unfold parseJ
  rw [skipWs_nonws c r hws]
  show ((if c = 110 then
      match stripPrefix [117, 108, 108] r with
      | some rest => Except.ok (MsgValue.nil, rest)
      | none => .error .jsonDecodeError
    else if c = 116 then
      match stripPrefix [114, 117, 101] r with
      | some rest => .ok (.bool true, rest)
      | none => .error .jsonDecodeError
    else if c = 102 then
      match stripPrefix [97, 108, 115, 101] r with
      | some rest => .ok (.bool false, rest)
      | none => .error .jsonDecodeError
    else if c = 78 then
      match stripPrefix [97, 78] r with
      | some rest => .ok (.float nanBits, rest)
      | none => .error .jsonDecodeError
    else if c = 73 then
      match stripPrefix [110, 102, 105, 110, 105, 116, 121] r with
      | some rest => .ok (.float (infBits 0), rest)
      | none => .error .jsonDecodeError
    else if c = 45 then
      match stripPrefix [73, 110, 102, 105, 110, 105, 116, 121] r with
      | some rest => .ok (.float (infBits 1), rest)
      | none =>
        match parseNum (c :: r) with
        | none => .error .jsonDecodeError
        | some (v, rest) => .ok (v, rest)
    else if c = 34 then
      match parseStrBody r with
      | none => .error .jsonDecodeError
      | some (str, rest) => .ok (.str str, rest)
    else if c = 91 then
      match skipWs r with
      | [] => .error .jsonDecodeError
      | c2 :: r2 =>
        if c2 = 93 then .ok (.arr .nil, r2)
        else
          match parseJ f (.val r) with
          | .error e => .error e
          | .ok (v, r3) =>
            match parseJ f (.arrRest r3) with
            | .ok (.arr tl, r4) => .ok (.arr (.cons v tl), r4)
            | .ok _ => .error .jsonDecodeError
            | .error e => .error e
    else if c = 123 then
      match skipWs r with
      | [] => .error .jsonDecodeError
      | c2 :: r2 =>
        if c2 = 125 then .ok (.map .nil, r2)
        else if c2 = 34 then
          match parseStrBody r2 with
          | none => .error .jsonDecodeError
          | some (k, r3) =>
            match skipWs r3 with
            | [] => .error .jsonDecodeError
            | c3 :: r4 =>
              if c3 = 58 then
                match parseJ f (.val r4) with
                | .error e => .error e
                | .ok (v, r5) =>
                  match parseJ f (.objRest r5) with
                  | .ok (.map tl, r6) => .ok (.map (.cons k v tl), r6)
                  | .ok _ => .error .jsonDecodeError
                  | .error e => .error e
              else .error .jsonDecodeError
        else .error .jsonDecodeError
    else
      match parseNum (c :: r) with
      | none => .error .jsonDecodeError
      | some (v, rest) => .ok (v, rest)) : Except PyExc (MsgValue × List Nat)) = _
  rw [if_neg h110, if_neg h116, if_neg h102, if_neg h78, if_neg h73,
    if_neg h45, if_neg h34, if_neg h91, if_neg h123]

theorem parseJ_val_number (f : Nat) (l : List Nat)
    (hshape : (∃ d t, l = 45 :: d :: t ∧ 48 ≤ d ∧ d ≤ 57)
      ∨ (∃ d t, l = d :: t ∧ 48 ≤ d ∧ d ≤ 57)) :
    parseJ (f + 1) (.val l) =
      match parseNum l with
      | none => .error .jsonDecodeError
      | some (v, rest) => .ok (v, rest) := by
  rcases hshape with ⟨d, t, rfl, hd⟩ | ⟨d, t, rfl, hd⟩
  · have hred : parseJ (f + 1) (.val (45 :: d :: t))
        = match stripPrefix [73, 110, 102, 105, 110, 105, 116, 121] (d :: t) with
          | some r2 =>
            (Except.ok (MsgValue.float (infBits 1), r2) :
              Except PyExc (MsgValue × List Nat))
          | none =>
            match parseNum (45 :: d :: t) with
            | none => .error .jsonDecodeError
            | some (v, r2) => .ok (v, r2) := rfl
    rw [hred, stripPrefix_head_ne 73 d _ _ (by omega)]
  · exact parseJ_val_default f d t (by omega) (by omega) (by omega) (by omega)
      (by omega) (by omega) (by omega) (by omega) (by omega) (by omega)

theorem parseJ_val_num (f : Nat) (n : Int) (rest : List Nat) (hb : numBdry rest) :
    parseJ (f + 1)
      (.val ((((if n < 0 then [45] else []) ++ digits10 n.natAbs) : List Nat)
        ++ rest)) = .ok (.int n, rest) := by
  have hpn := parseNum_int n rest hb
  obtain ⟨d, ds, hds⟩ : ∃ d ds, digits10 n.natAbs = d :: ds := by
    rcases h : digits10 n.natAbs with _ | ⟨d, ds⟩
    · exact absurd h (digits10_ne_nil n.natAbs)
    · exact ⟨d, ds, rfl⟩
  have hd : 48 ≤ d ∧ d ≤ 57 :=
    digits10_are_digits n.natAbs d (by rw [hds]; exact List.mem_cons_self d ds)
  rw [parseJ_val_number f _ ?hs, hpn]
  case hs =>
    by_cases hn : n < 0
    · refine Or.inl ⟨d, ds ++ rest, ?_, hd⟩
      rw [if_pos hn, hds]
      rfl
    · refine Or.inr ⟨d, ds ++ rest, ?_, hd⟩
      rw [if_neg hn, hds]
      rfl

theorem parseJ_val_str_lem (f : Nat) (s rest : List Nat) (hwf : strWF s) :
    parseJ (f + 1) (.val ((34 :: (jsonEscStr s ++ [34])) ++ rest)) =
      .ok (.str s, rest) := by
  show parseJ (f + 1) (.val (34 :: ((jsonEscStr s ++ [34]) ++ rest))) = _
  have hl : (jsonEscStr s ++ [34]) ++ rest = jsonEscStr s ++ (34 :: rest) := by
    simp
  rw [hl]
  have hred : parseJ (f + 1) (.val (34 :: (jsonEscStr s ++ (34 :: rest))))
      = match parseStrBody (jsonEscStr s ++ (34 :: rest)) with
        | none =>
          (Except.error PyExc.jsonDecodeError : Except PyExc (MsgValue × List Nat))
        | some (str2, r2) => .ok (.str str2, r2) := rfl
  rw [hred, parseStrBody_escStr s hwf rest]

theorem parseJ_val_float (f bits : Nat) (hlt : bits < 2 ^ 64)
    (hnan : ¬ fIsNan bits) (rest : List Nat) (hb : numBdry rest) :
    parseJ (f + 1) (.val (floatTok bits ++ rest)) = .ok (.float bits, rest) := by
  by_cases hinf : fIsInf bits
  · unfold floatTok
    rw [if_neg hnan, if_pos hinf]
    have hi := infBits_fSign bits hlt hinf
    by_cases hs : fSign bits = 1
    · rw [if_pos hs]
      rw [hs] at hi
      show parseJ (f + 1)
        (.val (45 :: 73 :: 110 :: 102 :: 105 :: 110 :: 105 :: 116 :: 121 :: rest)) = _
      have hred : parseJ (f + 1)
          (.val (45 :: 73 :: 110 :: 102 :: 105 :: 110 :: 105 :: 116 :: 121 :: rest))
          = .ok (.float (infBits 1), rest) := rfl
      rw [hred, hi]
    · rw [if_neg hs]
      have hs0 : fSign bits = 0 := by
        have := fSign_lt bits
        omega
      rw [hs0] at hi
      show parseJ (f + 1)
        (.val (73 :: 110 :: 102 :: 105 :: 110 :: 105 :: 116 :: 121 :: rest)) = _
      have hred : parseJ (f + 1)
          (.val (73 :: 110 :: 102 :: 105 :: 110 :: 105 :: 116 :: 121 :: rest))
          = .ok (.float (infBits 0), rest) := rfl
      rw [hred, hi]
  · have hfin : fExp bits ≠ 2047 := by
      intro hc
      by_cases hm : fMant bits = 0
      · exact hinf ⟨hc, hm⟩
      · exact hnan ⟨hc, hm⟩
    have hpn := parseNum_floatTok bits hlt hfin rest hb
    rw [parseJ_val_number f _ ?hs, hpn]
    case hs =>
      unfold floatTok at *
      rw [if_neg hnan, if_neg (fun hn => hfin hn.1)] at *
      by_cases he : fCanonE bits < 0
      · rw [if_pos he] at *
        obtain ⟨d, ds, hds⟩ : ∃ d ds,
            digits10 (fCanonM bits * 5 ^ (-(fCanonE bits)).toNat) = d :: ds := by
          rcases hh : digits10 (fCanonM bits * 5 ^ (-(fCanonE bits)).toNat)
            with _ | ⟨d, ds⟩
          · exact absurd hh (digits10_ne_nil _)
          · exact ⟨d, ds, rfl⟩
        have hd : 48 ≤ d ∧ d ≤ 57 :=
          digits10_are_digits _ d (by rw [hds]; exact List.mem_cons_self d ds)
        by_cases hsg : fSign bits = 1
        · rw [if_pos hsg]
          refine Or.inl ⟨d,
            (ds ++ ([101, 45] ++ digits10 (-(fCanonE bits)).toNat)) ++ rest, ?_, hd⟩
          rw [show ([45] ++ (digits10 (fCanonM bits * 5 ^ (-(fCanonE bits)).toNat)
              ++ [101, 45] ++ digits10 (-(fCanonE bits)).toNat) : List Nat) ++ rest
              = 45 :: ((digits10 (fCanonM bits * 5 ^ (-(fCanonE bits)).toNat)
                ++ ([101, 45] ++ digits10 (-(fCanonE bits)).toNat)) ++ rest) from by
            simp, hds]
          rfl
        · rw [if_neg hsg]
          refine Or.inr ⟨d,
            (ds ++ ([101, 45] ++ digits10 (-(fCanonE bits)).toNat)) ++ rest, ?_, hd⟩
          rw [show (([] : List Nat) ++ (digits10 (fCanonM bits * 5 ^ (-(fCanonE bits)).toNat)
              ++ [101, 45] ++ digits10 (-(fCanonE bits)).toNat) : List Nat) ++ rest
              = (digits10 (fCanonM bits * 5 ^ (-(fCanonE bits)).toNat)
                ++ ([101, 45] ++ digits10 (-(fCanonE bits)).toNat)) ++ rest from by
            simp, hds]
          rfl
      · rw [if_neg he] at *
        obtain ⟨d, ds, hds⟩ : ∃ d ds,
            digits10 (fCanonM bits * 2 ^ (fCanonE bits).toNat) = d :: ds := by
          rcases hh : digits10 (fCanonM bits * 2 ^ (fCanonE bits).toNat)
            with _ | ⟨d, ds⟩
          · exact absurd hh (digits10_ne_nil _)
          · exact ⟨d, ds, rfl⟩
        have hd : 48 ≤ d ∧ d ≤ 57 :=
          digits10_are_digits _ d (by rw [hds]; exact List.mem_cons_self d ds)
        by_cases hsg : fSign bits = 1
        · rw [if_pos hsg]
          refine Or.inl ⟨d, (ds ++ [101, 48]) ++ rest, ?_, hd⟩
          rw [show ([45] ++ (digits10 (fCanonM bits * 2 ^ (fCanonE bits).toNat)
              ++ [101, 48]) : List Nat) ++ rest
              = 45 :: ((digits10 (fCanonM bits * 2 ^ (fCanonE bits).toNat)
                ++ [101, 48]) ++ rest) from by simp, hds]
          rfl
        · rw [if_neg hsg]
          refine Or.inr ⟨d, (ds ++ [101, 48]) ++ rest, ?_, hd⟩
          rw [show (([] : List Nat) ++ (digits10 (fCanonM bits * 2 ^ (fCanonE bits).toNat)
              ++ [101, 48]) : List Nat) ++ rest
              = (digits10 (fCanonM bits * 2 ^ (fCanonE bits).toNat)
                ++ [101, 48]) ++ rest from by simp, hds]
          rfl

theorem needJL_pos (tl : MsgList) : 1 ≤ needJL tl := by
  cases tl with
  | nil => exact le_refl 1
  | cons v tl =>
    show 1 ≤ Nat.max (needJV v) (needJL tl) + 1
    omega

theorem needJP_pos (ps : MsgPairs) : 1 ≤ needJP ps := by
  cases ps with
  | nil => exact le_refl 1
  | cons k v tl =>
    show 1 ≤ Nat.max (needJV v) (needJP tl) + 1
    omega

theorem fuel_succ {k f : Nat} (h1 : 1 ≤ k) (h2 : k ≤ f) :
    ∃ f2, f = f2 + 1 := by
  cases f with
  | zero => omega
  | succ f2 => exact ⟨f2, rfl⟩

mutual

theorem needJV_le_len (v : MsgValue) : ∀ s : List Nat,
    jsonDumpsVal v = some s → needJV v ≤ s.length + 1 := by
  cases v with
  | nil =>
    intro s h
    show 1 ≤ s.length + 1
    omega
  | bool b =>
    intro s h
    cases b <;> (show 1 ≤ s.length + 1; omega)
  | int n =>
    intro s h
    show 1 ≤ s.length + 1
    omega
  | float bits =>
    intro s h
    show 1 ≤ s.length + 1
    omega
  | str t =>
    intro s h
    show 1 ≤ s.length + 1
    omega
  | bin bb =>
    intro s h
    exact absurd h (by simp [jsonDumpsVal])
  | arr xs =>
    cases xs with
    | nil =>
      intro s h
      show 1 ≤ s.length + 1
      omega
    | cons v tl =>
      intro s h
      unfold jsonDumpsVal at h
      rcases helems : jsonDumpsElems (.cons v tl) with _ | body <;> rw [helems] at h
      · exact absurd h (by simp)
      · injection h with h
        subst h
        unfold jsonDumpsElems at helems
        rcases hva : jsonDumpsVal v with _ | a <;> rw [hva] at helems
        · exact absurd helems (by simp)
        · rcases hvb : jsonDumpsElemsRest tl with _ | b <;> rw [hvb] at helems
          · exact absurd helems (by simp)
          · injection helems with helems
            subst helems
            have h1 := needJV_le_len v a hva
            have h2 := needJL_le_len tl b hvb
            show Nat.max (needJV v) (needJL tl) + 1 ≤ _
            have h3 : Nat.max (needJV v) (needJL tl) ≤ a.length + 1 + (b.length + 1) :=
              Nat.max_le.mpr ⟨by omega, by omega⟩
            simp only [List.length_cons, List.length_append]
            omega
  | map kvs =>
    cases kvs with
    | nil =>
      intro s h
      show 1 ≤ s.length + 1
      omega
    | cons k v tl =>
      intro s h
      unfold jsonDumpsVal at h
      rcases hmem : jsonDumpsMembers (.cons k v tl) with _ | body <;> rw [hmem] at h
      · exact absurd h (by simp)
      · injection h with h
        subst h
        unfold jsonDumpsMembers at hmem
        rcases hva : jsonDumpsVal v with _ | a <;> rw [hva] at hmem
        · exact absurd hmem (by simp)
        · rcases hvb : jsonDumpsMembersRest tl with _ | b <;> rw [hvb] at hmem
          · exact absurd hmem (by simp)
          · injection hmem with hmem
            subst hmem
            have h1 := needJV_le_len v a hva
            have h2 := needJP_le_len tl b hvb
            show Nat.max (needJV v) (needJP tl) + 1 ≤ _
            have h3 : Nat.max (needJV v) (needJP tl) ≤ a.length + 1 + (b.length + 1) :=
              Nat.max_le.mpr ⟨by omega, by omega⟩
            simp only [List.length_cons, List.length_append]
            omega

theorem needJL_le_len (tl : MsgList) : ∀ b : List Nat,
    jsonDumpsElemsRest tl = some b → needJL tl ≤ b.length + 1 := by
  cases tl with
  | nil =>
    intro b h
    show 1 ≤ b.length + 1
    omega
  | cons v tl =>
    intro b h
    unfold jsonDumpsElemsRest at h
    rcases hva : jsonDumpsVal v with _ | a <;> rw [hva] at h
    · exact absurd h (by simp)
    · rcases hvb : jsonDumpsElemsRest tl with _ | b2 <;> rw [hvb] at h
      · exact absurd h (by simp)
      · injection h with h
        subst h
        have h1 := needJV_le_len v a hva
        have h2 := needJL_le_len tl b2 hvb
        show Nat.max (needJV v) (needJL tl) + 1 ≤ _
        have h3 : Nat.max (needJV v) (needJL tl) ≤ a.length + 1 + (b2.length + 1) :=
          Nat.max_le.mpr ⟨by omega, by omega⟩
        simp only [List.length_cons, List.length_append]
        omega

theorem needJP_le_len (ps : MsgPairs) : ∀ b : List Nat,
    jsonDumpsMembersRest ps = some b → needJP ps ≤ b.length + 1 := by
  cases ps with
  | nil =>
    intro b h
    show 1 ≤ b.length + 1
    omega
  | cons k v tl =>
    intro b h
    unfold jsonDumpsMembersRest at h
    rcases hva : jsonDumpsVal v with _ | a <;> rw [hva] at h
    · exact absurd h (by simp)
    · rcases hvb : jsonDumpsMembersRest tl with _ | b2 <;> rw [hvb] at h
      · exact absurd h (by simp)
      · injection h with h
        subst h
        have h1 := needJV_le_len v a hva
        have h2 := needJP_le_len tl b2 hvb
        show Nat.max (needJV v) (needJP tl) + 1 ≤ _
        have h3 : Nat.max (needJV v) (needJP tl) ≤ a.length + 1 + (b2.length + 1) :=
          Nat.max_le.mpr ⟨by omega, by omega⟩
        simp only [List.length_cons, List.length_append]
        omega

end

mutual

theorem parseJ_dumps_val (v : MsgValue) : ∀ (f : Nat) (s rest : List Nat),
    jtWFV v = true → jsonDumpsVal v = some s → numBdry rest → needJV v ≤ f →
    parseJ f (.val (s ++ rest)) = .ok (v, rest) := by
  cases v with
  | nil =>
    intro f s rest hwf hd hb hf
    obtain ⟨f2, rfl⟩ := fuel_succ (needJV_pos .nil) hf
    injection hd with hd
    subst hd
    rfl
  | bool bv =>
    intro f s rest hwf hd hb hf
    obtain ⟨f2, rfl⟩ := fuel_succ (needJV_pos (.bool bv)) hf
    cases bv <;> (injection hd with hd; subst hd; rfl)
  | int n =>
    intro f s rest hwf hd hb hf
    obtain ⟨f2, rfl⟩ := fuel_succ (needJV_pos (.int n)) hf
    injection hd with hd
    subst hd
    exact parseJ_val_num f2 n rest hb
  | float bits =>
    intro f s rest hwf hd hb hf
    obtain ⟨f2, rfl⟩ := fuel_succ (needJV_pos (.float bits)) hf
    injection hd with hd
    subst hd
    simp only [jtWFV, Bool.and_eq_true, Bool.not_eq_true', decide_eq_true_eq,
      decide_eq_false_iff_not] at hwf
    exact parseJ_val_float f2 bits hwf.1 hwf.2 rest hb
  | str t =>
    intro f s rest hwf hd hb hf
    obtain ⟨f2, rfl⟩ := fuel_succ (needJV_pos (.str t)) hf
    injection hd with hd
    subst hd
    simp only [jtWFV, decide_eq_true_eq] at hwf
    exact parseJ_val_str_lem f2 t rest hwf
  | bin bb =>
    intro f s rest hwf hd hb hf
    exact absurd hwf (by simp [jtWFV])
  | arr xs =>
    cases xs with
    | nil =>
      intro f s rest hwf hd hb hf
      obtain ⟨f2, rfl⟩ := fuel_succ (needJV_pos (.arr .nil)) hf
      injection hd with hd
      subst hd
      rfl
    | cons v tl =>
      intro f s rest hwf hd hb hf
      obtain ⟨f2, rfl⟩ := fuel_succ (needJV_pos (.arr (.cons v tl))) hf
      simp only [jtWFV, jtWFL, Bool.and_eq_true] at hwf
      obtain ⟨hwv, hwtl⟩ := hwf
      unfold jsonDumpsVal at hd
      rcases helems : jsonDumpsElems (.cons v tl) with _ | body <;> rw [helems] at hd
      · exact absurd hd (by simp)
      · injection hd with hd
        subst hd
        unfold jsonDumpsElems at helems
        rcases hva : jsonDumpsVal v with _ | a <;> rw [hva] at helems
        · exact absurd helems (by simp)
        · rcases hvb : jsonDumpsElemsRest tl with _ | b <;> rw [hvb] at helems
          · exact absurd helems (by simp)
          · injection helems with helems
            subst helems
            have hm : Nat.max (needJV v) (needJL tl) ≤ f2 := by
              have h3 : Nat.max (needJV v) (needJL tl) + 1 ≤ f2 + 1 := hf
              omega
            have hfv : needJV v ≤ f2 := le_trans (Nat.le_max_left _ _) hm
            have hft : needJL tl ≤ f2 := le_trans (Nat.le_max_right _ _) hm
            show parseJ (f2 + 1) (.val (91 :: (((a ++ b) ++ [93]) ++ rest))) = _
            have hl : ((a ++ b) ++ [93]) ++ rest = a ++ (b ++ (93 :: rest)) := by
              simp
            rw [hl]
            have hred : parseJ (f2 + 1) (.val (91 :: (a ++ (b ++ (93 :: rest)))))
                = match skipWs (a ++ (b ++ (93 :: rest))) with
                  | [] =>
                    (Except.error PyExc.jsonDecodeError :
                      Except PyExc (MsgValue × List Nat))
                  | c2 :: r2 =>
                    if c2 = 93 then .ok (.arr .nil, r2)
                    else
                      match parseJ f2 (.val (a ++ (b ++ (93 :: rest)))) with
                      | .error e => .error e
                      | .ok (w, r3) =>
                        match parseJ f2 (.arrRest r3) with
                        | .ok (.arr tl2, r4) => .ok (.arr (.cons w tl2), r4)
                        | .ok _ => .error .jsonDecodeError
                        | .error e => .error e := rfl
            rw [hred]
            have hhead := jsonDumpsVal_headOK v a hva
            rcases a with _ | ⟨ca, a2⟩
            · exact hhead.elim
            · obtain ⟨hcaws, hca93, _, _⟩ := hhead
              rw [List.cons_append, skipWs_nonws ca _ hcaws]
              show (if ca = 93 then
                  (Except.ok (MsgValue.arr .nil, a2 ++ (b ++ (93 :: rest))) :
                    Except PyExc (MsgValue × List Nat))
                else
                  match parseJ f2 (.val (ca :: (a2 ++ (b ++ (93 :: rest))))) with
                  | .error e => .error e
                  | .ok (w, r3) =>
                    match parseJ f2 (.arrRest r3) with
                    | .ok (.arr tl2, r4) => .ok (.arr (.cons w tl2), r4)
                    | .ok _ => .error .jsonDecodeError
                    | .error e => .error e) = _
              rw [if_neg hca93]
              have hv := parseJ_dumps_val v f2 (ca :: a2) (b ++ (93 :: rest)) hwv hva
                (numBdry_of_shape b rest 93 (jsonDumpsElemsRest_shape tl b hvb)
                  (Or.inl rfl)) hfv
              rw [List.cons_append] at hv
              rw [hv]
              show (match parseJ f2 (.arrRest (b ++ (93 :: rest))) with
                | .ok (.arr tl2, r4) =>
                  (Except.ok (MsgValue.arr (.cons v tl2), r4) :
                    Except PyExc (MsgValue × List Nat))
                | .ok _ => .error .jsonDecodeError
                | .error e => .error e) = _
              rw [parseJ_dumps_arrRest tl f2 b rest hwtl hvb hb hft]
  | map kvs =>
    cases kvs with
    | nil =>
      intro f s rest hwf hd hb hf
      obtain ⟨f2, rfl⟩ := fuel_succ (needJV_pos (.map .nil)) hf
      injection hd with hd
      subst hd
      rfl
    | cons k v tl =>
      intro f s rest hwf hd hb hf
      obtain ⟨f2, rfl⟩ := fuel_succ (needJV_pos (.map (.cons k v tl))) hf
      simp only [jtWFV, jtWFP, Bool.and_eq_true, decide_eq_true_eq] at hwf
      obtain ⟨hwk, hwv, hwtl⟩ := hwf
      unfold jsonDumpsVal at hd
      rcases hmem : jsonDumpsMembers (.cons k v tl) with _ | body <;> rw [hmem] at hd
      · exact absurd hd (by simp)
      · injection hd with hd
        subst hd
        unfold jsonDumpsMembers at hmem
        rcases hva : jsonDumpsVal v with _ | a <;> rw [hva] at hmem
        · exact absurd hmem (by simp)
        · rcases hvb : jsonDumpsMembersRest tl with _ | b <;> rw [hvb] at hmem
          · exact absurd hmem (by simp)
          · injection hmem with hmem
            subst hmem
            have hm : Nat.max (needJV v) (needJP tl) ≤ f2 := by
              have h3 : Nat.max (needJV v) (needJP tl) + 1 ≤ f2 + 1 := hf
              omega
            have hfv : needJV v ≤ f2 := le_trans (Nat.le_max_left _ _) hm
            have hft : needJP tl ≤ f2 := le_trans (Nat.le_max_right _ _) hm
            show parseJ (f2 + 1) (.val (123 :: 34 ::
              (((jsonEscStr k ++ (34 :: 58 :: 32 :: (a ++ b))) ++ [125]) ++ rest))) = _
            have hl : ((jsonEscStr k ++ (34 :: 58 :: 32 :: (a ++ b))) ++ [125]) ++ rest
                = jsonEscStr k ++ (34 :: 58 :: 32 :: (a ++ (b ++ (125 :: rest)))) := by
              simp
            rw [hl]
            have hred : parseJ (f2 + 1) (.val (123 :: 34 ::
                (jsonEscStr k ++ (34 :: 58 :: 32 :: (a ++ (b ++ (125 :: rest)))))))
                = match parseStrBody
                    (jsonEscStr k ++ (34 :: 58 :: 32 :: (a ++ (b ++ (125 :: rest))))) with
                  | none =>
                    (Except.error PyExc.jsonDecodeError :
                      Except PyExc (MsgValue × List Nat))
                  | some (k2, r3) =>
                    match skipWs r3 with
                    | [] => .error .jsonDecodeError
                    | c3 :: r4 =>
                      if c3 = 58 then
                        match parseJ f2 (.val r4) with
                        | .error e => .error e
                        | .ok (w, r5) =>
                          match parseJ f2 (.objRest r5) with
                          | .ok (.map tl2, r6) => .ok (.map (.cons k2 w tl2), r6)
                          | .ok _ => .error .jsonDecodeError
                          | .error e => .error e
                      else .error .jsonDecodeError := rfl
            rw [hred, parseStrBody_escStr k hwk (58 :: 32 :: (a ++ (b ++ (125 :: rest))))]
            show (match parseJ f2 (.val (32 :: (a ++ (b ++ (125 :: rest))))) with
              | .error e => (Except.error e : Except PyExc (MsgValue × List Nat))
              | .ok (w, r5) =>
                match parseJ f2 (.objRest r5) with
                | .ok (.map tl2, r6) => .ok (.map (.cons k w tl2), r6)
                | .ok _ => .error .jsonDecodeError
                | .error e => .error e) = _
            obtain ⟨f3, rfl⟩ := fuel_succ (needJV_pos v) hfv
            rw [parseJ_val_ws f3 (a ++ (b ++ (125 :: rest)))]
            have hv := parseJ_dumps_val v (f3 + 1) a (b ++ (125 :: rest)) hwv hva
              (numBdry_of_shape b rest 125 (jsonDumpsMembersRest_shape tl b hvb)
                (Or.inr rfl)) hfv
            rw [hv]
            show (match parseJ (f3 + 1) (.objRest (b ++ (125 :: rest))) with
              | .ok (.map tl2, r6) =>
                (Except.ok (MsgValue.map (.cons k v tl2), r6) :
                  Except PyExc (MsgValue × List Nat))
              | .ok _ => .error .jsonDecodeError
              | .error e => .error e) = _
            rw [parseJ_dumps_objRest tl (f3 + 1) b rest hwtl hvb hb hft]

theorem parseJ_dumps_arrRest (tl : MsgList) : ∀ (f : Nat) (b rest : List Nat),
    jtWFL tl = true → jsonDumpsElemsRest tl = some b → numBdry rest →
    needJL tl ≤ f →
    parseJ f (.arrRest (b ++ (93 :: rest))) = .ok (.arr tl, rest) := by
  cases tl with
  | nil =>
    intro f b rest hwf hd hb hf
    obtain ⟨f2, rfl⟩ := fuel_succ (needJL_pos .nil) hf
    injection hd with hd
    subst hd
    rfl
  | cons v tl =>
    intro f b rest hwf hd hb hf
    obtain ⟨f2, rfl⟩ := fuel_succ (needJL_pos (.cons v tl)) hf
    simp only [jtWFL, Bool.and_eq_true] at hwf
    obtain ⟨hwv, hwtl⟩ := hwf
    unfold jsonDumpsElemsRest at hd
    rcases hva : jsonDumpsVal v with _ | a <;> rw [hva] at hd
    · exact absurd hd (by simp)
    · rcases hvb : jsonDumpsElemsRest tl with _ | b2 <;> rw [hvb] at hd
      · exact absurd hd (by simp)
      · injection hd with hd
        subst hd
        have hm : Nat.max (needJV v) (needJL tl) ≤ f2 := by
          have h3 : Nat.max (needJV v) (needJL tl) + 1 ≤ f2 + 1 := hf
          omega
        have hfv : needJV v ≤ f2 := le_trans (Nat.le_max_left _ _) hm
        have hft : needJL tl ≤ f2 := le_trans (Nat.le_max_right _ _) hm
        show parseJ (f2 + 1) (.arrRest (44 :: 32 :: ((a ++ b2) ++ (93 :: rest)))) = _
        have hl : (a ++ b2) ++ (93 :: rest) = a ++ (b2 ++ (93 :: rest)) := by
          simp
        rw [hl]
        have hred : parseJ (f2 + 1) (.arrRest (44 :: 32 :: (a ++ (b2 ++ (93 :: rest)))))
            = match parseJ f2 (.val (32 :: (a ++ (b2 ++ (93 :: rest))))) with
              | .error e => (Except.error e : Except PyExc (MsgValue × List Nat))
              | .ok (w, r2) =>
                match parseJ f2 (.arrRest r2) with
                | .ok (.arr tl2, r3) => .ok (.arr (.cons w tl2), r3)
                | .ok _ => .error .jsonDecodeError
                | .error e => .error e := rfl
        rw [hred]
        obtain ⟨f3, rfl⟩ := fuel_succ (needJV_pos v) hfv
        rw [parseJ_val_ws f3 (a ++ (b2 ++ (93 :: rest)))]
        have hv := parseJ_dumps_val v (f3 + 1) a (b2 ++ (93 :: rest)) hwv hva
          (numBdry_of_shape b2 rest 93 (jsonDumpsElemsRest_shape tl b2 hvb)
            (Or.inl rfl)) hfv
        rw [hv]
        show (match parseJ (f3 + 1) (.arrRest (b2 ++ (93 :: rest))) with
          | .ok (.arr tl2, r3) =>
            (Except.ok (MsgValue.arr (.cons v tl2), r3) :
              Except PyExc (MsgValue × List Nat))
          | .ok _ => .error .jsonDecodeError
          | .error e => .error e) = _
        rw [parseJ_dumps_arrRest tl (f3 + 1) b2 rest hwtl hvb hb hft]

theorem parseJ_dumps_objRest (ps : MsgPairs) : ∀ (f : Nat) (b rest : List Nat),
    jtWFP ps = true → jsonDumpsMembersRest ps = some b → numBdry rest →
    needJP ps ≤ f →
    parseJ f (.objRest (b ++ (125 :: rest))) = .ok (.map ps, rest) := by
  cases ps with
  | nil =>
    intro f b rest hwf hd hb hf
    obtain ⟨f2, rfl⟩ := fuel_succ (needJP_pos .nil) hf
    injection hd with hd
    subst hd
    rfl
  | cons k v tl =>
    intro f b rest hwf hd hb hf
    obtain ⟨f2, rfl⟩ := fuel_succ (needJP_pos (.cons k v tl)) hf
    simp only [jtWFP, Bool.and_eq_true, decide_eq_true_eq] at hwf
    obtain ⟨hwk, hwv, hwtl⟩ := hwf
    unfold jsonDumpsMembersRest at hd
    rcases hva : jsonDumpsVal v with _ | a <;> rw [hva] at hd
    · exact absurd hd (by simp)
    · rcases hvb : jsonDumpsMembersRest tl with _ | b2 <;> rw [hvb] at hd
      · exact absurd hd (by simp)
      · injection hd with hd
        subst hd
        have hm : Nat.max (needJV v) (needJP tl) ≤ f2 := by
          have h3 : Nat.max (needJV v) (needJP tl) + 1 ≤ f2 + 1 := hf
          omega
        have hfv : needJV v ≤ f2 := le_trans (Nat.le_max_left _ _) hm
        have hft : needJP tl ≤ f2 := le_trans (Nat.le_max_right _ _) hm
        show parseJ (f2 + 1) (.objRest (44 :: 32 :: 34 ::
          ((jsonEscStr k ++ (34 :: 58 :: 32 :: (a ++ b2))) ++ (125 :: rest)))) = _
        have hl : (jsonEscStr k ++ (34 :: 58 :: 32 :: (a ++ b2))) ++ (125 :: rest)
            = jsonEscStr k ++ (34 :: 58 :: 32 :: (a ++ (b2 ++ (125 :: rest)))) := by
          simp
        rw [hl]
        have hred : parseJ (f2 + 1) (.objRest (44 :: 32 :: 34 ::
            (jsonEscStr k ++ (34 :: 58 :: 32 :: (a ++ (b2 ++ (125 :: rest)))))))
            = match parseStrBody
                (jsonEscStr k ++ (34 :: 58 :: 32 :: (a ++ (b2 ++ (125 :: rest))))) with
              | none =>
                (Except.error PyExc.jsonDecodeError :
                  Except PyExc (MsgValue × List Nat))
              | some (k2, r3) =>
                match skipWs r3 with
                | [] => .error .jsonDecodeError
                | c3 :: r4 =>
                  if c3 = 58 then
                    match parseJ f2 (.val r4) with
                    | .error e => .error e
                    | .ok (w, r5) =>
                      match parseJ f2 (.objRest r5) with
                      | .ok (.map tl2, r6) => .ok (.map (.cons k2 w tl2), r6)
                      | .ok _ => .error .jsonDecodeError
                      | .error e => .error e
                  else .error .jsonDecodeError := rfl
        rw [hred, parseStrBody_escStr k hwk (58 :: 32 :: (a ++ (b2 ++ (125 :: rest))))]
        show (match parseJ f2 (.val (32 :: (a ++ (b2 ++ (125 :: rest))))) with
          | .error e => (Except.error e : Except PyExc (MsgValue × List Nat))
          | .ok (w, r5) =>
            match parseJ f2 (.objRest r5) with
            | .ok (.map tl2, r6) => .ok (.map (.cons k w tl2), r6)
            | .ok _ => .error .jsonDecodeError
            | .error e => .error e) = _
        obtain ⟨f3, rfl⟩ := fuel_succ (needJV_pos v) hfv
        rw [parseJ_val_ws f3 (a ++ (b2 ++ (125 :: rest)))]
        have hv := parseJ_dumps_val v (f3 + 1) a (b2 ++ (125 :: rest)) hwv hva
          (numBdry_of_shape b2 rest 125 (jsonDumpsMembersRest_shape tl b2 hvb)
            (Or.inr rfl)) hfv
        rw [hv]
        show (match parseJ (f3 + 1) (.objRest (b2 ++ (125 :: rest))) with
          | .ok (.map tl2, r6) =>
            (Except.ok (MsgValue.map (.cons k v tl2), r6) :
              Except PyExc (MsgValue × List Nat))
          | .ok _ => .error .jsonDecodeError
          | .error e => .error e) = _
        rw [parseJ_dumps_objRest tl (f3 + 1) b2 rest hwtl hvb hb hft]

end

/-- Top-level JSON round trip: parsing the dump of a text-serializable
value recovers the value exactly. -/
theorem jsonParse_dumps (v : MsgValue) (s : List Nat)
    (hwf : jtWFV v = true) (hd : jsonDumpsVal v = some s) :
    jsonParse s = .ok v := by
  unfold jsonParse
  have hfe : needJV v ≤ 2 * s.length + 2 := by
    have h1 := needJV_le_len v s hd
    omega
  have hp := parseJ_dumps_val v (2 * s.length + 2) s [] hwf hd trivial hfe
  rw [List.append_nil] at hp
  rw [hp]
  rfl

/-! ## Python equality

Model of the `==` relation Python applies to unpacked values: `None`,
strings, bytes, lists and dicts compare structurally (dicts without regard
to insertion order); booleans, ints and floats compare numerically across
types; `NaN` compares unequal to everything, including itself. -/

/-- First-match key lookup in a dict model. -/
def pyLookup (k : List Nat) : MsgPairs → Option MsgValue
  | .nil => none
  | .cons k2 v tl => if k = k2 then some v else pyLookup k tl

/-- Numeric equality of a binary64 pattern and an exact integer. -/
def floatEqInt (bits : Nat) (n : Int) : Bool :=
  if fExp bits = 2047 then false
  else
    let sgn : Int := if fSign bits = 1 then -1 else 1
    let e := fCanonE bits
    if 0 ≤ e then decide (n = sgn * (fCanonM bits : Int) * 2 ^ e.toNat)
    else decide (n * 2 ^ (-e).toNat = sgn * (fCanonM bits : Int))

/-- Numeric equality of two binary64 patterns; `NaN` equals nothing and
the two zeros are equal. -/
def floatEqFloat (a b : Nat) : Bool :=
  if fExp a = 2047 then
    if fMant a = 0 then
      decide (fExp b = 2047) && decide (fMant b = 0) && decide (fSign a = fSign b)
    else false
  else if fExp b = 2047 then false
  else
    decide (fCanonM a = fCanonM b) && decide (fCanonE a = fCanonE b)
      && (decide (fSign a = fSign b) || decide (fCanonM a = 0))

mutual

/-- Python `==` on modelled values. -/
def pyEqV : MsgValue → MsgValue → Bool
  | .nil, .nil => true
  | .bool b, .bool c => decide (b = c)
  | .bool b, .int m => decide (((if b then 1 else 0) : Int) = m)
  | .int n, .bool c => decide (n = ((if c then 1 else 0) : Int))
  | .int n, .int m => decide (n = m)
  | .int n, .float bits => floatEqInt bits n
  | .float bits, .int m => floatEqInt bits m
  | .bool b, .float bits => floatEqInt bits ((if b then 1 else 0) : Int)
  | .float bits, .bool c => floatEqInt bits ((if c then 1 else 0) : Int)
  | .float a, .float b => floatEqFloat a b
  | .str s, .str t => decide (s = t)
  | .bin s, .bin t => decide (s = t)
  | .arr xs, .arr ys => pyEqL xs ys
  | .map ps, .map qs =>
    decide (MsgPairs.length ps = MsgPairs.length qs) && pySubP ps qs
  | _, _ => false

/-- Python `==` on lists: positional. -/
def pyEqL : MsgList → MsgList → Bool
  | .nil, .nil => true
  | .cons v tl, .cons w tl2 => pyEqV v w && pyEqL tl tl2
  | _, _ => false

/-- Every pair of the first dict looks up equal in the second. -/
def pySubP : MsgPairs → MsgPairs → Bool
  | .nil, _ => true
  | .cons k v tl, b =>
    (match pyLookup k b with
     | some w => pyEqV v w
     | none => false) && pySubP tl b

end

/-- Python `==` on dicts: equal size and pointwise-equal values by key. -/
def pyEqP (a b : MsgPairs) : Bool :=
  decide (MsgPairs.length a = MsgPairs.length b) && pySubP a b

/-- `k` is absent from the keys of a dict model. -/
def keyNotIn (k : List Nat) : MsgPairs → Bool
  | .nil => true
  | .cons k2 _ tl => ! decide (k = k2) && keyNotIn k tl

/-- The keys of a dict model are pairwise distinct, as Python dict keys
always are. -/
def keysNodup : MsgPairs → Bool
  | .nil => true
  | .cons k _ tl => keyNotIn k tl && keysNodup tl

/-- Pair membership in a dict model. -/
def pairMem (k : List Nat) (v : MsgValue) : MsgPairs → Prop
  | .nil => False
  | .cons k2 v2 tl => (k = k2 ∧ v = v2) ∨ pairMem k v tl

mutual

/-- Values on which Python `==` is reflexive: no `NaN` anywhere, and dict
keys pairwise distinct. -/
def selfEqOKV : MsgValue → Bool
  | .float bits => ! decide (fIsNan bits)
  | .arr xs => selfEqOKL xs
  | .map ps => keysNodup ps && selfEqOKP ps
  | _ => true

def selfEqOKL : MsgList → Bool
  | .nil => true
  | .cons v tl => selfEqOKV v && selfEqOKL tl

def selfEqOKP : MsgPairs → Bool
  | .nil => true
  | .cons _ v tl => selfEqOKV v && selfEqOKP tl

end

theorem keyNotIn_no_mem (k : List Nat) (v : MsgValue) (ps : MsgPairs)
    (hn : keyNotIn k ps = true) (hm : pairMem k v ps) : False := by
  cases ps with
  | nil => exact hm
  | cons k2 v2 tl =>
    simp only [keyNotIn, Bool.and_eq_true, Bool.not_eq_true',
      decide_eq_false_iff_not] at hn
    rcases hm with ⟨hk, _⟩ | hm
    · exact hn.1 hk
    · exact keyNotIn_no_mem k v tl hn.2 hm

theorem pyLookup_of_nodup (ps : MsgPairs) (k : List Nat) (v : MsgValue)
    (hnd : keysNodup ps = true) (hm : pairMem k v ps) :
    pyLookup k ps = some v := by
  cases ps with
  | nil => exact hm.elim
  | cons k2 v2 tl =>
    simp only [keysNodup, Bool.and_eq_true] at hnd
    rcases hm with ⟨rfl, rfl⟩ | hm
    · unfold pyLookup
      rw [if_pos rfl]
    · unfold pyLookup
      by_cases hk : k = k2
      · subst hk
        exact absurd hm (fun hmm => keyNotIn_no_mem k v tl hnd.1 hmm)
      · rw [if_neg hk]
        exact pyLookup_of_nodup tl k v hnd.2 hm

theorem floatEqFloat_refl (bits : Nat) (h : ¬ fIsNan bits) :
    floatEqFloat bits bits = true := by
  unfold floatEqFloat
  by_cases hexp : fExp bits = 2047
  · rw [if_pos hexp]
    have hm : fMant bits = 0 := by
      by_contra hmm
      exact h ⟨hexp, hmm⟩
    rw [if_pos hm]
    simp [hexp, hm]
  · rw [if_neg hexp, if_neg hexp]
    simp

mutual

theorem pyEqV_refl (v : MsgValue) : selfEqOKV v = true → pyEqV v v = true := by
  cases v with
  | nil => intro h; rfl
  | bool b => intro h; cases b <;> rfl
  | int n =>
    intro h
    show decide (n = n) = true
    simp
  | float bits =>
    intro h
    simp only [selfEqOKV, Bool.not_eq_true', decide_eq_false_iff_not] at h
    show floatEqFloat bits bits = true
    exact floatEqFloat_refl bits h
  | str t =>
    intro h
    show decide (t = t) = true
    simp
  | bin t =>
    intro h
    show decide (t = t) = true
    simp
  | arr xs =>
    intro h
    show pyEqL xs xs = true
    exact pyEqL_refl xs h
  | map ps =>
    intro h
    simp only [selfEqOKV, Bool.and_eq_true] at h
    show (decide (MsgPairs.length ps = MsgPairs.length ps) && pySubP ps ps) = true
    rw [pySubP_refl ps ps h.2
      (fun k v hm => pyLookup_of_nodup ps k v h.1 hm)]
    simp

theorem pyEqL_refl (xs : MsgList) : selfEqOKL xs = true → pyEqL xs xs = true := by
  cases xs with
  | nil => intro h; rfl
  | cons v tl =>
    intro h
    simp only [selfEqOKL, Bool.and_eq_true] at h
    show (pyEqV v v && pyEqL tl tl) = true
    rw [pyEqV_refl v h.1, pyEqL_refl tl h.2]
    rfl

theorem pySubP_refl (ps : MsgPairs) : ∀ qs : MsgPairs, selfEqOKP ps = true →
    (∀ k v, pairMem k v ps → pyLookup k qs = some v) → pySubP ps qs = true := by
  cases ps with
  | nil =>
    intro qs h hlk
    rfl
  | cons k v tl =>
    intro qs h hlk
    simp only [selfEqOKP, Bool.and_eq_true] at h
    have h1 := hlk k v (Or.inl ⟨rfl, rfl⟩)
    unfold pySubP
    rw [h1]
    show (pyEqV v v && pySubP tl qs) = true
    rw [pyEqV_refl v h.1,
      pySubP_refl tl qs h.2 (fun k2 v2 hm => hlk k2 v2 (Or.inr hm))]
    rfl

end

/-! ## Protocol layer

Model of `src/ventu/protocol.py`.  A socket connection is the list of byte
chunks the peer will deliver: one `recv` returns at most `n` bytes taken
from the first chunk only, never combining chunks, exactly as a stream
socket may; `[]` models a closed connection (`recv` returns no bytes). -/

def recv (n : Nat) : List (List Nat) → List Nat × List (List Nat)
  | [] => ([], [])
  | ch :: rest =>
    if ch.length ≤ n then (ch, rest)
    else (ch.take n, ch.drop n :: rest)

/-- `struct.pack('!i', n)`: big-endian two's-complement 32-bit;
`struct.error` when out of range. -/
def structPackI32 (n : Int) : Except PyExc (List Nat) :=
  if n < -(2 ^ 31) ∨ 2 ^ 31 ≤ n then .error .structError
  else .ok (beBytes 4 (n % 2 ^ 32).toNat)

/-- `struct.unpack('!i', bs)[0]`: requires exactly 4 bytes. -/
def structUnpackI32 (bs : List Nat) : Except PyExc Int :=
  if bs.length = 4 then
    .ok (if beVal bs < 2 ^ 31 then (beVal bs : Int)
      else (beVal bs : Int) - 2 ^ 32)
  else .error .structError

/-- `INIT_MESSAGE = struct.pack(STRUCT_FORMAT, 0)`. -/
def INIT_MESSAGE : List Nat := [0, 0, 0, 0]

/-- `BatchProtocol._request`: one 4-byte `recv` for the length prefix,
then one `recv` for the body; `conn.recv` with a negative size raises
`ValueError`. -/
def _request (conn : List (List Nat)) :
    Except PyExc (List Nat × List (List Nat)) :=
  match recv 4 conn with
  | (lengthBytes, c1) =>
    match structUnpackI32 lengthBytes with
    | .error e => .error e
    | .ok length =>
      if length < 0 then .error .valueError
      else .ok (recv length.toNat c1)

/-- `BatchProtocol._response`: msgpack-pack the envelope, then send the
4-byte length prefix followed by the payload; the result is the byte
stream written to the socket. -/
def _response (data : MsgValue) : Except PyExc (List Nat) :=
  match packb data with
  | .error e => .error e
  | .ok bs =>
    match structPackI32 (bs.length : Int) with
    | .error e => .error e
    | .ok pre => .ok (pre ++ bs)

/-- `BatchProtocol._pack`: msgpack gives `bytes`, JSON gives `str`. -/
def _pack (useMsgpack : Bool) (data : MsgValue) : Except PyExc MsgValue :=
  if useMsgpack then
    match packb data with
    | .error e => .error e
    | .ok bs => .ok (.bin bs)
  else
    match jsonDumpsVal data with
    | none => .error .typeError
    | some cs => .ok (.str cs)

/-- `BatchProtocol._unpack` applied to one envelope payload value:
msgpack accepts only `bytes`; `json.loads` accepts `str` or `bytes`
(decoding the latter as UTF-8). -/
def _unpack (useMsgpack : Bool) : MsgValue → Except PyExc MsgValue
  | .bin bs => if useMsgpack then unpackb bs else jsonLoadsBytes bs
  | .str cs => if useMsgpack then .error .typeError else jsonParse cs
  | _ => .error .typeError

/-- The user-supplied pieces a `BatchProtocol` instance closes over:
payload mode, the two pydantic schemas, the rendering of a caught
exception as a Python value, and the inference callable. -/
structure Schemas (α : Type) where
  useMsgpack : Bool
  reqSchema : MsgValue → Except PyExc α
  respSchema : MsgValue → Except PyExc Unit
  errVal : PyExc → MsgValue
  infer : List α → List MsgValue

/-- The exceptions `process` converts into per-item error payloads:
`ValidationError`, `json.JSONDecodeError`, `msgpack.ExtraData`,
`msgpack.FormatError`, `msgpack.StackError`.  Everything else escapes. -/
def perItemCaught : PyExc → Bool
  | .validationError => true
  | .jsonDecodeError => true
  | .extraData => true
  | .formatError => true
  | .stackError => true
  | _ => false

/-- One iteration of the per-item scan: unpack, then validate; a caught
exception becomes a packed error payload, anything else propagates. -/
def scanItem (S : Schemas α) (byte : MsgValue) : Except PyExc (α ⊕ MsgValue) :=
  match ((match _unpack S.useMsgpack byte with
         | .error e => .error e
         | .ok data => S.reqSchema data) : Except PyExc α) with
  | .ok obj => .ok (.inl obj)
  | .error e =>
    if perItemCaught e then
      match _pack S.useMsgpack (S.errVal e) with
      | .ok payload => .ok (.inr payload)
      | .error e2 => .error e2
    else .error e

/-- The scan loop over `enumerate(batch.values())`: accumulates the
validated objects and the `(index, packed error)` pairs in order. -/
def scanItemsGo (S : Schemas α) : Nat → List MsgValue →
    Except PyExc (List α × List (Nat × MsgValue))
  | _, [] => .ok ([], [])
  | i, b :: bs =>
    match scanItem S b with
    | .error e => .error e
    | .ok (.inl obj) =>
      match scanItemsGo S (i + 1) bs with
      | .error e => .error e
      | .ok (vs, es) => .ok (obj :: vs, es)
    | .ok (.inr payload) =>
      match scanItemsGo S (i + 1) bs with
      | .error e => .error e
      | .ok (vs, es) => .ok (vs, (i, payload) :: es)

/-- Envelope keys, in wire order. -/
def envKeys : MsgPairs → List (List Nat)
  | .nil => []
  | .cons k _ tl => k :: envKeys tl

/-- Envelope values, in wire order. -/
def envVals : MsgPairs → List MsgValue
  | .nil => []
  | .cons _ v tl => v :: envVals tl

/-- `batch = msgpack.unpackb(frame); ids = list(batch.keys())`: the frame
always decodes with msgpack, whatever the payload mode; a non-dict result
fails at `batch.keys()` with `AttributeError`. -/
def decodeEnvelope (frame : List Nat) :
    Except PyExc (List (List Nat) × List MsgValue) :=
  match unpackb frame with
  | .error e => .error e
  | .ok (.map ps) => .ok (envKeys ps, envVals ps)
  | .ok _ => .error .attributeError

/-- The inference stage: call `infer` once on a non-empty validated list
(recording the call), assert the result has equal length; skip the call
entirely on an empty list. -/
def inferStage (S : Schemas α) (validated : List α) :
    List (List α) × Except PyExc (List MsgValue) :=
  if validated.isEmpty then ([], .ok [])
  else
    if (S.infer validated).length = validated.length then
      ([validated], .ok (S.infer validated))
    else ([validated], .error .assertionError)

/-- `for data in result: self.resp_schema.parse_obj(data)` — uncaught. -/
def respValidate (S : Schemas α) : List MsgValue → Except PyExc Unit
  | [] => .ok ()
  | r :: rs =>
    match S.respSchema r with
    | .error e => .error e
    | .ok _ => respValidate S rs

/-- `result = [self._pack(data) for data in result]`. -/
def packResults (S : Schemas α) : List MsgValue → Except PyExc (List MsgValue)
  | [] => .ok []
  | r :: rs =>
    match _pack S.useMsgpack r with
    | .error e => .error e
    | .ok p =>
      match packResults S rs with
      | .error e => .error e
      | .ok ps => .ok (p :: ps)

/-- `list.insert(index, x)`: Python clamps an oversized index to the end. -/
def insertAt (i : Nat) (x : MsgValue) (l : List MsgValue) : List MsgValue :=
  l.take i ++ x :: l.drop i

/-- The error-merging loop: `result.insert(index, err_msg)` over the
recorded errors in order. -/
def mergeErrors : List (Nat × MsgValue) → List MsgValue → List MsgValue
  | [], result => result
  | (i, m) :: es, result => mergeErrors es (insertAt i m result)

/-- The `err_ids += ids[index]` accumulation, in recorded order. -/
def errIdsStr (ids : List (List Nat)) : List (Nat × MsgValue) → List Nat
  | [] => []
  | (i, _) :: es => ids.getD i [] ++ errIdsStr ids es

/-- Python dict assignment: overwrite in place, or append a new key. -/
def dictSet : MsgPairs → List Nat → MsgValue → MsgPairs
  | .nil, k, v => .cons k v .nil
  | .cons k2 v2 tl, k, v =>
    if k = k2 then .cons k2 v tl else .cons k2 v2 (dictSet tl k v)

/-- `dict(zip(ids, result))`: successive assignment of the zipped pairs. -/
def dictFrom : MsgPairs → List (List Nat × MsgValue) → MsgPairs
  | acc, [] => acc
  | acc, (k, v) :: rest => dictFrom (dictSet acc k v) rest

/-- The reserved `error_ids` key. -/
def ERROR_IDS_KEY : List Nat := [101, 114, 114, 111, 114, 95, 105, 100, 115]

/-- The response dict: `resp = dict(zip(ids, result))` after the error
merge, with `error_ids` assigned only when the accumulated id string is
non-empty. -/
def respDict (ids : List (List Nat)) (errors : List (Nat × MsgValue))
    (packed : List MsgValue) : MsgPairs :=
  if errIdsStr ids errors = [] then
    dictFrom .nil (ids.zip (mergeErrors errors packed))
  else
    dictSet (dictFrom .nil (ids.zip (mergeErrors errors packed)))
      ERROR_IDS_KEY (.str (errIdsStr ids errors))

/-- `BatchProtocol.process`: one request frame, envelope decode, per-item
scan, single inference call, response validation, packing, error merge and
response emission.  Returns the log of inference invocations alongside the
outcome; on success the outcome carries the response dict, the bytes
written and the remaining connection. -/
def processAfterScan (S : Schemas α) (c1 : List (List Nat))
    (ids : List (List Nat)) (validated : List α)
    (errors : List (Nat × MsgValue)) :
    List (List α) × Except PyExc (MsgPairs × List Nat × List (List Nat)) :=
  match inferStage S validated with
  | (calls, .error e) => (calls, .error e)
  | (calls, .ok result) =>
    match respValidate S result with
    | .error e => (calls, .error e)
    | .ok _ =>
      match packResults S result with
      | .error e => (calls, .error e)
      | .ok packed =>
        match _response (.map (respDict ids errors packed)) with
        | .error e => (calls, .error e)
        | .ok out => (calls, .ok (respDict ids errors packed, out, c1))

def process (S : Schemas α) (conn : List (List Nat)) :
    List (List α) × Except PyExc (MsgPairs × List Nat × List (List Nat)) :=
  match _request conn with
  | .error e => ([], .error e)
  | .ok (frame, c1) =>
    match decodeEnvelope frame with
    | .error e => ([], .error e)
    | .ok (ids, vals) =>
      match scanItemsGo S 0 vals with
      | .error e => ([], .error e)
      | .ok (validated, errors) => processAfterScan S c1 ids validated errors

/-- The run-loop connection lifecycle: `connect`, handshake write, serve;
a `BrokenPipeError` anywhere in the body is caught and the loop starts
over at connecting; any other exception escapes `run` and the loop is
dead.  Each step consumes the outcome of the phase action. -/
inductive Phase where
  | connecting
  | handshaking
  | serving
  | dead
deriving DecidableEq

def runStep : Phase → Except PyExc Unit → Phase
  | .connecting, .ok _ => .handshaking
  | .connecting, .error e =>
    if e = .brokenPipeError then .connecting else .dead
  | .handshaking, .ok _ => .serving
  | .handshaking, .error e =>
    if e = .brokenPipeError then .connecting else .dead
  | .serving, .ok _ => .serving
  | .serving, .error e =>
    if e = .brokenPipeError then .connecting else .dead
  | .dead, _ => .dead

/-- Iterated run-loop steps over a sequence of action outcomes. -/
def runTrace (p : Phase) : List (Except PyExc Unit) → Phase
  | [] => p
  | ev :: evs => runTrace (runStep p ev) evs

/-! ## Process refinement: positional specification of the merge -/

/-- Positional specification of the merged result list: each item that
scanned to an error contributes its packed error payload at its own
position; each validated item consumes the next packed inference result. -/
def mergeSpec (S : Schemas α) : List MsgValue → List MsgValue → List MsgValue
  | [], rs => rs
  | b :: bs, rs =>
    match scanItem S b with
    | .ok (.inl _) =>
      match rs with
      | [] => []
      | r :: rs2 => r :: mergeSpec S bs rs2
    | .ok (.inr m) => m :: mergeSpec S bs rs
    | .error _ => []

/-- Positional specification of the `err_ids` string: the ids of the
error items, concatenated in batch order. -/
def errIdsSpec (S : Schemas α) : List (List Nat) → List MsgValue → List Nat
  | _, [] => []
  | [], _ :: _ => []
  | id :: ids, b :: bs =>
    match scanItem S b with
    | .ok (.inr _) => id ++ errIdsSpec S ids bs
    | _ => errIdsSpec S ids bs

theorem insertAt_at_prefix (pre : List MsgValue) (x : MsgValue)
    (rs : List MsgValue) :
    insertAt pre.length x (pre ++ rs) = pre ++ (x :: rs) := by
  unfold insertAt
  rw [List.take_left, List.drop_left]

theorem mergeErrors_spec (S : Schemas α) (bs : List MsgValue) :
    ∀ (b : Nat) (vs : List α) (es : List (Nat × MsgValue))
      (pre rs : List MsgValue),
    scanItemsGo S b bs = .ok (vs, es) → pre.length = b → rs.length = vs.length →
    mergeErrors es (pre ++ rs) = pre ++ mergeSpec S bs rs := by
  induction bs with
  | nil =>
    intro b vs es pre rs hscan hpre hrs
    have h : (([] : List α), ([] : List (Nat × MsgValue))) = (vs, es) := by
      injection hscan
    obtain ⟨h1, h2⟩ := Prod.mk.injEq .. ▸ h
    subst h1
    subst h2
    rfl
  | cons x bs ih =>
    intro b vs es pre rs hscan hpre hrs
    unfold scanItemsGo at hscan
    rcases hsi : scanItem S x with e | o <;> rw [hsi] at hscan
    · exact absurd hscan (by simp)
    · rcases o with obj | m
      · rcases hrec : scanItemsGo S (b + 1) bs with e | p <;> rw [hrec] at hscan
        · exact absurd hscan (by simp)
        · obtain ⟨vs2, es2⟩ := p
          have h : ((obj :: vs2 : List α), es2) = (vs, es) := by
            injection hscan
          obtain ⟨h1, h2⟩ := Prod.mk.injEq .. ▸ h
          subst h1
          subst h2
          rcases rs with _ | ⟨r, rs2⟩
          · exact absurd hrs (by simp)
          · have hrs2 : rs2.length = vs2.length := by
              simpa using hrs
            have hrec2 := ih (b + 1) vs2 es2 (pre ++ [r]) rs2 hrec
              (by simp [hpre]) hrs2
            have hms : mergeSpec S (x :: bs) (r :: rs2) = r :: mergeSpec S bs rs2 := by
              conv_lhs => unfold mergeSpec
              rw [hsi]
            rw [show pre ++ r :: rs2 = (pre ++ [r]) ++ rs2 from by simp]
            rw [hrec2, hms]
            simp
      · rcases hrec : scanItemsGo S (b + 1) bs with e | p <;> rw [hrec] at hscan
        · exact absurd hscan (by simp)
        · obtain ⟨vs2, es2⟩ := p
          have h : ((vs2 : List α), ((b, m) :: es2 : List (Nat × MsgValue)))
              = (vs, es) := by
            injection hscan
          obtain ⟨h1, h2⟩ := Prod.mk.injEq .. ▸ h
          subst h1
          subst h2
          show mergeErrors es2 (insertAt b m (pre ++ rs)) = _
          rw [← hpre, insertAt_at_prefix pre m rs,
            show pre ++ m :: rs = (pre ++ [m]) ++ rs from by simp,
            ih (b + 1) vs2 es2 (pre ++ [m]) rs hrec (by simp [hpre]) hrs]
          have hms : mergeSpec S (x :: bs) rs = m :: mergeSpec S bs rs := by
            conv_lhs => unfold mergeSpec
            rw [hsi]
          rw [hms]
          simp

theorem errIdsStr_spec (S : Schemas α) (bs : List MsgValue) :
    ∀ (b : Nat) (vs : List α) (es : List (Nat × MsgValue))
      (pre ids : List (List Nat)),
    scanItemsGo S b bs = .ok (vs, es) → pre.length = b → ids.length = bs.length →
    errIdsStr (pre ++ ids) es = errIdsSpec S ids bs := by
  induction bs with
  | nil =>
    intro b vs es pre ids hscan hpre hlen
    have h : (([] : List α), ([] : List (Nat × MsgValue))) = (vs, es) := by
      injection hscan
    obtain ⟨h1, h2⟩ := Prod.mk.injEq .. ▸ h
    subst h2
    rcases ids with _ | _
    · rfl
    · exact absurd hlen (by simp)
  | cons x bs ih =>
    intro b vs es pre ids hscan hpre hlen
    rcases ids with _ | ⟨id, ids2⟩
    · exact absurd hlen (by simp)
    have hlen2 : ids2.length = bs.length := by
      simpa using hlen
    unfold scanItemsGo at hscan
    rcases hsi : scanItem S x with e | o <;> rw [hsi] at hscan
    · exact absurd hscan (by simp)
    · rcases o with obj | m
      · rcases hrec : scanItemsGo S (b + 1) bs with e | p <;> rw [hrec] at hscan
        · exact absurd hscan (by simp)
        · obtain ⟨vs2, es2⟩ := p
          have h : ((obj :: vs2 : List α), es2) = (vs, es) := by
            injection hscan
          obtain ⟨h1, h2⟩ := Prod.mk.injEq .. ▸ h
          subst h2
          rw [show pre ++ id :: ids2 = (pre ++ [id]) ++ ids2 from by simp,
            ih (b + 1) vs2 es2 (pre ++ [id]) ids2 hrec (by simp [hpre]) hlen2]
          have hes : errIdsSpec S (id :: ids2) (x :: bs) = errIdsSpec S ids2 bs := by
            conv_lhs => unfold errIdsSpec
            rw [hsi]
          rw [hes]
      · rcases hrec : scanItemsGo S (b + 1) bs with e | p <;> rw [hrec] at hscan
        · exact absurd hscan (by simp)
        · obtain ⟨vs2, es2⟩ := p
          have h : ((vs2 : List α), ((b, m) :: es2 : List (Nat × MsgValue)))
              = (vs, es) := by
            injection hscan
          obtain ⟨h1, h2⟩ := Prod.mk.injEq .. ▸ h
          subst h2
          show (pre ++ id :: ids2).getD b [] ++ errIdsStr (pre ++ id :: ids2) es2
            = _
          have hgd : (pre ++ id :: ids2).getD b [] = id := by
            subst hpre
            unfold List.getD
            rw [List.get?_append_right (le_refl _), Nat.sub_self]
            rfl
          rw [hgd,
            show pre ++ id :: ids2 = (pre ++ [id]) ++ ids2 from by simp,
            ih (b + 1) vs2 es2 (pre ++ [id]) ids2 hrec (by simp [hpre]) hlen2]
          have hes : errIdsSpec S (id :: ids2) (x :: bs)
              = id ++ errIdsSpec S ids2 bs := by
            conv_lhs => unfold errIdsSpec
            rw [hsi]
          rw [hes]

theorem scanItemsGo_length (S : Schemas α) (bs : List MsgValue) :
    ∀ (b : Nat) (vs : List α) (es : List (Nat × MsgValue)),
    scanItemsGo S b bs = .ok (vs, es) → vs.length + es.length = bs.length := by
  induction bs with
  | nil =>
    intro b vs es hscan
    have h : (([] : List α), ([] : List (Nat × MsgValue))) = (vs, es) := by
      injection hscan
    obtain ⟨h1, h2⟩ := Prod.mk.injEq .. ▸ h
    subst h1
    subst h2
    rfl
  | cons x bs ih =>
    intro b vs es hscan
    unfold scanItemsGo at hscan
    rcases hsi : scanItem S x with e | o <;> rw [hsi] at hscan
    · exact absurd hscan (by simp)
    · rcases o with obj | m <;>
        (rcases hrec : scanItemsGo S (b + 1) bs with e | p <;> rw [hrec] at hscan)
      · exact absurd hscan (by simp)
      · obtain ⟨vs2, es2⟩ := p
        have h : ((obj :: vs2 : List α), es2) = (vs, es) := by
          injection hscan
        obtain ⟨h1, h2⟩ := Prod.mk.injEq .. ▸ h
        subst h1
        subst h2
        have := ih (b + 1) vs2 es2 hrec
        simp only [List.length_cons]
        omega
      · exact absurd hscan (by simp)
      · obtain ⟨vs2, es2⟩ := p
        have h : ((vs2 : List α), ((b, m) :: es2 : List (Nat × MsgValue)))
            = (vs, es) := by
          injection hscan
        obtain ⟨h1, h2⟩ := Prod.mk.injEq .. ▸ h
        subst h1
        subst h2
        have := ih (b + 1) vs2 es2 hrec
        simp only [List.length_cons]
        omega

theorem mergeSpec_length (S : Schemas α) (bs : List MsgValue) :
    ∀ (b : Nat) (vs : List α) (es : List (Nat × MsgValue)) (rs : List MsgValue),
    scanItemsGo S b bs = .ok (vs, es) → rs.length = vs.length →
    (mergeSpec S bs rs).length = bs.length := by
  induction bs with
  | nil =>
    intro b vs es rs hscan hrs
    have h : (([] : List α), ([] : List (Nat × MsgValue))) = (vs, es) := by
      injection hscan
    obtain ⟨h1, h2⟩ := Prod.mk.injEq .. ▸ h
    subst h1
    show rs.length = 0
    simpa using hrs
  | cons x bs ih =>
    intro b vs es rs hscan hrs
    unfold scanItemsGo at hscan
    rcases hsi : scanItem S x with e | o <;> rw [hsi] at hscan
    · exact absurd hscan (by simp)
    · rcases o with obj | m <;>
        (rcases hrec : scanItemsGo S (b + 1) bs with e | p <;> rw [hrec] at hscan)
      · exact absurd hscan (by simp)
      · obtain ⟨vs2, es2⟩ := p
        have h : ((obj :: vs2 : List α), es2) = (vs, es) := by
          injection hscan
        obtain ⟨h1, h2⟩ := Prod.mk.injEq .. ▸ h
        subst h1
        subst h2
        rcases rs with _ | ⟨r, rs2⟩
        · exact absurd hrs (by simp)
        · have hms : mergeSpec S (x :: bs) (r :: rs2) = r :: mergeSpec S bs rs2 := by
            conv_lhs => unfold mergeSpec
            rw [hsi]
          rw [hms]
          simp only [List.length_cons]
          rw [ih (b + 1) vs2 es2 rs2 hrec (by simpa using hrs)]
      · exact absurd hscan (by simp)
      · obtain ⟨vs2, es2⟩ := p
        have h : ((vs2 : List α), ((b, m) :: es2 : List (Nat × MsgValue)))
            = (vs, es) := by
          injection hscan
        obtain ⟨h1, h2⟩ := Prod.mk.injEq .. ▸ h
        subst h1
        subst h2
        have hms : mergeSpec S (x :: bs) rs = m :: mergeSpec S bs rs := by
          conv_lhs => unfold mergeSpec
          rw [hsi]
        rw [hms]
        simp only [List.length_cons]
        rw [ih (b + 1) vs2 es2 rs hrec hrs]

/-! ## Dict construction refinement -/

/-- Concatenation of two dict models. -/
def pairsConcat : MsgPairs → MsgPairs → MsgPairs
  | .nil, q => q
  | .cons k v tl, q => .cons k v (pairsConcat tl q)

theorem pairsConcat_nil_right (ps : MsgPairs) : pairsConcat ps .nil = ps := by
  cases ps with
  | nil => rfl
  | cons k v tl =>
    show MsgPairs.cons k v (pairsConcat tl .nil) = _
    rw [pairsConcat_nil_right tl]

theorem pairsConcat_assoc_single (a : MsgPairs) (k : List Nat) (v : MsgValue)
    (q : MsgPairs) :
    pairsConcat (pairsConcat a (.cons k v .nil)) q
      = pairsConcat a (.cons k v q) := by
  cases a with
  | nil => rfl
  | cons k2 v2 tl =>
    show MsgPairs.cons k2 v2 (pairsConcat (pairsConcat tl (.cons k v .nil)) q) = _
    rw [pairsConcat_assoc_single tl k v q]
    rfl

theorem envKeys_pairsConcat (a b : MsgPairs) :
    envKeys (pairsConcat a b) = envKeys a ++ envKeys b := by
  cases a with
  | nil => rfl
  | cons k v tl =>
    show k :: envKeys (pairsConcat tl b) = _
    rw [envKeys_pairsConcat tl b]
    rfl

theorem envVals_pairsConcat (a b : MsgPairs) :
    envVals (pairsConcat a b) = envVals a ++ envVals b := by
  cases a with
  | nil => rfl
  | cons k v tl =>
    show v :: envVals (pairsConcat tl b) = _
    rw [envVals_pairsConcat tl b]
    rfl

theorem dictSet_not_mem (ps : MsgPairs) (k : List Nat) (v : MsgValue)
    (h : k ∉ envKeys ps) :
    dictSet ps k v = pairsConcat ps (.cons k v .nil) := by
  cases ps with
  | nil => rfl
  | cons k2 v2 tl =>
    unfold dictSet
    rw [if_neg (by
      intro hk
      exact h (by rw [hk]; exact List.mem_cons_self k2 (envKeys tl)))]
    show MsgPairs.cons k2 v2 (dictSet tl k v) = _
    rw [dictSet_not_mem tl k v (fun hm => h (List.mem_cons_of_mem k2 hm))]
    rfl

theorem dictFrom_nodup (pairs : List (List Nat × MsgValue)) :
    ∀ acc : MsgPairs, (∀ p ∈ pairs, p.1 ∉ envKeys acc) →
    (pairs.map Prod.fst).Nodup →
    dictFrom acc pairs = pairsConcat acc (MsgPairs.ofList pairs) := by
  induction pairs with
  | nil =>
    intro acc hdisj hnd
    exact (pairsConcat_nil_right acc).symm
  | cons p rest ih =>
    intro acc hdisj hnd
    obtain ⟨k, v⟩ := p
    show dictFrom (dictSet acc k v) rest = _
    simp only [List.map_cons, List.nodup_cons] at hnd
    rw [dictSet_not_mem acc k v (hdisj (k, v) (List.mem_cons_self _ _)),
      ih (pairsConcat acc (.cons k v .nil)) ?hd hnd.2,
      pairsConcat_assoc_single]
    rfl
    case hd =>
      intro p hp
      rw [envKeys_pairsConcat]
      intro hm
      rcases List.mem_append.mp hm with hm1 | hm2
      · exact hdisj p (List.mem_cons_of_mem _ hp) hm1
      · have : p.1 = k := by
          simpa [envKeys] using hm2
        exact hnd.1 (this ▸ List.mem_map_of_mem Prod.fst hp)

theorem envKeys_ofList_zip (ids : List (List Nat)) :
    ∀ merged : List MsgValue, merged.length = ids.length →
    envKeys (MsgPairs.ofList (ids.zip merged)) = ids := by
  induction ids with
  | nil =>
    intro merged h
    rfl
  | cons id ids ih =>
    intro merged h
    rcases merged with _ | ⟨m, merged⟩
    · exact absurd h (by simp)
    · show id :: envKeys (MsgPairs.ofList (ids.zip merged)) = _
      rw [ih merged (by simpa using h)]

theorem envVals_ofList_zip (ids : List (List Nat)) :
    ∀ merged : List MsgValue, merged.length = ids.length →
    envVals (MsgPairs.ofList (ids.zip merged)) = merged := by
  induction ids with
  | nil =>
    intro merged h
    rcases merged with _ | _
    · rfl
    · exact absurd h (by simp)
  | cons id ids ih =>
    intro merged h
    rcases merged with _ | ⟨m, merged⟩
    · exact absurd h (by simp)
    · show m :: envVals (MsgPairs.ofList (ids.zip merged)) = _
      rw [ih merged (by simpa using h)]

theorem map_fst_zip_of_length (ids : List (List Nat)) :
    ∀ merged : List MsgValue, merged.length = ids.length →
    (ids.zip merged).map Prod.fst = ids := by
  induction ids with
  | nil =>
    intro merged h
    rfl
  | cons id ids ih =>
    intro merged h
    rcases merged with _ | ⟨m, merged⟩
    · exact absurd h (by simp)
    · show id :: (ids.zip merged).map Prod.fst = _
      rw [ih merged (by simpa using h)]

theorem envKeys_length (ps : MsgPairs) : (envKeys ps).length = ps.length := by
  cases ps with
  | nil => rfl
  | cons k v tl =>
    show (envKeys tl).length + 1 = tl.length + 1
    rw [envKeys_length tl]

theorem envVals_length (ps : MsgPairs) : (envVals ps).length = ps.length := by
  cases ps with
  | nil => rfl
  | cons k v tl =>
    show (envVals tl).length + 1 = tl.length + 1
    rw [envVals_length tl]

theorem packResults_length (S : Schemas α) (rs : List MsgValue) :
    ∀ ps : List MsgValue, packResults S rs = .ok ps → ps.length = rs.length := by
  induction rs with
  | nil =>
    intro ps h
    have h2 : ([] : List MsgValue) = ps := by injection h
    subst h2
    rfl
  | cons r rs ih =>
    intro ps h
    unfold packResults at h
    rcases hp : _pack S.useMsgpack r with e | p <;> rw [hp] at h
    · exact absurd h (by simp)
    · rcases hr : packResults S rs with e | ps2 <;> rw [hr] at h
      · exact absurd h (by simp)
      · have h2 : (p :: ps2 : List MsgValue) = ps := by injection h
        subst h2
        show ps2.length + 1 = rs.length + 1
        rw [ih ps2 hr]

/-! ## Frame codec lemmas -/

theorem structUnpackI32_beBytes (L : Nat) (h : L < 2 ^ 31) :
    structUnpackI32 (beBytes 4 L) = .ok (L : Int) := by
  unfold structUnpackI32
  rw [if_pos (beBytes_length 4 L), beVal_beBytes 4 L (by norm_num; omega),
    if_pos (by exact_mod_cast h)]

theorem structPackI32_nonneg (L : Nat) (h : L < 2 ^ 31) :
    structPackI32 (L : Int) = .ok (beBytes 4 L) := by
  unfold structPackI32
  rw [if_neg (by omega)]
  have hmod : (((L : Int) % 2 ^ 32).toNat) = L := by omega
  rw [hmod]

theorem recv_whole (ch : List Nat) (rest : List (List Nat)) (n : Nat)
    (h : ch.length ≤ n) : recv n (ch :: rest) = (ch, rest) := by
  unfold recv
  show (if ch.length ≤ n then (ch, rest)
    else (ch.take n, ch.drop n :: rest)) = _
  rw [if_pos h]

/-- Cooperative framing: a frame delivered as a 4-byte prefix chunk
followed by the whole payload chunk is read back exactly. -/
theorem request_frame (payload : List Nat) (h : payload.length < 2 ^ 31) :
    _request [beBytes 4 payload.length, payload] = .ok (payload, []) := by
  unfold _request
  rw [recv_whole _ _ 4 (by rw [beBytes_length])]
  show (match structUnpackI32 (beBytes 4 payload.length) with
    | .error e => (Except.error e : Except PyExc (List Nat × List (List Nat)))
    | .ok length =>
      if length < 0 then .error .valueError
      else .ok (recv length.toNat [payload])) = _
  rw [structUnpackI32_beBytes payload.length h]
  show (if (payload.length : Int) < 0 then
      (Except.error PyExc.valueError : Except PyExc (List Nat × List (List Nat)))
    else .ok (recv ((payload.length : Int)).toNat [payload])) = _
  rw [if_neg (by omega)]
  have ht : ((payload.length : Int)).toNat = payload.length := by omega
  rw [ht, recv_whole payload [] payload.length (le_refl _)]

/-- The write side of the frame codec: a 4-byte big-endian length prefix
followed by exactly the packed payload bytes. -/
theorem response_spec (data : MsgValue) (bs : List Nat)
    (hp : packb data = .ok bs) (hl : bs.length < 2 ^ 31) :
    _response data = .ok (beBytes 4 bs.length ++ bs) := by
  unfold _response
  rw [hp]
  show (match structPackI32 (bs.length : Int) with
    | .error e => (Except.error e : Except PyExc (List Nat))
    | .ok pre => .ok (pre ++ bs)) = _
  rw [structPackI32_nonneg bs.length hl]

/-! ## Process decomposition -/

theorem process_ok_elim (S : Schemas α) (conn : List (List Nat))
    (calls : List (List α)) (resp : MsgPairs) (out : List Nat)
    (c2 : List (List Nat))
    (hp : process S conn = (calls, .ok (resp, out, c2))) :
    ∃ frame ids vals validated errors result packed,
      _request conn = .ok (frame, c2) ∧
      decodeEnvelope frame = .ok (ids, vals) ∧
      scanItemsGo S 0 vals = .ok (validated, errors) ∧
      inferStage S validated = (calls, .ok result) ∧
      respValidate S result = .ok () ∧
      packResults S result = .ok packed ∧
      resp = respDict ids errors packed ∧
      _response (.map resp) = .ok out := by
  unfold process at hp
  rcases hreq : _request conn with e | p <;> rw [hreq] at hp
  · exact absurd hp (by simp)
  obtain ⟨frame, c1⟩ := p
  have hp2 : (match decodeEnvelope frame with
      | .error e => (([] : List (List α)),
          (.error e : Except PyExc (MsgPairs × List Nat × List (List Nat))))
      | .ok (ids, vals) =>
        match scanItemsGo S 0 vals with
        | .error e => ([], .error e)
        | .ok (validated, errors) => processAfterScan S c1 ids validated errors)
      = (calls, .ok (resp, out, c2)) := hp
  rcases hdec : decodeEnvelope frame with e | q <;> rw [hdec] at hp2
  · exact absurd hp2 (by simp)
  obtain ⟨ids, vals⟩ := q
  have hp3 : (match scanItemsGo S 0 vals with
      | .error e => (([] : List (List α)),
          (.error e : Except PyExc (MsgPairs × List Nat × List (List Nat))))
      | .ok (validated, errors) => processAfterScan S c1 ids validated errors)
      = (calls, .ok (resp, out, c2)) := hp2
  rcases hscan : scanItemsGo S 0 vals with e | r <;> rw [hscan] at hp3
  · exact absurd hp3 (by simp)
  obtain ⟨validated, errors⟩ := r
  have hp4 : processAfterScan S c1 ids validated errors
      = (calls, .ok (resp, out, c2)) := hp3
  unfold processAfterScan at hp4
  rcases hinf : inferStage S validated with ⟨calls0, res⟩
  rcases res with e | result <;> rw [hinf] at hp4
  · have hp5 : ((calls0 : List (List α)),
        (.error e : Except PyExc (MsgPairs × List Nat × List (List Nat))))
        = (calls, .ok (resp, out, c2)) := hp4
    exact absurd (congrArg Prod.snd hp5) (by simp)
  have hp5 : (match respValidate S result with
      | .error e => ((calls0 : List (List α)),
          (.error e : Except PyExc (MsgPairs × List Nat × List (List Nat))))
      | .ok _ =>
        match packResults S result with
        | .error e => (calls0, .error e)
        | .ok packed =>
          match _response (.map (respDict ids errors packed)) with
          | .error e => (calls0, .error e)
          | .ok out2 => (calls0, .ok (respDict ids errors packed, out2, c1)))
      = (calls, .ok (resp, out, c2)) := hp4
  rcases hrv : respValidate S result with e | u <;> rw [hrv] at hp5
  · exact absurd (congrArg Prod.snd hp5) (by simp)
  have hp6 : (match packResults S result with
      | .error e => ((calls0 : List (List α)),
          (.error e : Except PyExc (MsgPairs × List Nat × List (List Nat))))
      | .ok packed =>
        match _response (.map (respDict ids errors packed)) with
        | .error e => (calls0, .error e)
        | .ok out2 => (calls0, .ok (respDict ids errors packed, out2, c1)))
      = (calls, .ok (resp, out, c2)) := hp5
  rcases hpk : packResults S result with e | packed <;> rw [hpk] at hp6
  · exact absurd (congrArg Prod.snd hp6) (by simp)
  have hp7 : (match _response (.map (respDict ids errors packed)) with
      | .error e => ((calls0 : List (List α)),
          (.error e : Except PyExc (MsgPairs × List Nat × List (List Nat))))
      | .ok out2 => (calls0, .ok (respDict ids errors packed, out2, c1)))
      = (calls, .ok (resp, out, c2)) := hp6
  rcases hout : _response (.map (respDict ids errors packed))
    with e | outB <;> rw [hout] at hp7
  · exact absurd (congrArg Prod.snd hp7) (by simp)
  have hp8 : ((calls0 : List (List α)),
      (.ok (respDict ids errors packed, outB, c1) :
        Except PyExc (MsgPairs × List Nat × List (List Nat))))
      = (calls, .ok (resp, out, c2)) := hp7
  have hc : calls0 = calls := congrArg Prod.fst hp8
  have hrest : (Except.ok (respDict ids errors packed, outB, c1) :
      Except PyExc (MsgPairs × List Nat × List (List Nat)))
      = .ok (resp, out, c2) := congrArg Prod.snd hp8
  have h2 : (respDict ids errors packed, outB, c1) = (resp, out, c2) := by
    injection hrest
  have hresp : respDict ids errors packed = resp := congrArg Prod.fst h2
  have houtB : outB = out := congrArg (fun x => x.2.1) h2
  have hc1 : c1 = c2 := congrArg (fun x => x.2.2) h2
  exact ⟨frame, ids, vals, validated, errors, result, packed,
    by rw [hc1], hdec, hscan,
    by have h := hinf; rw [hc] at h; exact h,
    by cases u; exact hrv, hpk,
    hresp.symm, by have h := hout; rw [hresp, houtB] at h; exact h⟩

theorem inferStage_nil (S : Schemas α) : inferStage S [] = ([], .ok []) := rfl

theorem inferStage_cons_ok (S : Schemas α) (v : α) (tl : List α)
    (hlen : (S.infer (v :: tl)).length = (v :: tl).length) :
    inferStage S (v :: tl) = ([v :: tl], .ok (S.infer (v :: tl))) := by
  unfold inferStage
  show (if (S.infer (v :: tl)).length = (v :: tl).length
    then ([v :: tl], (Except.ok (S.infer (v :: tl)) : Except PyExc (List MsgValue)))
    else ([v :: tl], Except.error PyExc.assertionError)) = _
  rw [if_pos hlen]

theorem inferStage_mismatch (S : Schemas α) (v : α) (tl : List α)
    (hlen : ¬ (S.infer (v :: tl)).length = (v :: tl).length) :
    inferStage S (v :: tl) = ([v :: tl], .error .assertionError) := by
  unfold inferStage
  show (if (S.infer (v :: tl)).length = (v :: tl).length
    then ([v :: tl], (Except.ok (S.infer (v :: tl)) : Except PyExc (List MsgValue)))
    else ([v :: tl], Except.error PyExc.assertionError)) = _
  rw [if_neg hlen]

theorem inferStage_ok_length (S : Schemas α) (validated : List α)
    (calls : List (List α)) (result : List MsgValue)
    (h : inferStage S validated = (calls, .ok result)) :
    result.length = validated.length := by
  rcases validated with _ | ⟨v, tl⟩
  · rw [inferStage_nil] at h
    have h2 : (Except.ok [] : Except PyExc (List MsgValue)) = .ok result :=
      congrArg Prod.snd h
    have h3 : ([] : List MsgValue) = result := by injection h2
    rw [← h3]
    rfl
  · by_cases hlen : (S.infer (v :: tl)).length = (v :: tl).length
    · rw [inferStage_cons_ok S v tl hlen] at h
      have h2 : (Except.ok (S.infer (v :: tl)) : Except PyExc (List MsgValue))
          = .ok result := congrArg Prod.snd h
      have h3 : S.infer (v :: tl) = result := by injection h2
      rw [← h3]
      exact hlen
    · rw [inferStage_mismatch S v tl hlen] at h
      have h2 : (Except.error .assertionError : Except PyExc (List MsgValue))
          = .ok result := congrArg Prod.snd h
      exact absurd h2 (by simp)

theorem process_after_scan_eq (S : Schemas α) (conn : List (List Nat))
    (frame : List Nat) (c1 : List (List Nat)) (ids : List (List Nat))
    (vals : List MsgValue) (validated : List α)
    (errors : List (Nat × MsgValue))
    (hreq : _request conn = .ok (frame, c1))
    (hdec : decodeEnvelope frame = .ok (ids, vals))
    (hscan : scanItemsGo S 0 vals = .ok (validated, errors)) :
    process S conn = processAfterScan S c1 ids validated errors := by
  unfold process
  rw [hreq]
  show (match decodeEnvelope frame with
    | .error e => (([] : List (List α)),
        (.error e : Except PyExc (MsgPairs × List Nat × List (List Nat))))
    | .ok (ids, vals) =>
      match scanItemsGo S 0 vals with
      | .error e => ([], .error e)
      | .ok (validated, errors) => processAfterScan S c1 ids validated errors) = _
  rw [hdec]
  show (match scanItemsGo S 0 vals with
    | .error e => (([] : List (List α)),
        (.error e : Except PyExc (MsgPairs × List Nat × List (List Nat))))
    | .ok (validated, errors) => processAfterScan S c1 ids validated errors) = _
  rw [hscan]

theorem processAfterScan_fst (S : Schemas α) (c1 : List (List Nat))
    (ids : List (List Nat)) (validated : List α)
    (errors : List (Nat × MsgValue)) :
    (processAfterScan S c1 ids validated errors).1 = (inferStage S validated).1 := by
  unfold processAfterScan
  rcases hinf : inferStage S validated with ⟨calls0, res⟩
  rcases res with e | result
  · rfl
  · show (match respValidate S result with
      | .error e => ((calls0 : List (List α)),
          (.error e : Except PyExc (MsgPairs × List Nat × List (List Nat))))
      | .ok _ =>
        match packResults S result with
        | .error e => (calls0, .error e)
        | .ok packed =>
          match _response (.map (respDict ids errors packed)) with
          | .error e => (calls0, .error e)
          | .ok out2 => (calls0, .ok (respDict ids errors packed, out2, c1))).1
      = (calls0, (Except.ok result : Except PyExc (List MsgValue))).1
    rcases hrv : respValidate S result with e | u
    · rfl
    · show (match packResults S result with
        | .error e => ((calls0 : List (List α)),
            (.error e : Except PyExc (MsgPairs × List Nat × List (List Nat))))
        | .ok packed =>
          match _response (.map (respDict ids errors packed)) with
          | .error e => (calls0, .error e)
          | .ok out2 => (calls0, .ok (respDict ids errors packed, out2, c1))).1
        = (calls0, (Except.ok result : Except PyExc (List MsgValue))).1
      rcases hpk : packResults S result with e | packed
      · rfl
      · show (match _response (.map (respDict ids errors packed)) with
          | .error e => ((calls0 : List (List α)),
              (.error e : Except PyExc (MsgPairs × List Nat × List (List Nat))))
          | .ok out2 => (calls0, .ok (respDict ids errors packed, out2, c1))).1
          = (calls0, (Except.ok result : Except PyExc (List MsgValue))).1
        rcases hout : _response (.map (respDict ids errors packed)) with e | out2
        · rfl
        · rfl

theorem processAfterScan_err (S : Schemas α) (c1 : List (List Nat))
    (ids : List (List Nat)) (validated : List α)
    (errors : List (Nat × MsgValue)) (calls : List (List α)) (e : PyExc)
    (hinf : inferStage S validated = (calls, .error e)) :
    processAfterScan S c1 ids validated errors = (calls, .error e) := by
  unfold processAfterScan
  rw [hinf]

theorem process_decode_error (S : Schemas α) (conn : List (List Nat))
    (frame : List Nat) (c1 : List (List Nat)) (e : PyExc)
    (hreq : _request conn = .ok (frame, c1))
    (hdec : decodeEnvelope frame = .error e) :
    process S conn = ([], .error e) := by
  unfold process
  rw [hreq]
  show (match decodeEnvelope frame with
    | .error e => (([] : List (List α)),
        (.error e : Except PyExc (MsgPairs × List Nat × List (List Nat))))
    | .ok (ids, vals) =>
      match scanItemsGo S 0 vals with
      | .error e => ([], .error e)
      | .ok (validated, errors) => processAfterScan S c1 ids validated errors) = _
  rw [hdec]

theorem process_scan_error (S : Schemas α) (conn : List (List Nat))
    (frame : List Nat) (c1 : List (List Nat)) (ids : List (List Nat))
    (vals : List MsgValue) (e : PyExc)
    (hreq : _request conn = .ok (frame, c1))
    (hdec : decodeEnvelope frame = .ok (ids, vals))
    (hscan : scanItemsGo S 0 vals = .error e) :
    process S conn = ([], .error e) := by
  unfold process
  rw [hreq]
  show (match decodeEnvelope frame with
    | .error e => (([] : List (List α)),
        (.error e : Except PyExc (MsgPairs × List Nat × List (List Nat))))
    | .ok (ids, vals) =>
      match scanItemsGo S 0 vals with
      | .error e => ([], .error e)
      | .ok (validated, errors) => processAfterScan S c1 ids validated errors) = _
  rw [hdec]
  show (match scanItemsGo S 0 vals with
    | .error e => (([] : List (List α)),
        (.error e : Except PyExc (MsgPairs × List Nat × List (List Nat))))
    | .ok (validated, errors) => processAfterScan S c1 ids validated errors) = _
  rw [hscan]

theorem response_ok_elim (v : MsgValue) (out : List Nat)
    (h : _response v = .ok out) :
    ∃ bs, packb v = .ok bs ∧ bs.length < 2 ^ 31 ∧
      out = beBytes 4 bs.length ++ bs := by
  unfold _response at h
  rcases hp : packb v with e | bs <;> rw [hp] at h
  · exact absurd h (by simp)
  · have h2 : (match structPackI32 (bs.length : Int) with
        | .error e => (Except.error e : Except PyExc (List Nat))
        | .ok pre => .ok (pre ++ bs)) = .ok out := h
    unfold structPackI32 at h2
    by_cases hr : (bs.length : Int) < -(2 ^ 31) ∨ (2 : Int) ^ 31 ≤ (bs.length : Int)
    · rw [if_pos hr] at h2
      exact absurd h2 (by simp)
    · rw [if_neg hr] at h2
      have hlt : bs.length < 2 ^ 31 := by
        push_neg at hr
        exact_mod_cast hr.2
      have hmod : (((bs.length : Int) % 2 ^ 32).toNat) = bs.length := by omega
      rw [hmod] at h2
      have h3 : beBytes 4 bs.length ++ bs = out := by injection h2
      exact ⟨bs, rfl, hlt, h3.symm⟩

theorem scanItemsGo_all_ok (S : Schemas α) (bs : List MsgValue) :
    ∀ (b : Nat) (r : List α × List (Nat × MsgValue)),
    scanItemsGo S b bs = .ok r → ∀ x ∈ bs, ∃ o, scanItem S x = .ok o := by
  induction bs with
  | nil =>
    intro b r h x hx
    exact absurd hx (by simp)
  | cons y bs ih =>
    intro b r h x hx
    unfold scanItemsGo at h
    rcases hsi : scanItem S y with e | o <;> rw [hsi] at h
    · exact absurd h (by simp)
    · rcases List.mem_cons.mp hx with rfl | hx
      · exact ⟨o, hsi⟩
      · rcases o with obj | m <;>
          (rcases hrec : scanItemsGo S (b + 1) bs with e | p <;> rw [hrec] at h)
        · exact absurd h (by simp)
        · exact ih (b + 1) p hrec x hx
        · exact absurd h (by simp)
        · exact ih (b + 1) p hrec x hx

/-- Number of items of a batch that scan to a validated object. -/
def countOk (S : Schemas α) : List MsgValue → Nat
  | [] => 0
  | b :: bs =>
    (match scanItem S b with
     | .ok (.inl _) => 1
     | _ => 0) + countOk S bs

theorem scan_count_ok (S : Schemas α) (bs : List MsgValue) :
    ∀ (b : Nat) (vs : List α) (es : List (Nat × MsgValue)),
    scanItemsGo S b bs = .ok (vs, es) → vs.length = countOk S bs := by
  induction bs with
  | nil =>
    intro b vs es h
    have h2 : (([] : List α), ([] : List (Nat × MsgValue))) = (vs, es) := by
      injection h
    have h3 : ([] : List α) = vs := congrArg Prod.fst h2
    rw [← h3]
    rfl
  | cons y bs ih =>
    intro b vs es h
    unfold scanItemsGo at h
    rcases hsi : scanItem S y with e | o <;> rw [hsi] at h
    · exact absurd h (by simp)
    · rcases o with obj | m <;>
        (rcases hrec : scanItemsGo S (b + 1) bs with e | p <;> rw [hrec] at h)
      · exact absurd h (by simp)
      · obtain ⟨vs2, es2⟩ := p
        have h2 : ((obj :: vs2 : List α), es2) = (vs, es) := by injection h
        have h3 : (obj :: vs2 : List α) = vs := congrArg Prod.fst h2
        rw [← h3]
        unfold countOk
        rw [hsi]
        show vs2.length + 1 = 1 + countOk S bs
        rw [ih (b + 1) vs2 es2 hrec]
        omega
      · exact absurd h (by simp)
      · obtain ⟨vs2, es2⟩ := p
        have h2 : ((vs2 : List α), ((b, m) :: es2 : List (Nat × MsgValue)))
            = (vs, es) := by injection h
        have h3 : (vs2 : List α) = vs := congrArg Prod.fst h2
        rw [← h3]
        unfold countOk
        rw [hsi]
        show vs2.length = 0 + countOk S bs
        rw [ih (b + 1) vs2 es2 hrec]
        omega

theorem mergeSpec_error_at (S : Schemas α) (pre : List MsgValue) :
    ∀ (b : MsgValue) (post rs : List MsgValue) (m : MsgValue),
    scanItem S b = .ok (.inr m) →
    (∀ x ∈ pre, ∃ o, scanItem S x = .ok o) →
    countOk S pre ≤ rs.length →
    (mergeSpec S (pre ++ b :: post) rs).getD pre.length .nil = m := by
  induction pre with
  | nil =>
    intro b post rs m hb hok hcnt
    have hms : mergeSpec S (b :: post) rs = m :: mergeSpec S post rs := by
      conv_lhs => unfold mergeSpec
      rw [hb]
    show (mergeSpec S (b :: post) rs).getD 0 .nil = m
    rw [hms]
    rfl
  | cons x pre ih =>
    intro b post rs m hb hok hcnt
    obtain ⟨o, ho⟩ := hok x (List.mem_cons_self x pre)
    have hok2 : ∀ y ∈ pre, ∃ o, scanItem S y = .ok o :=
      fun y hy => hok y (List.mem_cons_of_mem x hy)
    rcases o with obj | m2
    · have hcnt2 : countOk S (x :: pre) = countOk S pre + 1 := by
        show (match scanItem S x with
          | .ok (.inl _) => 1
          | _ => 0) + countOk S pre = countOk S pre + 1
        rw [ho]
        show 1 + countOk S pre = countOk S pre + 1
        omega
      rcases rs with _ | ⟨r, rs2⟩
      · rw [hcnt2] at hcnt
        exact absurd hcnt (by simp)
      · have hms : mergeSpec S ((x :: pre) ++ b :: post) (r :: rs2)
            = r :: mergeSpec S (pre ++ b :: post) rs2 := by
          rw [List.cons_append]
          conv_lhs => unfold mergeSpec
          rw [ho]
        rw [hms]
        show (mergeSpec S (pre ++ b :: post) rs2).getD pre.length .nil = m
        exact ih b post rs2 m hb hok2 (by rw [hcnt2] at hcnt; simpa using hcnt)
    · have hms : mergeSpec S ((x :: pre) ++ b :: post) rs
          = m2 :: mergeSpec S (pre ++ b :: post) rs := by
        rw [List.cons_append]
        conv_lhs => unfold mergeSpec
        rw [ho]
      rw [hms]
      show (mergeSpec S (pre ++ b :: post) rs).getD pre.length .nil = m
      refine ih b post rs m hb hok2 ?_
      have hcnt2 : countOk S (x :: pre) = countOk S pre := by
        show (match scanItem S x with
          | .ok (.inl _) => 1
          | _ => 0) + countOk S pre = countOk S pre
        rw [ho]
        show 0 + countOk S pre = countOk S pre
        omega
      rw [hcnt2] at hcnt
      exact hcnt

theorem process_resp_positional (S : Schemas α) (conn : List (List Nat))
    (calls : List (List α)) (resp : MsgPairs) (out : List Nat)
    (c2 : List (List Nat)) (frame : List Nat) (ids : List (List Nat))
    (vals : List MsgValue) (validated : List α)
    (errors : List (Nat × MsgValue))
    (hreq : _request conn = .ok (frame, c2))
    (hdec : decodeEnvelope frame = .ok (ids, vals))
    (hscan : scanItemsGo S 0 vals = .ok (validated, errors))
    (hp : process S conn = (calls, .ok (resp, out, c2)))
    (hnodup : ids.Nodup) (hkey : ERROR_IDS_KEY ∉ ids)
    (hlen : ids.length = vals.length) :
    ∃ result packed,
      inferStage S validated = (calls, .ok result) ∧
      packResults S result = .ok packed ∧
      mergeErrors errors packed = mergeSpec S vals packed ∧
      errIdsStr ids errors = errIdsSpec S ids vals ∧
      (mergeSpec S vals packed).length = vals.length ∧
      envKeys resp = ids
        ++ (if errIdsSpec S ids vals = [] then [] else [ERROR_IDS_KEY]) ∧
      envVals resp = mergeSpec S vals packed
        ++ (if errIdsSpec S ids vals = [] then []
            else [.str (errIdsSpec S ids vals)]) := by
  obtain ⟨frame0, ids0, vals0, validated0, errors0, result, packed,
    hreq0, hdec0, hscan0, hinf, hrv, hpk, hresp, hout⟩ :=
    process_ok_elim S conn calls resp out c2 hp
  have hfr : (frame0, c2) = (frame, c2) := by
    have h := hreq0.symm.trans hreq
    injection h
  have hfr2 : frame = frame0 := (congrArg Prod.fst hfr).symm
  subst hfr2
  have hiv : (ids0, vals0) = (ids, vals) := by
    have h := hdec0.symm.trans hdec
    injection h
  have hiv1 : ids = ids0 := (congrArg Prod.fst hiv).symm
  have hiv2 : vals = vals0 := (congrArg Prod.snd hiv).symm
  subst hiv1
  subst hiv2
  have hve : (validated0, errors0) = (validated, errors) := by
    have h := hscan0.symm.trans hscan
    injection h
  have hve1 : validated = validated0 := (congrArg Prod.fst hve).symm
  have hve2 : errors = errors0 := (congrArg Prod.snd hve).symm
  subst hve1
  subst hve2
  have hrl : result.length = validated.length :=
    inferStage_ok_length S validated calls result hinf
  have hpl : packed.length = validated.length := by
    rw [packResults_length S result packed hpk]
    exact hrl
  have hmerge : mergeErrors errors packed = mergeSpec S vals packed := by
    have h := mergeErrors_spec S vals 0 validated errors [] packed hscan rfl hpl
    simpa using h
  have heids : errIdsStr ids errors = errIdsSpec S ids vals := by
    have h := errIdsStr_spec S vals 0 validated errors [] ids hscan rfl hlen
    simpa using h
  have hmslen : (mergeSpec S vals packed).length = vals.length :=
    mergeSpec_length S vals 0 validated errors packed hscan hpl
  have hml : (mergeErrors errors packed).length = ids.length := by
    rw [hmerge, hmslen, hlen]
  have hbase : dictFrom .nil (ids.zip (mergeErrors errors packed))
      = MsgPairs.ofList (ids.zip (mergeErrors errors packed)) := by
    have h := dictFrom_nodup (ids.zip (mergeErrors errors packed)) .nil
      (by
        intro p hp2
        show p.1 ∉ envKeys .nil
        simp [envKeys])
      (by
        rw [map_fst_zip_of_length ids _ hml]
        exact hnodup)
    exact h
  have hbk : envKeys (dictFrom .nil (ids.zip (mergeErrors errors packed))) = ids := by
    rw [hbase]
    exact envKeys_ofList_zip ids _ hml
  have hbv : envVals (dictFrom .nil (ids.zip (mergeErrors errors packed)))
      = mergeErrors errors packed := by
    rw [hbase]
    exact envVals_ofList_zip ids _ hml
  refine ⟨result, packed, hinf, hpk, hmerge, heids, hmslen, ?_, ?_⟩
  · rw [hresp]
    unfold respDict
    by_cases he : errIdsStr ids errors = []
    · rw [if_pos he, hbk]
      rw [heids] at he
      rw [if_pos he, List.append_nil]
    · rw [if_neg he, dictSet_not_mem _ _ _ (by rw [hbk]; exact hkey),
        envKeys_pairsConcat, hbk]
      rw [heids] at he
      rw [if_neg he]
      rfl
  · rw [hresp]
    unfold respDict
    by_cases he : errIdsStr ids errors = []
    · rw [if_pos he, hbv, hmerge]
      rw [heids] at he
      rw [if_pos he, List.append_nil]
    · rw [if_neg he, dictSet_not_mem _ _ _ (by rw [hbk]; exact hkey),
        envVals_pairsConcat, hbv, hmerge]
      rw [heids] at he
      rw [if_neg he, heids]
      rfl

/-! ## Concrete instances used by the claim witnesses -/

/-- Identity schemas: every payload validates to itself. -/
def idSchemas (useMsgpack : Bool) : Schemas MsgValue :=
  ⟨useMsgpack, fun v => .ok v, fun _ => .ok (), fun _ => .str [101],
    fun xs => xs⟩

/-- msgpack-mode schemas whose request validation rejects the payload `0`. -/
def exSchemas : Schemas MsgValue :=
  ⟨true, fun v => if v = .int 0 then .error .validationError else .ok v,
    fun _ => .ok (), fun _ => .str [101], fun xs => xs⟩

/-- msgpack-mode identity schemas whose inference callable drops its input. -/
def exSchemasBad : Schemas MsgValue :=
  ⟨true, fun v => .ok v, fun _ => .ok (), fun _ => .str [101], fun _ => []⟩

def exIds : List (List Nat) := [[97], [98]]

def exVals : List MsgValue :=
  [.bin (packVal (.int 1)), .bin (packVal (.int 0))]

def exErrs : List (Nat × MsgValue) := [(1, .bin (packVal (.str [101])))]

def exEnv : MsgValue :=
  .map (.cons [97] (.bin (packVal (.int 1)))
    (.cons [98] (.bin (packVal (.int 0))) .nil))

def exConn : List (List Nat) := [beBytes 4 (packVal exEnv).length, packVal exEnv]

def exResp : MsgPairs :=
  .cons [97] (.bin (packVal (.int 1)))
    (.cons [98] (.bin (packVal (.str [101])))
      (.cons ERROR_IDS_KEY (.str [98]) .nil))

def exOut : List Nat :=
  beBytes 4 (packVal (.map exResp)).length ++ packVal (.map exResp)

/-- Two-job batch in text mode whose first payload is the non-UTF-8 byte
`FF` and whose second is the valid JSON text `1`. -/
def exEnvBad : MsgValue :=
  .map (.cons [97] (.bin [0xFF]) (.cons [98] (.str [49]) .nil))

def exConnBad : List (List Nat) :=
  [beBytes 4 (packVal exEnvBad).length, packVal exEnvBad]

def exEnv1 : MsgValue := .map (.cons [97] (.bin (packVal (.int 1))) .nil)

def exConn1 : List (List Nat) :=
  [beBytes 4 (packVal exEnv1).length, packVal exEnv1]

/-- One-job msgpack-mode batch whose payload is a `str`, not `bytes`. -/
def exEnvStr : MsgValue := .map (.cons [97] (.str [97]) .nil)

def exConnStr : List (List Nat) :=
  [beBytes 4 (packVal exEnvStr).length, packVal exEnvStr]

def exMap : MsgValue := .map (.cons [97] (.int 3) .nil)

/-! ## The claims -/

/-- C1: for a decoded request envelope of N job entries, a completed
`process` responds with the same JobIDs as keys in the same relative
order (plus only the reserved `error_ids` key when some job failed); the
value list follows the positional specification `mergeSpec` — each failed
entry's packed error payload at its original position, the validated
entries' packed results in order — with exactly N payload entries, and
`error_ids` is the failed entries' ids concatenated in recorded order
(`errIdsSpec`). -/
theorem claim_C1 {α : Type} (S : Schemas α) (conn : List (List Nat))
    (calls : List (List α)) (resp : MsgPairs) (out : List Nat)
    (c2 : List (List Nat)) (frame : List Nat) (ids : List (List Nat))
    (vals : List MsgValue) (validated : List α)
    (errors : List (Nat × MsgValue))
    (hreq : _request conn = .ok (frame, c2))
    (hdec : decodeEnvelope frame = .ok (ids, vals))
    (hscan : scanItemsGo S 0 vals = .ok (validated, errors))
    (hp : process S conn = (calls, .ok (resp, out, c2)))
    (hnodup : ids.Nodup) (hkey : ERROR_IDS_KEY ∉ ids)
    (hlen : ids.length = vals.length) :
    ∃ packed,
      envKeys resp = ids
        ++ (if errIdsSpec S ids vals = [] then [] else [ERROR_IDS_KEY]) ∧
      envVals resp = mergeSpec S vals packed
        ++ (if errIdsSpec S ids vals = [] then []
            else [.str (errIdsSpec S ids vals)]) ∧
      (mergeSpec S vals packed).length = vals.length ∧
      mergeErrors errors packed = mergeSpec S vals packed ∧
      errIdsStr ids errors = errIdsSpec S ids vals := by
  obtain ⟨result, packed, hinf, hpk, h1, h2, h3, h4, h5⟩ :=
    process_resp_positional S conn calls resp out c2 frame ids vals validated
      errors hreq hdec hscan hp hnodup hkey hlen
  exact ⟨packed, h4, h5, h3, h1, h2⟩

theorem claim_C1_witness :
    ∃ packed,
      envKeys exResp = exIds
        ++ (if errIdsSpec exSchemas exIds exVals = [] then []
            else [ERROR_IDS_KEY]) ∧
      envVals exResp = mergeSpec exSchemas exVals packed
        ++ (if errIdsSpec exSchemas exIds exVals = [] then []
            else [.str (errIdsSpec exSchemas exIds exVals)]) ∧
      (mergeSpec exSchemas exVals packed).length = exVals.length ∧
      mergeErrors exErrs packed = mergeSpec exSchemas exVals packed ∧
      errIdsStr exIds exErrs = errIdsSpec exSchemas exIds exVals :=
  claim_C1 exSchemas exConn [[.int 1]] exResp exOut [] (packVal exEnv)
    exIds exVals [.int 1] exErrs (by decide) (by decide) (by decide)
    (by decide) (by decide) (by decide) (by decide)

/-- C2 counterexample: a batch with one malformed job (payload bytes `FF`,
not decodable in text mode) and one well-formed sibling aborts entirely
with an uncaught `UnicodeDecodeError`: no response is built, the sibling
is not answered, and the inference callable is never invoked. -/
theorem claim_C2_counterexample :
    process (idSchemas false) exConnBad = ([], .error .unicodeDecodeError) := by
  decide

/-- C2 (amended): per-item isolation holds exactly for the caught
exception classes: a job failing with a caught exception scans to a packed
error payload (`Sum.inr`) instead of aborting, and in a completed batch
the merged result list carries that payload at the job's own position
while validated jobs consume the packed inference results in order. -/
theorem claim_C2 {α : Type} (S : Schemas α) :
    (∀ (byte : MsgValue) (e : PyExc) (p : MsgValue),
      ((match _unpack S.useMsgpack byte with
        | .error e2 => .error e2
        | .ok data => S.reqSchema data) : Except PyExc α) = .error e →
      perItemCaught e = true →
      _pack S.useMsgpack (S.errVal e) = .ok p →
      scanItem S byte = .ok (.inr p)) ∧
    (∀ (pre post rs : List MsgValue) (b m : MsgValue),
      scanItem S b = .ok (.inr m) →
      (∀ x ∈ pre, ∃ o, scanItem S x = .ok o) →
      countOk S pre ≤ rs.length →
      (mergeSpec S (pre ++ b :: post) rs).getD pre.length .nil = m) := by
  constructor
  · intro byte e p h1 h2 h3
    unfold scanItem
    rw [h1]
    show (if perItemCaught e = true then
        (match _pack S.useMsgpack (S.errVal e) with
         | .ok payload => (Except.ok (Sum.inr payload) : Except PyExc (α ⊕ MsgValue))
         | .error e2 => .error e2)
      else .error e) = .ok (.inr p)
    rw [h2, if_pos rfl, h3]
  · exact fun pre post rs b m hb hok hcnt =>
      mergeSpec_error_at S pre b post rs m hb hok hcnt

theorem claim_C2_witness :
    scanItem exSchemas (.bin (packVal (.int 0)))
      = .ok (.inr (.bin (packVal (.str [101])))) ∧
    (mergeSpec exSchemas
      ([.bin (packVal (.int 1))] ++ (.bin (packVal (.int 0))) :: [])
      [.bin (packVal (.int 1))]).getD
        ([MsgValue.bin (packVal (.int 1))] : List MsgValue).length .nil
      = .bin (packVal (.str [101])) :=
  ⟨(claim_C2 exSchemas).1 (.bin (packVal (.int 0))) .validationError
      (.bin (packVal (.str [101]))) (by decide) (by decide) (by decide),
   (claim_C2 exSchemas).2 [.bin (packVal (.int 1))] [] [.bin (packVal (.int 1))]
      (.bin (packVal (.int 0))) (.bin (packVal (.str [101]))) (by decide)
      (by
        intro x hx
        rcases List.mem_singleton.mp hx with rfl
        exact ⟨.inl (.int 1), by decide⟩)
      (by decide)⟩

/-- C3: after a successful scan, the inference callable is invoked exactly
once with the full ordered validated list when it is non-empty (the call
log is `[validated]`), not at all when it is empty (the log is `[]`), and
a result list of the wrong length aborts the batch with a fatal
`AssertionError` rather than truncating or padding. -/
theorem claim_C3 {α : Type} (S : Schemas α) (conn : List (List Nat))
    (frame : List Nat) (c1 : List (List Nat)) (ids : List (List Nat))
    (vals : List MsgValue) (validated : List α)
    (errors : List (Nat × MsgValue))
    (hreq : _request conn = .ok (frame, c1))
    (hdec : decodeEnvelope frame = .ok (ids, vals))
    (hscan : scanItemsGo S 0 vals = .ok (validated, errors)) :
    (validated = [] →
      inferStage S validated = ([], .ok []) ∧ (process S conn).1 = []) ∧
    (validated ≠ [] → (process S conn).1 = [validated]) ∧
    (validated ≠ [] → ¬ (S.infer validated).length = validated.length →
      process S conn = ([validated], .error .assertionError)) := by
  have hpe := process_after_scan_eq S conn frame c1 ids vals validated errors
    hreq hdec hscan
  refine ⟨?_, ?_, ?_⟩
  · rintro rfl
    exact ⟨inferStage_nil S,
      by rw [hpe, processAfterScan_fst, inferStage_nil]⟩
  · intro hne
    rcases validated with _ | ⟨v, tl⟩
    · exact absurd rfl hne
    · rw [hpe, processAfterScan_fst]
      by_cases hl : (S.infer (v :: tl)).length = (v :: tl).length
      · rw [inferStage_cons_ok S v tl hl]
      · rw [inferStage_mismatch S v tl hl]
  · intro hne hml
    rcases validated with _ | ⟨v, tl⟩
    · exact absurd rfl hne
    · rw [hpe, processAfterScan_err S c1 ids (v :: tl) errors [v :: tl]
        .assertionError (inferStage_mismatch S v tl hml)]

theorem claim_C3_witness :
    (process exSchemas exConn).1 = [[MsgValue.int 1]] ∧
    process exSchemasBad exConn1 = ([[MsgValue.int 1]], .error .assertionError) :=
  ⟨(claim_C3 exSchemas exConn (packVal exEnv) [] exIds exVals [.int 1] exErrs
      (by decide) (by decide) (by decide)).2.1 (by decide),
   (claim_C3 exSchemasBad exConn1 (packVal exEnv1) [] [[97]]
      [.bin (packVal (.int 1))] [.int 1] [] (by decide) (by decide)
      (by decide)).2.2 (by decide) (by decide)⟩

/-- C4 counterexample: a `ConnectionResetError` raised while serving is
not caught by the run loop: the loop terminates (`dead`) instead of
transitioning back to connecting, so not every I/O error is retried. -/
theorem claim_C4_counterexample :
    runStep .serving (.error .connectionResetError) = .dead ∧
    ¬ runStep .serving (.error .connectionResetError) = .connecting := by
  decide

/-- C4 (amended): only `BrokenPipeError` is retried: a broken pipe in any
phase of the loop body transitions back to connecting and, as long as
every outcome is a success or a broken pipe, the loop never terminates;
every other exception in serving kills the loop. -/
theorem claim_C4 :
    runStep .serving (.error .brokenPipeError) = .connecting ∧
    (∀ (p : Phase) (evs : List (Except PyExc Unit)), ¬ p = .dead →
      (∀ ev ∈ evs, ev = .ok () ∨ ev = .error .brokenPipeError) →
      ¬ runTrace p evs = .dead) ∧
    (∀ e : PyExc, ¬ e = .brokenPipeError →
      runStep .serving (.error e) = .dead) := by
  refine ⟨rfl, ?_, ?_⟩
  · intro p evs
    induction evs generalizing p with
    | nil =>
      intro hp _
      exact hp
    | cons ev evs ih =>
      intro hp hh
      show ¬ runTrace (runStep p ev) evs = .dead
      refine ih (runStep p ev) ?_ (fun x hx => hh x (List.mem_cons_of_mem ev hx))
      have hev := hh ev (List.mem_cons_self ev evs)
      rcases hev with rfl | rfl <;> cases p <;>
        first
          | exact absurd rfl hp
          | decide
  · intro e he
    show (if e = .brokenPipeError then Phase.connecting else .dead) = .dead
    rw [if_neg he]

theorem claim_C4_witness :
    ¬ runTrace .serving [.error .brokenPipeError, .ok (), .ok ()] = .dead ∧
    runStep .serving (.error .osError) = .dead :=
  ⟨claim_C4.2.1 .serving [.error .brokenPipeError, .ok (), .ok ()]
      (by decide) (by decide),
   claim_C4.2.2 .osError (by decide)⟩

/-- C5 counterexample: the frame codec's read side checks neither read:
with the prefix announcing 2 payload bytes but the socket delivering
1-byte chunks, `_request` returns a single byte — not exactly `n` bytes —
and a short 4-byte prefix read raises `struct.error`, which the connection
lifecycle manager does not handle (the run loop dies instead of
reconnecting). -/
theorem claim_C5_counterexample :
    (_request [[0, 0, 0, 2], [0xAA], [0xBB]] = .ok ([0xAA], [[0xBB]]) ∧
      ¬ ([0xAA] : List Nat).length = 2) ∧
    _request [[0, 0]] = .error .structError ∧
    runStep .serving (.error .structError) = .dead := by
  decide

/-- C5 (amended): the write side is exact — `_response` emits a 4-byte
big-endian length prefix followed by exactly the packed payload — and the
read side returns exactly the announced payload whenever each `recv` is
answered with the full requested data in one chunk. -/
theorem claim_C5 (data : MsgValue) (bs : List Nat)
    (hp : packb data = .ok bs) (hl : bs.length < 2 ^ 31) :
    _response data = .ok (beBytes 4 bs.length ++ bs) ∧
    _request [beBytes 4 bs.length, bs] = .ok (bs, []) :=
  ⟨response_spec data bs hp hl, request_frame bs hl⟩

theorem claim_C5_witness :
    _response (.int 5) = .ok (beBytes 4 ([5] : List Nat).length ++ [5]) ∧
    _request [beBytes 4 ([5] : List Nat).length, [5]] = .ok ([5], []) :=
  claim_C5 (.int 5) [5] (by decide) (by decide)

/-- C6: the request envelope is always decoded with msgpack — a frame that
msgpack rejects aborts `process` whatever the payload mode — and the
response envelope is always msgpack-packed and framed: on success the
bytes written are a 4-byte big-endian length prefix followed by the
msgpack encoding of the response dict, which is `dict(zip(ids, result))`
with `error_ids` set only for a non-empty error-id string (`respDict`). -/
theorem claim_C6 {α : Type} (S : Schemas α) :
    (∀ (conn : List (List Nat)) (frame : List Nat) (c1 : List (List Nat))
      (e : PyExc),
      _request conn = .ok (frame, c1) → unpackb frame = .error e →
      process S conn = ([], .error e)) ∧
    (∀ (conn : List (List Nat)) (calls : List (List α)) (resp : MsgPairs)
      (out : List Nat) (c2 : List (List Nat)),
      process S conn = (calls, .ok (resp, out, c2)) →
      ∃ ids errors packed bs,
        resp = respDict ids errors packed ∧
        packb (.map resp) = .ok bs ∧
        bs.length < 2 ^ 31 ∧
        out = beBytes 4 bs.length ++ bs) := by
  constructor
  · intro conn frame c1 e h1 h2
    refine process_decode_error S conn frame c1 e h1 ?_
    unfold decodeEnvelope
    rw [h2]
  · intro conn calls resp out c2 hp
    obtain ⟨frame, ids, vals, validated, errors, result, packed,
      _, _, _, _, _, hpk, hresp, hout⟩ :=
      process_ok_elim S conn calls resp out c2 hp
    obtain ⟨bs, hb1, hb2, hb3⟩ := response_ok_elim (.map resp) out hout
    exact ⟨ids, errors, packed, bs, hresp, hb1, hb2, hb3⟩

theorem claim_C6_witness :
    process (idSchemas false) [[0, 0, 0, 2], [49, 49]] = ([], .error .extraData) ∧
    ∃ ids errors packed bs,
      exResp = respDict ids errors packed ∧
      packb (.map exResp) = .ok bs ∧
      bs.length < 2 ^ 31 ∧
      exOut = beBytes 4 bs.length ++ bs :=
  ⟨(claim_C6 (idSchemas false)).1 [[0, 0, 0, 2], [49, 49]] [49, 49] []
      .extraData (by decide) (by decide),
   (claim_C6 exSchemas).2 exConn [[.int 1]] exResp exOut [] (by decide)⟩

/-- C7: the handshake frame is `INIT_MESSAGE = struct.pack('!i', 0)`:
exactly 4 bytes encoding the big-endian length 0 with zero payload bytes —
a peer reading it as a frame sees an empty payload — and after the
handshake write succeeds the loop enters serving unconditionally, awaiting
no reply. -/
theorem claim_C7 :
    structPackI32 0 = .ok INIT_MESSAGE ∧
    INIT_MESSAGE.length = 4 ∧
    structUnpackI32 INIT_MESSAGE = .ok 0 ∧
    _request [INIT_MESSAGE] = .ok ([], []) ∧
    runStep .handshaking (.ok ()) = .serving := by
  decide

/-- C8 counterexample: the round-trip equation under Python `==` fails on
`NaN`: the bytes round-trip exactly, yet `NaN == NaN` is false; and
integers at `2^64` refute it differently — `packb` raises
`OverflowError`. -/
theorem claim_C8_counterexample :
    (packb (.float nanBits) = .ok (packVal (.float nanBits)) ∧
      unpackb (packVal (.float nanBits)) = .ok (.float nanBits) ∧
      pyEqV (.float nanBits) (.float nanBits) = false) ∧
    packb (.int (2 ^ 64)) = .error .overflowError := by
  decide

/-- C8 (amended): restricted to values on which Python `==` is reflexive
(no `NaN`, dict keys distinct), whenever the serializer accepts the value
the round trip holds under `==`: in binary mode `unpackb` inverts `packb`
exactly, and in text mode parsing the JSON dump recovers the value, so in
both modes `unpack (pack v) == v`. -/
theorem claim_C8 (v : MsgValue) (hok : selfEqOKV v = true) :
    (∀ bs, packb v = .ok bs → ∃ w, unpackb bs = .ok w ∧ pyEqV w v = true) ∧
    (∀ s, jtWFV v = true → jsonDumpsVal v = some s →
      ∃ w, jsonParse s = .ok w ∧ pyEqV w v = true) := by
  constructor
  · intro bs hp
    exact ⟨v, unpackb_packb v bs hp, pyEqV_refl v hok⟩
  · intro s hwf hd
    exact ⟨v, jsonParse_dumps v s hwf hd, pyEqV_refl v hok⟩

theorem claim_C8_witness :
    (∃ w, unpackb (packVal exMap) = .ok w ∧ pyEqV w exMap = true) ∧
    (∃ w, jsonParse [123, 34, 97, 34, 58, 32, 51, 125] = .ok w ∧
      pyEqV w exMap = true) :=
  ⟨(claim_C8 exMap (by decide)).1 (packVal exMap) (by decide),
   (claim_C8 exMap (by decide)).2 [123, 34, 97, 34, 58, 32, 51, 125]
      (by decide) (by decide)⟩

/-- C9: the per-item handler catches exactly `ValidationError`,
`json.JSONDecodeError`, `msgpack.ExtraData`, `msgpack.FormatError` and
`msgpack.StackError`; any other exception raised while deserializing or
validating one item escapes the scan and aborts the whole batch with the
connection cycle's outcome being that error. -/
theorem claim_C9 {α : Type} (S : Schemas α) :
    (∀ e : PyExc, perItemCaught e = true ↔
      (e = .validationError ∨ e = .jsonDecodeError ∨ e = .extraData ∨
        e = .formatError ∨ e = .stackError)) ∧
    (∀ (byte : MsgValue) (e : PyExc),
      ((match _unpack S.useMsgpack byte with
        | .error e2 => .error e2
        | .ok data => S.reqSchema data) : Except PyExc α) = .error e →
      perItemCaught e = false → scanItem S byte = .error e) ∧
    (∀ (conn : List (List Nat)) (frame : List Nat) (c1 : List (List Nat))
      (ids : List (List Nat)) (vals : List MsgValue) (e : PyExc),
      _request conn = .ok (frame, c1) →
      decodeEnvelope frame = .ok (ids, vals) →
      scanItemsGo S 0 vals = .error e →
      process S conn = ([], .error e)) := by
  refine ⟨?_, ?_, ?_⟩
  · intro e
    cases e <;> simp [perItemCaught]
  · intro byte e h1 h2
    unfold scanItem
    rw [h1]
    show (if perItemCaught e = true then
        (match _pack S.useMsgpack (S.errVal e) with
         | .ok payload => (Except.ok (Sum.inr payload) : Except PyExc (α ⊕ MsgValue))
         | .error e2 => .error e2)
      else .error e) = .error e
    rw [h2, if_neg (by simp)]
  · intro conn frame c1 ids vals e h1 h2 h3
    exact process_scan_error S conn frame c1 ids vals e h1 h2 h3

theorem claim_C9_witness :
    (perItemCaught .extraData = true ↔
      (PyExc.extraData = .validationError ∨ PyExc.extraData = .jsonDecodeError ∨
        PyExc.extraData = .extraData ∨ PyExc.extraData = .formatError ∨
        PyExc.extraData = .stackError)) ∧
    scanItem (idSchemas true) (.str [97]) = .error .typeError ∧
    process (idSchemas true) exConnStr = ([], .error .typeError) :=
  ⟨(claim_C9 (idSchemas true)).1 .extraData,
   (claim_C9 (idSchemas true)).2.1 (.str [97]) .typeError (by decide) (by decide),
   (claim_C9 (idSchemas true)).2.2 exConnStr (packVal exEnvStr) [] [[97]]
      [.str [97]] .typeError (by decide) (by decide) (by decide)⟩

/-- C10: in text (JSON) mode `_pack` yields a character string, so every
per-job result or error payload embeds into the binary-packed response
envelope as a msgpack `str` value; only in binary (msgpack) mode are
payloads embedded as raw byte-strings. -/
theorem claim_C10 (v : MsgValue) :
    (∀ p, _pack false v = .ok p → ∃ cs, p = .str cs) ∧
    (∀ p, _pack true v = .ok p → ∃ bs, p = .bin bs) := by
  constructor
  · intro p hp
    have hp2 : (match jsonDumpsVal v with
      | none => (Except.error PyExc.typeError : Except PyExc MsgValue)
      | some cs => .ok (.str cs)) = .ok p := hp
    rcases hd : jsonDumpsVal v with _ | cs <;> rw [hd] at hp2
    · exact absurd hp2 (by simp)
    · have h3 : MsgValue.str cs = p := by injection hp2
      exact ⟨cs, h3.symm⟩
  · intro p hp
    have hp2 : (match packb v with
      | .error e => (Except.error e : Except PyExc MsgValue)
      | .ok bs => .ok (.bin bs)) = .ok p := hp
    rcases hd : packb v with e | bs <;> rw [hd] at hp2
    · exact absurd hp2 (by simp)
    · have h3 : MsgValue.bin bs = p := by injection hp2
      exact ⟨bs, h3.symm⟩

theorem claim_C10_witness :
    (∃ cs, MsgValue.str [51] = MsgValue.str cs) ∧
    (∃ bs, MsgValue.bin [3] = MsgValue.bin bs) :=
  ⟨(claim_C10 (.int 3)).1 (.str [51]) (by decide),
   (claim_C10 (.int 3)).2 (.bin [3]) (by decide)⟩

end Ventu
